import Mathlib

/-!
# i2pd: NTCP session core and reseed loader

A shallow embedding of `NTCPSession.cpp` and `Reseed.cpp`.  Bytes are natural
numbers, byte strings are lists, C buffers are lists that are written in
place, and calls to collaborators (socket, transports, netdb, I2NP
dispatcher) are recorded in a trace carried by the session state.
-/

namespace I2pd

/-! ## Byte strings and buffers -/

/-- Bytewise exclusive or of two byte strings (`a[i] ^ b[i]`). -/
def xorBytes (a b : List Nat) : List Nat := List.zipWith (fun x y => x ^^^ y) a b

/-- The two bytes `htobe16` stores for a 16-bit value: high byte first. -/
def htobe16 (v : Nat) : List Nat := [(v / 256) % 256, v % 256]

/-- The `uint16_t` that `be16toh` yields for the two bytes at the start of `b`. -/
def be16toh (b : List Nat) : Nat := (b.getD 0 0 * 256 + b.getD 1 0) % 65536

/-- The four bytes `htobe32` stores for a 32-bit value: high byte first. -/
def htobe32 (v : Nat) : List Nat :=
  [(v / 16777216) % 256, (v / 65536) % 256, (v / 256) % 256, v % 256]

/-- In-place store of `bytes` at index `pos` of the buffer `buf` (`memcpy (buf + pos, bytes, n)`). -/
def writeAt (buf : List Nat) (pos : Nat) (bytes : List Nat) : List Nat :=
  buf.take pos ++ bytes ++ buf.drop (pos + bytes.length)

/-- The `n` bytes of `buf` that start at index `pos`. -/
def slice (buf : List Nat) (pos n : Nat) : List Nat := (buf.drop pos).take n

/-! ## Collaborators -/

/-- An I2NP message: a buffer with the payload held in `buf[offset .. len)`. -/
structure I2NPMessage where
  buf : List Nat
  len : Nat
  offset : Nat
deriving DecidableEq, Repr

/-- Modelled from the spec: `I2NPMessage::GetLength` of `I2NPProtocol.h`, the
number of payload bytes, which `DecryptNextBlock` fixes as `len - offset`
(`offset = 2`, `len = dataSize + 2`). -/
def I2NPMessage.GetLength (m : I2NPMessage) : Nat := m.len - m.offset

/-- Modelled from the spec: `I2NPMessage::GetBuffer` of `I2NPProtocol.h`, the
index in `buf` at which the payload starts. -/
def I2NPMessage.GetBuffer (m : I2NPMessage) : Nat := m.offset

/-- The payload bytes of a message. -/
def I2NPMessage.payload (m : I2NPMessage) : List Nat := slice m.buf m.offset (m.len - m.offset)

/-- A Diffie-Hellman key pair as handed out by the transport. -/
structure DHKeysPair where
  publicKey : List Nat
  privateKey : List Nat
deriving DecidableEq, Repr

/-- A router identity as the session uses it: its hash and the lengths of
its serialised form and of its signatures. -/
structure IdentityEx where
  identHash : List Nat
  fullLen : Nat
  signatureLen : Nat
deriving DecidableEq, Repr

/-- The external functions the session calls: hash, block cipher, checksum,
key agreement, clock, allocator and the local router context. -/
structure Env where
  /-- `CryptoPP::SHA256().CalculateDigest`. -/
  sha256 : List Nat → List Nat
  /-- AES encryption of one block under a key (ECB). -/
  aesEncrypt : List Nat → List Nat → List Nat
  /-- AES decryption of one block under a key (ECB). -/
  aesDecrypt : List Nat → List Nat → List Nat
  /-- `CryptoPP::Adler32::CalculateDigest`, a 4-byte digest. -/
  adler32 : List Nat → List Nat
  /-- `dh.Agree (sharedKey, privateKey, pubKey)`: the shared secret, or `none` when it fails. -/
  dhAgree : List Nat → List Nat → Option (List Nat)
  /-- `i2p::NewI2NPMessage ()`: a freshly allocated message (contents not initialised). -/
  NewI2NPMessage : I2NPMessage
  /-- `transports.GetNextDHKeysPair ()`. -/
  GetNextDHKeysPair : DHKeysPair
  /-- `i2p::context.GetRouterInfo ().GetIdentHash ()`, the local identity hash. -/
  localIdentHash : List Nat
  /-- `i2p::util::GetSecondsSinceEpoch ()` and `time (0)`. -/
  now : Nat
  /-- `i2p::CreateDatabaseStoreMsg ()`, the message announcing the local router. -/
  CreateDatabaseStoreMsg : I2NPMessage
  /-- `NTCP_BUFFER_SIZE` of `NTCPSession.h`, the size of `m_ReceiveBuffer`. -/
  NTCP_BUFFER_SIZE : Nat
  /-- The contents of a local `AESKey` before `CreateAESKey` writes it (not initialised). -/
  indeterminateAESKey : List Nat
  /-- `keys.GetPublic ().GetFullLen ()` for the local private keys. -/
  localFullLen : Nat
  /-- `keys.GetPublic ().GetSignatureLen ()` for the local private keys. -/
  localSignatureLen : Nat
  /-- The bytes `i2p::context.GetIdentity ().ToBuffer` stores. -/
  localIdentityBuffer : List Nat
  /-- `SignedData::Sign` under the local private keys: the signature of the data. -/
  sign : List Nat → List Nat
  /-- `SignedData::Verify (identity, signature)` on the data. -/
  verify : IdentityEx → List Nat → List Nat → Bool
  /-- `IdentityEx::FromBuffer`: the identity parsed from a buffer. -/
  identityFromBuffer : List Nat → IdentityEx

/-- The block cipher is length preserving on 16-byte blocks and decryption
inverts encryption under the same key. -/
def Env.cipherOK (env : Env) : Prop :=
  ∀ key blk : List Nat, blk.length = 16 →
    (env.aesEncrypt key blk).length = 16 ∧ env.aesDecrypt key (env.aesEncrypt key blk) = blk

/-- The checksum is a 4-byte digest. -/
def Env.adlerOK (env : Env) : Prop := ∀ d : List Nat, (env.adler32 d).length = 4

/-- A CBC encryption context: key and chaining block. -/
structure CBCEncryption where
  key : List Nat
  iv : List Nat
deriving DecidableEq, Repr

/-- A CBC decryption context: key and chaining block. -/
structure CBCDecryption where
  key : List Nat
  iv : List Nat
deriving DecidableEq, Repr

/-- Modelled from the spec: `CBCEncryption::Encrypt (numBlocks, in, out)` of
`aes.cpp`, chained encryption of `numBlocks` 16-byte blocks: each block is
xored with the last ciphertext block and encrypted, and the context keeps the
last ciphertext block as the next IV.  Returns the ciphertext and the IV. -/
def cbcEncryptBlocks (env : Env) (key : List Nat) : Nat → List Nat → List Nat → List Nat × List Nat
  | 0, iv, _ => ([], iv)
  | n + 1, iv, data =>
    let c := env.aesEncrypt key (xorBytes (data.take 16) iv)
    let r := cbcEncryptBlocks env key n c (data.drop 16)
    (c ++ r.1, r.2)

/-- Modelled from the spec: `CBCEncryption::Encrypt (in, len, out)` of
`aes.cpp`: encrypt the `len / 16` whole blocks of `data`. -/
def CBCEncryption.Encrypt (env : Env) (c : CBCEncryption) (data : List Nat) (len : Nat) :
    List Nat × CBCEncryption :=
  let r := cbcEncryptBlocks env c.key (len / 16) c.iv data
  (r.1, { c with iv := r.2 })

/-- Modelled from the spec: `CBCDecryption::Decrypt (in, out)` of `aes.cpp` for
one 16-byte block: decrypt, xor with the last ciphertext block, and keep this
ciphertext block as the next IV. -/
def CBCDecryption.Decrypt (env : Env) (c : CBCDecryption) (block : List Nat) :
    List Nat × CBCDecryption :=
  (xorBytes (env.aesDecrypt c.key block) c.iv, { c with iv := block })

/-- Modelled from the spec: `CBCDecryption::Decrypt (in, len, out)` of
`aes.cpp`, chained decryption of `numBlocks` 16-byte blocks. -/
def cbcDecryptBlocks (env : Env) (key : List Nat) : Nat → List Nat → List Nat → List Nat × List Nat
  | 0, iv, _ => ([], iv)
  | n + 1, iv, data =>
    let blk := data.take 16
    let p := xorBytes (env.aesDecrypt key blk) iv
    let r := cbcDecryptBlocks env key n blk (data.drop 16)
    (p ++ r.1, r.2)

/-- Modelled from the spec: `CBCDecryption::Decrypt (in, len, out)` of
`aes.cpp`: decrypt the `len / 16` whole blocks of `data`. -/
def CBCDecryption.DecryptLen (env : Env) (c : CBCDecryption) (data : List Nat) (len : Nat) :
    List Nat × CBCDecryption :=
  let r := cbcDecryptBlocks env c.key (len / 16) c.iv data
  (r.1, { c with iv := r.2 })

/-- Modelled from the spec: `NTCP_MAX_MESSAGE_SIZE` of `NTCPSession.h`, the
maximum frame payload, 16 KiB. -/
def NTCP_MAX_MESSAGE_SIZE : Nat := 16384

/-- Modelled from the spec: `NTCP_DEFAULT_PHASE3_SIZE` of `NTCPSession.h`, the
size of the first phase-3 read, 448 bytes. -/
def NTCP_DEFAULT_PHASE3_SIZE : Nat := 448

/-! ## Session state -/

/-- A `boost::system::error_code` as the callbacks tell them apart. -/
inductive ErrorCode where
  | success
  | operation_aborted
  | failure
deriving DecidableEq, Repr

/-- The completion handlers the session binds to asynchronous operations,
with their bound arguments. -/
inductive Handler where
  | HandlePhase1Sent
  | HandlePhase1Received
  | HandlePhase2Sent (tsB : List Nat)
  | HandlePhase2Received
  | HandlePhase3Sent (tsA : List Nat)
  | HandlePhase3Received (tsB : List Nat)
  | HandlePhase3ExtraReceived (tsB : List Nat) (paddingLen : Nat)
  | HandlePhase4Sent
  | HandlePhase4Received (tsA : List Nat)
  | HandleReceived
  | HandleSent (msg : Option I2NPMessage)
  | HandleTerminationTimer
deriving DecidableEq, Repr

/-- The calls a session makes on its collaborators, in the order made. -/
inductive Event where
  /-- `m_Socket.close ()`. -/
  | socket_close
  /-- `boost::asio::async_write (m_Socket, buffer, transfer_all, handler)`. -/
  | async_write (data : List Nat) (handler : Handler)
  /-- `boost::asio::async_read (m_Socket, buffer (m_ReceiveBuffer + pos, size), transfer_all, handler)`. -/
  | async_read (pos size : Nat) (handler : Handler)
  /-- `m_Socket.async_read_some (buffer (m_ReceiveBuffer + pos, size), HandleReceived)`. -/
  | async_read_some (pos size : Nat)
  /-- `transports.SendMessage (ident, msg)`. -/
  | SendMessage (ident : List Nat) (msg : I2NPMessage)
  /-- `transports.RemoveNTCPSession (shared_from_this ())`. -/
  | RemoveNTCPSession
  /-- `transports.AddNTCPSession (shared_from_this ())`. -/
  | AddNTCPSession
  /-- `transports.ReuseDHKeysPair (pair)`, `none` for a null pointer. -/
  | ReuseDHKeysPair (pair : Option DHKeysPair)
  /-- `i2p::data::netdb.SetUnreachable (ident, unreachable)`. -/
  | SetUnreachable (ident : List Nat) (unreachable : Bool)
  /-- `i2p::HandleI2NPMessage (msg)`. -/
  | HandleI2NPMessage (msg : I2NPMessage)
  /-- `i2p::DeleteI2NPMessage (msg)`. -/
  | DeleteI2NPMessage (msg : I2NPMessage)
  /-- `ScheduleTermination ()`: the termination timer is re-armed. -/
  | ScheduleTermination
deriving DecidableEq, Repr

/-- The `NTCPPhase1` message: `pubKey[256]` and `HXxorHI[32]`. -/
structure NTCPPhase1 where
  pubKey : List Nat
  HXxorHI : List Nat
deriving DecidableEq, Repr

/-- The `NTCPPhase2` message: `pubKey[256]` and the 48-byte `encrypted`
part, which holds `hxy[32]`, `timestamp` (4 bytes) and `filler[12]`. -/
structure NTCPPhase2 where
  pubKey : List Nat
  encrypted : List Nat
deriving DecidableEq, Repr

/-- The field `encrypted.hxy` of a phase-2 message. -/
def NTCPPhase2.hxy (p : NTCPPhase2) : List Nat := slice p.encrypted 0 32

/-- The field `encrypted.timestamp` of a phase-2 message (as stored, big-endian). -/
def NTCPPhase2.timestamp (p : NTCPPhase2) : List Nat := slice p.encrypted 32 4

/-- The handshake scratch space. -/
structure Establisher where
  phase1 : NTCPPhase1
  phase2 : NTCPPhase2
deriving DecidableEq, Repr

/-- The state of one `NTCPSession`, with the trace of its calls on collaborators. -/
structure NTCPSession where
  /-- `m_RemoteRouter`: the identity hash of the remote router, `none` for a null pointer. -/
  m_RemoteRouter : Option (List Nat)
  m_RemoteIdentity : IdentityEx
  m_DHKeysPair : Option DHKeysPair
  m_IsEstablished : Bool
  m_Establisher : Option Establisher
  m_Decryption : CBCDecryption
  m_Encryption : CBCEncryption
  m_ReceiveBuffer : List Nat
  m_TimeSyncBuffer : List Nat
  m_ReceiveBufferOffset : Nat
  m_NextMessage : Option I2NPMessage
  m_NextMessageOffset : Nat
  m_DelayedMessages : List I2NPMessage
  m_NumSentBytes : Nat
  m_NumReceivedBytes : Nat
  trace : List Event
deriving DecidableEq, Repr

/-- Append one call to the trace. -/
def NTCPSession.emit (s : NTCPSession) (e : Event) : NTCPSession :=
  { s with trace := s.trace ++ [e] }

/-- The messages handed to the I2NP dispatcher, in order. -/
def dispatched (s : NTCPSession) : List I2NPMessage :=
  s.trace.filterMap (fun e => match e with
    | Event.HandleI2NPMessage m => some m
    | _ => none)

/-- The byte strings written to the socket, in order. -/
def written (s : NTCPSession) : List (List Nat) :=
  s.trace.filterMap (fun e => match e with
    | Event.async_write d _ => some d
    | _ => none)

/-- The bytes of the latest write to the socket. -/
def lastWritten (s : NTCPSession) : List Nat :=
  (written s).getLast?.getD []

/-- The `netdb.SetUnreachable` calls so far, in order. -/
def unreachableMarks (s : NTCPSession) : List (List Nat × Bool) :=
  s.trace.filterMap (fun e => match e with
    | Event.SetUnreachable ident b => some (ident, b)
    | _ => none)

/-- The number of `Terminate ()` calls so far: each one ends with
`transports.RemoveNTCPSession`. -/
def terminateCount (s : NTCPSession) : Nat :=
  s.trace.count Event.RemoveNTCPSession

/-! ## NTCPSession.cpp -/

/-- `NTCPSession::Terminate`. -/
def Terminate (s : NTCPSession) : NTCPSession :=
  let s := { s with m_IsEstablished := false }
  let s := s.emit Event.socket_close
  let s := s.m_DelayedMessages.foldl
    (fun (s : NTCPSession) it =>
      -- try to send them again
      match s.m_RemoteRouter with
      | some ident => s.emit (Event.SendMessage ident it)
      | none => s) s
  let s := { s with m_DelayedMessages := [] }
  s.emit Event.RemoveNTCPSession

/-- `NTCPSession::ScheduleTermination`: cancel and re-arm the termination timer. -/
def ScheduleTermination (s : NTCPSession) : NTCPSession :=
  s.emit Event.ScheduleTermination

/-- `NTCPSession::Receive`: ask for more bytes behind the ones already buffered. -/
def Receive (env : Env) (s : NTCPSession) : NTCPSession :=
  s.emit (Event.async_read_some s.m_ReceiveBufferOffset
    (env.NTCP_BUFFER_SIZE - s.m_ReceiveBufferOffset))

/-- The padding `Send` inserts for a payload of `len` bytes: `rem = (len + 6) & 0x0F`,
`padding = 16 - rem` when `rem > 0`, else `0`. -/
def sendPadding (len : Nat) : Nat :=
  let rem := (len + 6) % 16
  if rem > 0 then 16 - rem else 0

/-- The send buffer of `Send` once the checksum is stored and before
encryption, from `sendBuffer[0]` on, for a buffer whose length field is
already written: the Adler-32 of the first `len + 2 + padding` bytes is
stored behind them. -/
def sendChecksummed (env : Env) (sendBuffer : List Nat) (len : Nat) : List Nat :=
  let padding := sendPadding len
  writeAt sendBuffer (len + 2 + padding) (env.adler32 (sendBuffer.take (len + 2 + padding)))

/-- The memory at `sendBuffer` in `Send (msg)` for a regular message, before
encryption: `msg->GetBuffer () - 2` onwards, with the length and the checksum
stored. -/
def sendBufferOf (env : Env) (msg : I2NPMessage) : List Nat :=
  let len := msg.GetLength
  sendChecksummed env ((writeAt msg.buf (msg.GetBuffer - 2) (htobe16 len)).drop (msg.GetBuffer - 2)) len

/-- The plaintext frame `Send (msg)` encrypts: the first `l = len + padding + 6`
bytes at `sendBuffer`. -/
def sendFrame (env : Env) (msg : I2NPMessage) : List Nat :=
  (sendBufferOf env msg).take (msg.GetLength + sendPadding msg.GetLength + 6)

/-- The memory at `m_TimeSyncBuffer` in `Send (nullptr)` before encryption:
a zero length, the time stamp, and the checksum. -/
def timeSyncBufferOf (env : Env) (s : NTCPSession) : List Nat :=
  sendChecksummed env (writeAt (writeAt s.m_TimeSyncBuffer 0 [0, 0]) 2 (htobe32 env.now)) 4

/-- `NTCPSession::Send`. -/
def Send (env : Env) (s : NTCPSession) (msg : Option I2NPMessage) : NTCPSession :=
  match msg with
  | some m =>
    -- regular I2NP
    let s := if m.offset < 2 then s.emit (Event.DeleteI2NPMessage m) else s
    let len := m.GetLength
    let l := len + sendPadding len + 6
    let r := s.m_Encryption.Encrypt env (sendBufferOf env m) l
    let sendBuffer := writeAt (sendBufferOf env m) 0 r.1
    { s with m_Encryption := r.2 }.emit
      (Event.async_write (sendBuffer.take l) (Handler.HandleSent msg))
  | none =>
    -- prepare timestamp
    let len := 4
    let l := len + sendPadding len + 6
    let r := s.m_Encryption.Encrypt env (timeSyncBufferOf env s) l
    let sendBuffer := writeAt (timeSyncBufferOf env s) 0 r.1
    { s with m_Encryption := r.2, m_TimeSyncBuffer := sendBuffer }.emit
      (Event.async_write (sendBuffer.take l) (Handler.HandleSent msg))

/-- `NTCPSession::HandleSent`. -/
def HandleSent (s : NTCPSession) (ecode : ErrorCode) (bytes_transferred : Nat)
    (msg : Option I2NPMessage) : NTCPSession :=
  let s := match msg with
    | some m => s.emit (Event.DeleteI2NPMessage m)
    | none => s
  if ecode ≠ ErrorCode.success then s
  else ScheduleTermination { s with m_NumSentBytes := s.m_NumSentBytes + bytes_transferred }

/-- `NTCPSession::SendTimeSyncMessage`. -/
def SendTimeSyncMessage (env : Env) (s : NTCPSession) : NTCPSession :=
  Send env s none

/-- `NTCPSession::SendI2NPMessage`. -/
def SendI2NPMessage (env : Env) (s : NTCPSession) (msg : Option I2NPMessage) : NTCPSession :=
  match msg with
  | some m =>
    if s.m_IsEstablished then Send env s (some m)
    else { s with m_DelayedMessages := s.m_DelayedMessages ++ [m] }
  | none => s

/-- `NTCPSession::Connected`. -/
def Connected (env : Env) (s : NTCPSession) : NTCPSession :=
  let s := { s with m_IsEstablished := true, m_Establisher := none, m_DHKeysPair := none }
  let s := SendTimeSyncMessage env s
  let s := SendI2NPMessage env s (some env.CreateDatabaseStoreMsg)
  if s.m_DelayedMessages ≠ [] then
    let s := s.m_DelayedMessages.foldl (fun (s : NTCPSession) it => SendI2NPMessage env s (some it)) s
    { s with m_DelayedMessages := [] }
  else s

/-- The completeness test at the end of `DecryptNextBlock`: hand the message
over once `m_NextMessageOffset >= m_NextMessage->len + 4`. -/
def completeNextMessage (s : NTCPSession) (msg : I2NPMessage) : NTCPSession :=
  if s.m_NextMessageOffset ≥ msg.len + 4 then
    -- we have a complete I2NP message
    { s with m_NextMessage := none }.emit (Event.HandleI2NPMessage msg)
  else s

/-- `NTCPSession::DecryptNextBlock` on one 16-byte block; the Boolean is the
value returned. -/
def DecryptNextBlock (env : Env) (s : NTCPSession) (encrypted : List Nat) : Bool × NTCPSession :=
  match s.m_NextMessage with
  | none =>
    -- new message, header expected
    let r := s.m_Decryption.Decrypt env encrypted
    let msg := { env.NewI2NPMessage with buf := writeAt env.NewI2NPMessage.buf 0 r.1 }
    let s := { s with m_NextMessage := some msg, m_NextMessageOffset := 0, m_Decryption := r.2 }
    let dataSize := be16toh msg.buf
    if dataSize ≠ 0 then
      -- new message
      if dataSize > NTCP_MAX_MESSAGE_SIZE then
        (false, { s.emit (Event.DeleteI2NPMessage msg) with m_NextMessage := none })
      else
        let msg := { msg with offset := 2, len := dataSize + 2 }
        let s := { s with m_NextMessageOffset := s.m_NextMessageOffset + 16,
                          m_NextMessage := some msg }
        (true, completeNextMessage s msg)
    else
      -- timestamp
      (true, { s.emit (Event.DeleteI2NPMessage msg) with m_NextMessage := none })
  | some msg =>
    -- message continues
    let r := s.m_Decryption.Decrypt env encrypted
    let msg := { msg with buf := writeAt msg.buf s.m_NextMessageOffset r.1 }
    let s := { s with m_NextMessage := some msg, m_Decryption := r.2,
                      m_NextMessageOffset := s.m_NextMessageOffset + 16 }
    (true, completeNextMessage s msg)

/-- The step `m_ReceiveBufferOffset -= 16` of the block loop. -/
def NTCPSession.consumeBlock (s : NTCPSession) : NTCPSession :=
  { s with m_ReceiveBufferOffset := s.m_ReceiveBufferOffset - 16 }

/-- The `while (m_ReceiveBufferOffset >= 16)` loop of `HandleReceived`, with
`nextBlock` an index into `m_ReceiveBuffer`.  The Boolean is `false` when
`DecryptNextBlock` failed and the handler returned after `Terminate ()`.  Each
turn takes 16 off `m_ReceiveBufferOffset`, so `fuel` turns suffice when
`m_ReceiveBufferOffset < 16 * (fuel + 1)`. -/
def receiveLoop (env : Env) : Nat → NTCPSession → Nat → Bool × NTCPSession × Nat
  | 0, s, nextBlock => (true, s, nextBlock)
  | fuel + 1, s, nextBlock =>
    if s.m_ReceiveBufferOffset ≥ 16 then
      let r := DecryptNextBlock env s (slice s.m_ReceiveBuffer nextBlock 16)
      if !r.1 then (false, Terminate r.2, nextBlock)
      else
        receiveLoop env fuel r.2.consumeBlock (nextBlock + 16)
    else (true, s, nextBlock)

/-- The effect of a completed `async_read_some` and the first two statements
of `HandleReceived`: `data` is stored at `m_ReceiveBuffer + m_ReceiveBufferOffset`,
and `bytes_transferred` is added to `m_NumReceivedBytes` and `m_ReceiveBufferOffset`. -/
def NTCPSession.storeRead (s : NTCPSession) (data : List Nat) : NTCPSession :=
  let bytes_transferred := data.length
  { s with m_ReceiveBuffer := writeAt s.m_ReceiveBuffer s.m_ReceiveBufferOffset data
           m_NumReceivedBytes := s.m_NumReceivedBytes + bytes_transferred
           m_ReceiveBufferOffset := s.m_ReceiveBufferOffset + bytes_transferred }

/-- The end of the block branch of `HandleReceived`:
`if (m_ReceiveBufferOffset > 0) memcpy (m_ReceiveBuffer, nextBlock, m_ReceiveBufferOffset)`. -/
def NTCPSession.moveRemainder (s : NTCPSession) (nextBlock : Nat) : NTCPSession :=
  if s.m_ReceiveBufferOffset > 0 then
    { s with m_ReceiveBuffer :=
        writeAt s.m_ReceiveBuffer 0 (slice s.m_ReceiveBuffer nextBlock s.m_ReceiveBufferOffset) }
  else s

/-- `NTCPSession::HandleReceived`, the completion of the `async_read_some` of
`Receive`: `data` are the bytes the read stored at
`m_ReceiveBuffer + m_ReceiveBufferOffset`, `bytes_transferred` their number. -/
def HandleReceived (env : Env) (s : NTCPSession) (ecode : ErrorCode) (data : List Nat) :
    NTCPSession :=
  if ecode ≠ ErrorCode.success then Terminate s
  else
    let s := s.storeRead data
    if s.m_ReceiveBufferOffset ≥ 16 then
      let r := receiveLoop env (s.m_ReceiveBufferOffset / 16) s 0
      if !r.1 then r.2.1
      else Receive env (ScheduleTermination (r.2.1.moveRemainder r.2.2))
    else Receive env (ScheduleTermination s)

/-- Whether the last call of the session armed a read of the data stream, so
that `HandleReceived` will run again. -/
def readArmed (s : NTCPSession) : Bool :=
  match s.trace.getLast? with
  | some (Event.async_read_some _ _) => true
  | _ => false

/-- The session after the successive reads `reads` of the data stream, each
completing `HandleReceived` without error, as long as a read is armed. -/
def receiveAll (env : Env) : NTCPSession → List (List Nat) → NTCPSession
  | s, [] => s
  | s, data :: rest =>
    if readArmed s then receiveAll env (HandleReceived env s ErrorCode.success data) rest
    else s

/-- Feed the ciphertext `blocks` one by one to `DecryptNextBlock`, stopping
at the first that it rejects; the Boolean tells whether all were accepted. -/
def decryptBlocks (env : Env) : NTCPSession → List (List Nat) → Bool × NTCPSession
  | s, [] => (true, s)
  | s, b :: rest =>
    let r := DecryptNextBlock env s b
    if !r.1 then (false, r.2) else decryptBlocks env r.2 rest

/-- Cut a byte string into its `n` leading 16-byte blocks. -/
def blocksOf : Nat → List Nat → List (List Nat)
  | 0, _ => []
  | n + 1, data => data.take 16 :: blocksOf n (data.drop 16)

/-- The bytes received and not yet decrypted: the used prefix of `m_ReceiveBuffer`. -/
def pendingBytes (s : NTCPSession) : List Nat :=
  s.m_ReceiveBuffer.take s.m_ReceiveBufferOffset

/-- Two session states decode the rest of the stream alike: same decryption
context, same message in progress, same messages handed over so far. -/
def sameDecoding (s t : NTCPSession) : Prop :=
  s.m_Decryption = t.m_Decryption ∧ s.m_NextMessage = t.m_NextMessage ∧
    s.m_NextMessageOffset = t.m_NextMessageOffset ∧ dispatched s = dispatched t

/-! ## NTCPSession.cpp: the handshake

A function that dereferences `m_DHKeysPair` or `m_Establisher` returns `none`
when the pointer is null. -/

/-- The search loop of `CreateAESKey`: `while (!*nonZero)` with the step
`nonZero++; if (nonZero - sharedKey > 32) return;`.  `nonZero` is an index
into `sharedKey`; `none` is the early return.  The index grows by one each
turn and the loop is left at 33, so 32 turns of fuel suffice from index 1. -/
def findNonZero (sharedKey : List Nat) : Nat → Nat → Option Nat
  | 0, nonZero => some nonZero
  | fuel + 1, nonZero =>
    if sharedKey.getD nonZero 0 = 0 then
      if nonZero + 1 > 32 then none
      else findNonZero sharedKey fuel (nonZero + 1)
    else some nonZero

/-- The key derivation of `CreateAESKey` from the shared secret, writing into
the key buffer `key`; `none` when it returns without writing the key. -/
def deriveAESKey (sharedKey key : List Nat) : Option (List Nat) :=
  if sharedKey.getD 0 0 &&& 0x80 ≠ 0 then
    some (writeAt (writeAt key 0 [0]) 1 (sharedKey.take 31))
  else if sharedKey.getD 0 0 ≠ 0 then
    some (writeAt key 0 (sharedKey.take 32))
  else
    -- find first non-zero byte
    match findNonZero sharedKey 32 1 with
    | none => none
    | some nonZero => some (writeAt key 0 (slice sharedKey nonZero 32))

/-- `NTCPSession::CreateAESKey (pubKey, key)`: the session and the key buffer
afterwards. -/
def CreateAESKey (env : Env) (s : NTCPSession) (pubKey key : List Nat) :
    Option (NTCPSession × List Nat) :=
  match s.m_DHKeysPair with
  | none => none
  | some pair =>
    match env.dhAgree pair.privateKey pubKey with
    | none => some (Terminate s, key)
    | some sharedKey =>
      match deriveAESKey sharedKey key with
      | none => some (s, key)
      | some aesKey => some (s, aesKey)

/-- What every handshake callback does with an error code: `Terminate ()`
unless the operation was aborted. -/
def terminateUnlessAborted (s : NTCPSession) (ecode : ErrorCode) : NTCPSession :=
  if ecode ≠ ErrorCode.operation_aborted then Terminate s else s

/-- `if (!m_DHKeysPair) m_DHKeysPair = transports.GetNextDHKeysPair ()`. -/
def ensureDHKeysPair (env : Env) (s : NTCPSession) : NTCPSession :=
  match s.m_DHKeysPair with
  | none => { s with m_DHKeysPair := some env.GetNextDHKeysPair }
  | some _ => s

/-- The bytes of an `NTCPPhase1` structure. -/
def NTCPPhase1.bytes (p : NTCPPhase1) : List Nat := p.pubKey ++ p.HXxorHI

/-- The bytes of an `NTCPPhase2` structure. -/
def NTCPPhase2.bytes (p : NTCPPhase2) : List Nat := p.pubKey ++ p.encrypted

/-- `NTCPSession::ClientLogin`. -/
def ClientLogin (env : Env) (s : NTCPSession) : Option NTCPSession :=
  let s := ensureDHKeysPair env s
  match s.m_DHKeysPair, s.m_Establisher with
  | some pair, some est =>
    -- send Phase1
    let x := pair.publicKey
    let phase1 : NTCPPhase1 :=
      { pubKey := x, HXxorHI := xorBytes (env.sha256 x) s.m_RemoteIdentity.identHash }
    let s := { s with m_Establisher := some { est with phase1 := phase1 } }
    some (s.emit (Event.async_write phase1.bytes Handler.HandlePhase1Sent))
  | _, _ => none

/-- `NTCPSession::ServerLogin`. -/
def ServerLogin (s : NTCPSession) : NTCPSession :=
  -- receive Phase1
  s.emit (Event.async_read 0 288 Handler.HandlePhase1Received)

/-- `NTCPSession::HandlePhase1Sent`. -/
def HandlePhase1Sent (s : NTCPSession) (ecode : ErrorCode) : NTCPSession :=
  if ecode ≠ ErrorCode.success then terminateUnlessAborted s ecode
  else s.emit (Event.async_read 0 304 Handler.HandlePhase2Received)

/-- `NTCPSession::HandlePhase2Sent`. -/
def HandlePhase2Sent (s : NTCPSession) (ecode : ErrorCode) (tsB : List Nat) : NTCPSession :=
  if ecode ≠ ErrorCode.success then terminateUnlessAborted s ecode
  else s.emit (Event.async_read 0 NTCP_DEFAULT_PHASE3_SIZE (Handler.HandlePhase3Received tsB))

/-- `NTCPSession::SendPhase2`. -/
def SendPhase2 (env : Env) (s : NTCPSession) : Option NTCPSession :=
  let s := ensureDHKeysPair env s
  match s.m_DHKeysPair, s.m_Establisher with
  | some pair, some est =>
    let y := pair.publicKey
    let xy := est.phase1.pubKey ++ y
    let tsB := htobe32 env.now
    let encrypted := writeAt (writeAt est.phase2.encrypted 0 (env.sha256 xy)) 32 tsB
    let est : Establisher := { est with phase2 := { pubKey := y, encrypted := encrypted } }
    let s := { s with m_Establisher := some est }
    match CreateAESKey env s est.phase1.pubKey env.indeterminateAESKey with
    | none => none
    | some (s, aesKey) =>
      let enc : CBCEncryption := { key := aesKey, iv := slice y 240 16 }
      let dec : CBCDecryption := { key := aesKey, iv := slice est.phase1.HXxorHI 16 16 }
      let r := enc.Encrypt env encrypted 48
      let phase2 : NTCPPhase2 := { pubKey := y, encrypted := writeAt encrypted 0 r.1 }
      let s := { s with m_Encryption := r.2, m_Decryption := dec,
                        m_Establisher := some { est with phase2 := phase2 } }
      some (s.emit (Event.async_write phase2.bytes (Handler.HandlePhase2Sent tsB)))
  | _, _ => none

/-- The identity test of `HandlePhase1Received`: some `i < 32` has
`(HXxorHI[i] ^ ident[i]) != digest[i]`. -/
def wrongIdent (HXxorHI ident digest : List Nat) : Bool :=
  (List.range 32).any (fun i => (HXxorHI.getD i 0 ^^^ ident.getD i 0) ≠ digest.getD i 0)

/-- `NTCPSession::HandlePhase1Received`, the completion of the read of
`ServerLogin`: `data` are the 288 bytes read into `m_Establisher->phase1`. -/
def HandlePhase1Received (env : Env) (s : NTCPSession) (ecode : ErrorCode) (data : List Nat) :
    Option NTCPSession :=
  if ecode ≠ ErrorCode.success then some (terminateUnlessAborted s ecode)
  else
    match s.m_Establisher with
    | none => none
    | some est =>
      let phase1 : NTCPPhase1 := { pubKey := data.take 256, HXxorHI := slice data 256 32 }
      let s := { s with m_Establisher := some { est with phase1 := phase1 } }
      -- verify ident
      let digest := env.sha256 phase1.pubKey
      let ident := env.localIdentHash
      if wrongIdent phase1.HXxorHI ident digest then some (Terminate s)
      else SendPhase2 env s

/-- The length `SendPhase3` and `SendPhase4` and their readers round up to
16: `paddingSize = len & 0x0F; if (paddingSize > 0) paddingSize = 16 - paddingSize`. -/
def paddingTo16 (len : Nat) : Nat :=
  let paddingSize := len % 16
  if paddingSize > 0 then 16 - paddingSize else 0

/-- `SignedData` with `x`, `y`, an identity hash and the two time stamps inserted. -/
def signedData (est : Establisher) (ident tsA tsB : List Nat) : List Nat :=
  est.phase1.pubKey ++ est.phase2.pubKey ++ ident ++ tsA ++ tsB

/-- `NTCPSession::SendPhase3`. -/
def SendPhase3 (env : Env) (s : NTCPSession) : Option NTCPSession :=
  match s.m_Establisher with
  | none => none
  | some est =>
    let buf := writeAt s.m_ReceiveBuffer 0 (htobe16 env.localFullLen)
    let pos := 2
    let buf := writeAt buf pos env.localIdentityBuffer
    let pos := pos + env.localIdentityBuffer.length
    let tsA := htobe32 env.now
    let buf := writeAt buf pos tsA
    let pos := pos + 4
    let signatureLen := env.localSignatureLen
    let len := pos + signatureLen
    let paddingSize := paddingTo16 len
    let pos := pos + paddingSize
    let len := len + paddingSize
    let buf := writeAt buf pos
      (env.sign (signedData est s.m_RemoteIdentity.identHash tsA est.phase2.timestamp))
    let r := s.m_Encryption.Encrypt env buf len
    let buf := writeAt buf 0 r.1
    let s := { s with m_ReceiveBuffer := buf, m_Encryption := r.2 }
    some (s.emit (Event.async_write (buf.take len) (Handler.HandlePhase3Sent tsA)))

/-- `NTCPSession::HandlePhase2Received`, the completion of the read of
`HandlePhase1Sent`: `data` are the 304 bytes read into `m_Establisher->phase2`. -/
def HandlePhase2Received (env : Env) (s : NTCPSession) (ecode : ErrorCode) (data : List Nat) :
    Option NTCPSession :=
  if ecode ≠ ErrorCode.success then
    if ecode ≠ ErrorCode.operation_aborted then
      -- this RI is not valid
      let s := s.emit (Event.SetUnreachable s.m_RemoteIdentity.identHash true)
      let s := s.emit (Event.ReuseDHKeysPair s.m_DHKeysPair)
      some (Terminate { s with m_DHKeysPair := none })
    else some s
  else
    match s.m_Establisher with
    | none => none
    | some est =>
      let phase2 : NTCPPhase2 := { pubKey := data.take 256, encrypted := slice data 256 48 }
      let s := { s with m_Establisher := some { est with phase2 := phase2 } }
      match CreateAESKey env s phase2.pubKey env.indeterminateAESKey with
      | none => none
      | some (s, aesKey) =>
        let dec : CBCDecryption := { key := aesKey, iv := slice phase2.pubKey 240 16 }
        let enc : CBCEncryption := { key := aesKey, iv := slice est.phase1.HXxorHI 16 16 }
        let r := dec.DecryptLen env phase2.encrypted 48
        let phase2 : NTCPPhase2 := { phase2 with encrypted := writeAt phase2.encrypted 0 r.1 }
        let s := { s with m_Decryption := r.2, m_Encryption := enc,
                          m_Establisher := some { est with phase2 := phase2 } }
        -- verify
        match s.m_DHKeysPair with
        | none => none
        | some pair =>
          let xy := pair.publicKey ++ phase2.pubKey
          if env.sha256 xy ≠ phase2.hxy then
            let s := s.emit (Event.ReuseDHKeysPair s.m_DHKeysPair)
            some (Terminate { s with m_DHKeysPair := none })
          else SendPhase3 env s

/-- `NTCPSession::HandlePhase3Sent`. -/
def HandlePhase3Sent (s : NTCPSession) (ecode : ErrorCode) (tsA : List Nat) : NTCPSession :=
  if ecode ≠ ErrorCode.success then terminateUnlessAborted s ecode
  else
    -- wait for phase4
    let signatureLen := s.m_RemoteIdentity.signatureLen
    let signatureLen := signatureLen + paddingTo16 signatureLen
    s.emit (Event.async_read 0 signatureLen (Handler.HandlePhase4Received tsA))

/-- `NTCPSession::SendPhase4`. -/
def SendPhase4 (env : Env) (s : NTCPSession) (tsA tsB : List Nat) : Option NTCPSession :=
  match s.m_Establisher with
  | none => none
  | some est =>
    let signatureLen := env.localSignatureLen
    let buf := writeAt s.m_ReceiveBuffer 0
      (env.sign (signedData est s.m_RemoteIdentity.identHash tsA tsB))
    let signatureLen := signatureLen + paddingTo16 signatureLen
    let r := s.m_Encryption.Encrypt env buf signatureLen
    let buf := writeAt buf 0 r.1
    let s := { s with m_ReceiveBuffer := buf, m_Encryption := r.2 }
    some (s.emit (Event.async_write (buf.take signatureLen) Handler.HandlePhase4Sent))

/-- `NTCPSession::HandlePhase3`. -/
def HandlePhase3 (env : Env) (s : NTCPSession) (tsB : List Nat) (paddingLen : Nat) :
    Option NTCPSession :=
  match s.m_Establisher with
  | none => none
  | some est =>
    let pos := s.m_RemoteIdentity.fullLen + 2
    let tsA := slice s.m_ReceiveBuffer pos 4
    let pos := pos + 4
    let pos := pos + paddingLen
    if !env.verify s.m_RemoteIdentity (signedData est env.localIdentHash tsA tsB)
        (slice s.m_ReceiveBuffer pos s.m_RemoteIdentity.signatureLen) then
      some (Terminate s)
    else SendPhase4 env s tsA tsB

/-- In-place `m_Decryption.Decrypt (m_ReceiveBuffer + pos, len, m_ReceiveBuffer + pos)`. -/
def decryptReceiveBuffer (env : Env) (s : NTCPSession) (pos len : Nat) : NTCPSession :=
  let r := s.m_Decryption.DecryptLen env (s.m_ReceiveBuffer.drop pos) len
  { s with m_ReceiveBuffer := writeAt s.m_ReceiveBuffer pos r.1, m_Decryption := r.2 }

/-- `NTCPSession::HandlePhase3Received`, the completion of the read of
`HandlePhase2Sent`: `data` are the bytes read into `m_ReceiveBuffer`. -/
def HandlePhase3Received (env : Env) (s : NTCPSession) (ecode : ErrorCode) (data : List Nat)
    (tsB : List Nat) : Option NTCPSession :=
  if ecode ≠ ErrorCode.success then some (terminateUnlessAborted s ecode)
  else
    let bytes_transferred := data.length
    let s := { s with m_ReceiveBuffer := writeAt s.m_ReceiveBuffer 0 data }
    let s := decryptReceiveBuffer env s 0 bytes_transferred
    let size := be16toh s.m_ReceiveBuffer
    let s := { s with m_RemoteIdentity := env.identityFromBuffer (slice s.m_ReceiveBuffer 2 size) }
    let expectedSize := size + 2 + 4 + s.m_RemoteIdentity.signatureLen
    let paddingLen := paddingTo16 expectedSize
    if expectedSize > NTCP_DEFAULT_PHASE3_SIZE then
      -- we need more bytes for Phase3
      let expectedSize := expectedSize + paddingLen
      some (s.emit (Event.async_read NTCP_DEFAULT_PHASE3_SIZE expectedSize
        (Handler.HandlePhase3ExtraReceived tsB paddingLen)))
    else HandlePhase3 env s tsB paddingLen

/-- `NTCPSession::HandlePhase3ExtraReceived`: `data` are the bytes read into
`m_ReceiveBuffer + NTCP_DEFAULT_PHASE3_SIZE`. -/
def HandlePhase3ExtraReceived (env : Env) (s : NTCPSession) (ecode : ErrorCode)
    (data : List Nat) (tsB : List Nat) (paddingLen : Nat) : Option NTCPSession :=
  if ecode ≠ ErrorCode.success then some (terminateUnlessAborted s ecode)
  else
    let bytes_transferred := data.length
    let s := { s with m_ReceiveBuffer := writeAt s.m_ReceiveBuffer NTCP_DEFAULT_PHASE3_SIZE data }
    let s := decryptReceiveBuffer env s NTCP_DEFAULT_PHASE3_SIZE bytes_transferred
    HandlePhase3 env s tsB paddingLen

/-- The end of both handshakes: `Connected (); m_ReceiveBufferOffset = 0;
m_NextMessage = nullptr; Receive ();`. -/
def startReceiving (env : Env) (s : NTCPSession) : NTCPSession :=
  let s := Connected env s
  Receive env { s with m_ReceiveBufferOffset := 0, m_NextMessage := none }

/-- `NTCPSession::HandlePhase4Sent`. -/
def HandlePhase4Sent (env : Env) (s : NTCPSession) (ecode : ErrorCode) : NTCPSession :=
  if ecode ≠ ErrorCode.success then terminateUnlessAborted s ecode
  else startReceiving env (s.emit Event.AddNTCPSession)

/-- `NTCPSession::HandlePhase4Received`, the completion of the read of
`HandlePhase3Sent`: `data` are the bytes read into `m_ReceiveBuffer`. -/
def HandlePhase4Received (env : Env) (s : NTCPSession) (ecode : ErrorCode) (data : List Nat)
    (tsA : List Nat) : Option NTCPSession :=
  if ecode ≠ ErrorCode.success then
    if ecode ≠ ErrorCode.operation_aborted then
      -- this router doesn't like us
      some (Terminate (s.emit (Event.SetUnreachable s.m_RemoteIdentity.identHash true)))
    else some s
  else
    let bytes_transferred := data.length
    let s := { s with m_ReceiveBuffer := writeAt s.m_ReceiveBuffer 0 data }
    let s := decryptReceiveBuffer env s 0 bytes_transferred
    match s.m_Establisher with
    | none => none
    | some est =>
      -- verify signature
      if !env.verify s.m_RemoteIdentity
          (signedData est env.localIdentHash tsA est.phase2.timestamp)
          (slice s.m_ReceiveBuffer 0 s.m_RemoteIdentity.signatureLen) then
        some (Terminate s)
      else some (startReceiving env s)

/-- `NTCPSession::HandleTerminationTimer`. -/
def HandleTerminationTimer (s : NTCPSession) (ecode : ErrorCode) : NTCPSession :=
  if ecode ≠ ErrorCode.operation_aborted then s.emit Event.socket_close else s

/-! ## Reseed.cpp

The stream is a `std::istream` over a byte string: a read position and the
state bits `eofbit` and `failbit`.  A read that fails or comes short leaves
the rest of its target as it was.  The variables of a loop body live in the
same place in every turn, so such a read leaves in them what the turn before
stored; objects that were never written hold the bytes an oracle of the
environment supplies.  The host is little-endian. -/

/-- The `uint16_t` that `le16toh` yields for two bytes in memory. -/
def le16toh (b : List Nat) : Nat := (b.getD 0 0 + b.getD 1 0 * 256) % 65536

/-- The `uint32_t` that `le32toh` yields for four bytes in memory. -/
def le32toh (b : List Nat) : Nat :=
  (b.getD 0 0 + b.getD 1 0 * 256 + b.getD 2 0 * 65536 + b.getD 3 0 * 16777216) % 4294967296

/-- The `uint64_t` that `be64toh` yields for eight bytes in memory. -/
def be64toh (b : List Nat) : Nat :=
  (b.foldl (fun acc x => acc * 256 + x) 0) % 18446744073709551616

/-- A `std::istream` over the bytes `data`.  `seekPastEnd` tells whether the
stream buffer accepts a position behind the last byte (a file) or not (a
string). -/
structure IStream where
  data : List Nat
  pos : Nat
  eofbit : Bool
  failbit : Bool
  seekPastEnd : Bool
deriving DecidableEq, Repr

/-- A freshly opened stream over `data`. -/
def IStream.open (data : List Nat) (seekPastEnd : Bool) : IStream :=
  { data := data, pos := 0, eofbit := false, failbit := false, seekPastEnd := seekPastEnd }

/-- `s.good ()`. -/
def IStream.good (s : IStream) : Bool := !s.eofbit && !s.failbit

/-- `s.eof ()`. -/
def IStream.eof (s : IStream) : Bool := s.eofbit

/-- `s.read (buf, n)`: the bytes stored and the stream afterwards.  A stream
that is not good stores nothing and sets `failbit`; a stream with fewer than
`n` bytes left stores those and sets `eofbit` and `failbit`. -/
def IStream.read (s : IStream) (n : Nat) : List Nat × IStream :=
  if !s.good then ([], { s with failbit := true })
  else
    let avail := s.data.length - s.pos
    if n ≤ avail then (slice s.data s.pos n, { s with pos := s.pos + n })
    else (slice s.data s.pos avail,
          { s with pos := max s.pos s.data.length, eofbit := true, failbit := true })

/-- `s.seekg (off, std::ios::cur)` for `off >= 0`: `eofbit` is cleared first;
a failed stream stays where it is. -/
def IStream.seekg_cur (s : IStream) (off : Nat) : IStream :=
  let s := { s with eofbit := false }
  if s.failbit then s
  else if s.pos + off > s.data.length && !s.seekPastEnd then { s with failbit := true }
  else { s with pos := s.pos + off }

/-- `s.seekg (pos, std::ios::beg)`. -/
def IStream.seekg_beg (s : IStream) (pos : Nat) : IStream :=
  let s := { s with eofbit := false }
  if s.failbit then s
  else if pos > s.data.length && !s.seekPastEnd then { s with failbit := true }
  else { s with pos := pos }

/-- `(size_t) s.tellg ()`: the position, or `(size_t) -1` for a failed
stream.  (`eofbit` is never set without `failbit` here, so the call leaves
the state bits as they are.) -/
def IStream.tellg (s : IStream) : Nat :=
  if s.failbit then 18446744073709551615 else s.pos

/-- The two bytes a `uint16_t` holds in memory (little-endian host). -/
def le16 (v : Nat) : List Nat := [v % 256, (v / 256) % 256]

/-- The four bytes a `uint32_t` holds in memory (little-endian host). -/
def htole32 (v : Nat) : List Nat :=
  [v % 256, (v / 256) % 256, (v / 65536) % 256, (v / 16777216) % 256]

/-- The variables of the loop body of `ProcessSU3Stream` that are read from
the stream, as the values they hold.  They are declared in the loop body with
no initialiser and no read is tested, so a turn finds in them what the turn
before left. -/
structure SU3Locals where
  signature : Nat
  bitFlag : Nat
  compressionMethod : Nat
  compressedSize : Nat
  uncompressedSize : Nat
  fileNameLength : Nat
  extraFieldLength : Nat
deriving DecidableEq, Repr

/-- The external parts of the reseeder. -/
structure ReseedEnv where
  /-- `CryptoPP::Inflator`: the bytes retrievable after `Put` and
  `MessageEnd`, or `none` when it throws. -/
  inflate : List Nat → Option (List Nat)
  /-- The bytes held by an object of `n` bytes that was not written yet. -/
  indeterminate : Nat → List Nat
  /-- What the variables of the loop body of `ProcessSU3Stream` hold before
  the first turn. -/
  locals : SU3Locals

/-- An object of `n` bytes that held `old`, after `s.read` stored `got` at
its start: the bytes behind those stored are left as they were. -/
def stored (n : Nat) (old got : List Nat) : List Nat :=
  (got ++ old.drop got.length).take n

/-- `s.read ((char *)&var, n)` into an object of `n` bytes that holds `old`. -/
def IStream.readVar (s : IStream) (old : List Nat) (n : Nat) : List Nat × IStream :=
  let r := s.read n
  (stored n old r.1, r.2)

/-- `SU3_MAGIC_NUMBER`, the characters of `"I2Psu3"`. -/
def SU3_MAGIC_NUMBER : List Nat := [0x49, 0x32, 0x50, 0x73, 0x75, 0x33]

/-- `ZIP_HEADER_SIGNATURE`. -/
def ZIP_HEADER_SIGNATURE : Nat := 0x04034B50

/-- `ZIP_BIT_FLAG_DATA_DESCRIPTOR`. -/
def ZIP_BIT_FLAG_DATA_DESCRIPTOR : Nat := 0x0008

/-- `ZIP_DATA_DESCRIPTOR_SIGNATURE`. -/
def ZIP_DATA_DESCRIPTOR_SIGNATURE : List Nat := [0x50, 0x4B, 0x07, 0x08]

/-- How a call of `ProcessSU3Stream` ends. -/
inductive Completion where
  /-- It returns `numFiles`. -/
  | returned (numFiles : Nat)
  /-- The inflator throws and the exception leaves the function. -/
  | thrown
  /-- `localFileName[255]` is written behind its end. -/
  | bufferOverrun
  /-- A loop was still running when the fuel ran out. -/
  | outOfFuel
deriving DecidableEq, Repr

/-- The end of a call of `ProcessSU3Stream`: how it completed, the buffers
handed to `netdb.AddRouterInfo` in order, and the stream. -/
structure SU3Outcome where
  completion : Completion
  added : List (List Nat)
  stream : IStream
deriving DecidableEq, Repr

/-- The loop of `Reseeder::FindZipDataDescriptor`, with `nextInd` the number
of signature bytes matched and `nextByte` what the variable of that name holds
from the turn before; `none` when the fuel runs out.  A good stream moves by
one byte each turn and the loop ends at its end, so one turn more than the
bytes left suffices. -/
def findZipDataDescriptorLoop : Nat → IStream → Nat → Nat → Option (Bool × IStream)
  | 0, _, _, _ => none
  | fuel + 1, s, nextInd, nextByte =>
    if s.eof then some (!s.failbit, s)
    else
      let r := s.readVar [nextByte] 1
      let nextByte := r.1.getD 0 0
      if nextByte = ZIP_DATA_DESCRIPTOR_SIGNATURE.getD nextInd 0 then
        if nextInd + 1 ≥ 4 then some (true, r.2)
        else findZipDataDescriptorLoop fuel r.2 (nextInd + 1) nextByte
      else findZipDataDescriptorLoop fuel r.2 0 nextByte

/-- `Reseeder::FindZipDataDescriptor`; `nextByte` is not written before the
first turn. -/
def FindZipDataDescriptor (env : ReseedEnv) (fuel : Nat) (s : IStream) : Option (Bool × IStream) :=
  findZipDataDescriptorLoop fuel s 0 ((env.indeterminate 1).getD 0 0)

/-- The header of a local file as `ProcessSU3Stream` reads it, and the
stream behind the file name and the extra field. -/
structure LocalFileHeader where
  bitFlag : Nat
  compressionMethod : Nat
  compressedSize : Nat
  uncompressedSize : Nat
  fileNameLength : Nat
  extraFieldLength : Nat
  stream : IStream
deriving DecidableEq, Repr

/-- The variables of the loop body behind a local file header on which the
loop goes on: `signature` holds `ZIP_HEADER_SIGNATURE`, the others what the
header holds. -/
def LocalFileHeader.locals (h : LocalFileHeader) : SU3Locals :=
  { signature := ZIP_HEADER_SIGNATURE, bitFlag := h.bitFlag,
    compressionMethod := h.compressionMethod, compressedSize := h.compressedSize,
    uncompressedSize := h.uncompressedSize, fileNameLength := h.fileNameLength,
    extraFieldLength := h.extraFieldLength }

/-- The reads of `ProcessSU3Stream` from behind the signature of a local
file to behind its extra field, into the variables that hold `locals`. -/
def readLocalFileHeader (locals : SU3Locals) (s : IStream) : LocalFileHeader :=
  let s := s.seekg_cur 2 -- version
  let bitFlag := s.readVar (le16 locals.bitFlag) 2
  let s := bitFlag.2
  let compressionMethod := s.readVar (le16 locals.compressionMethod) 2
  let s := compressionMethod.2
  let s := s.seekg_cur 8 -- skip fields we don't care about
  let compressedSize := s.readVar (htole32 locals.compressedSize) 4
  let s := compressedSize.2
  let uncompressedSize := s.readVar (htole32 locals.uncompressedSize) 4
  let s := uncompressedSize.2
  let fileNameLength := s.readVar (le16 locals.fileNameLength) 2
  let s := fileNameLength.2
  let extraFieldLength := s.readVar (le16 locals.extraFieldLength) 2
  let s := extraFieldLength.2
  let localFileName := s.read (le16toh fileNameLength.1)
  let s := localFileName.2
  let s := s.seekg_cur (le16toh extraFieldLength.1)
  { bitFlag := le16toh bitFlag.1, compressionMethod := le16toh compressionMethod.1,
    compressedSize := le32toh compressedSize.1, uncompressedSize := le32toh uncompressedSize.1,
    fileNameLength := le16toh fileNameLength.1, extraFieldLength := le16toh extraFieldLength.1,
    stream := s }

/-- The sizes `ProcessSU3Stream` takes from a data descriptor whose signature
was just found: the CRC is skipped, the two sizes are read into the variables
that hold the sizes of the header, 4 is added to the compressed size, and the
stream goes back to `pos`. -/
def readDataDescriptor (h : LocalFileHeader) (s : IStream) (pos : Nat) : LocalFileHeader :=
  let s := s.seekg_cur 4 -- skip CRC-32
  let compressedSize := s.readVar (htole32 h.compressedSize) 4
  let s := compressedSize.2
  let uncompressedSize := s.readVar (htole32 h.uncompressedSize) 4
  let s := uncompressedSize.2
  -- now we know compressed and uncompressed size
  let s := s.seekg_beg pos -- back to compressed data
  { h with compressedSize := (le32toh compressedSize.1 + 4) % 4294967296,
           uncompressedSize := le32toh uncompressedSize.1, stream := s }

/-- The part of the loop body of `ProcessSU3Stream` from the read of the
compressed data to the skip of the data descriptor: the completion when the
inflator throws, else the number of files, the buffers handed to
`netdb.AddRouterInfo` and the stream. -/
def processLocalFile (env : ReseedEnv) (h : LocalFileHeader) (numFiles : Nat)
    (added : List (List Nat)) : Option (Nat × List (List Nat) × IStream) :=
  let r := h.stream.read h.compressedSize
  let compressed := stored h.compressedSize (env.indeterminate h.compressedSize) r.1
  let s := r.2
  let skip (s : IStream) : IStream :=
    if h.bitFlag &&& ZIP_BIT_FLAG_DATA_DESCRIPTOR ≠ 0 then
      s.seekg_cur 12 -- skip data descriptor section if presented (12 = 16 - 4)
    else s
  if h.compressionMethod ≠ 0 then
    -- we assume Deflate
    match env.inflate compressed with
    | none => none
    | some retrievable =>
      if retrievable.length ≤ h.uncompressedSize then
        let uncompressed := stored h.uncompressedSize (env.indeterminate h.uncompressedSize)
          (retrievable.take h.uncompressedSize)
        some (numFiles + 1, added ++ [uncompressed], skip s)
      else some (numFiles, added, skip s)
  else
    -- no compression
    some (numFiles + 1, added ++ [compressed], skip s)

/-- One turn of the loop of `ProcessSU3Stream` either goes to the next
turn, which finds the loop variables as `locals`, or leaves the function. -/
inductive LoopStep where
  | next (s : IStream) (numFiles : Nat) (added : List (List Nat)) (locals : SU3Locals)
  | done (outcome : SU3Outcome)
deriving DecidableEq, Repr

/-- The loop body of `ProcessSU3Stream` once the sizes of the local file are
known: an empty file is skipped with `continue`; else the file is processed
and the loop is left when the stream is `contentLength` or more behind
`contentPos`.  When the inflator throws, the function is left with the stream
behind the data read. -/
def su3File (env : ReseedEnv) (contentPos contentLength : Nat) (h : LocalFileHeader)
    (numFiles : Nat) (added : List (List Nat)) : LoopStep :=
  if h.compressedSize = 0 then LoopStep.next h.stream numFiles added h.locals
  else
    match processLocalFile env h numFiles added with
    | none =>
      LoopStep.done { completion := Completion.thrown, added := added,
                      stream := (h.stream.read h.compressedSize).2 }
    | some (numFiles, added, s) =>
      let endPos := s.tellg
      if (endPos + 18446744073709551616 - contentPos) % 18446744073709551616 ≥ contentLength then
        -- we are beyond contentLength
        LoopStep.done { completion := Completion.returned numFiles, added := added, stream := s }
      else LoopStep.next s numFiles added h.locals

/-- The loop body of `ProcessSU3Stream`, which finds the loop variables as
`locals`.  `innerFuel` is the fuel of the `FindZipDataDescriptor` call. -/
def su3Body (env : ReseedEnv) (innerFuel contentPos contentLength : Nat) (s : IStream)
    (numFiles : Nat) (added : List (List Nat)) (locals : SU3Locals) : LoopStep :=
  let signature := s.readVar (htole32 locals.signature) 4
  let s := signature.2
  if le32toh signature.1 = ZIP_HEADER_SIGNATURE then
    -- next local file
    let h := readLocalFileHeader locals s
    if h.fileNameLength ≥ 255 then
      LoopStep.done { completion := Completion.bufferOverrun, added := added, stream := h.stream }
    else if h.bitFlag &&& ZIP_BIT_FLAG_DATA_DESCRIPTOR ≠ 0 then
      -- take care about data desriptor if presented
      let pos := h.stream.tellg
      match FindZipDataDescriptor env innerFuel h.stream with
      | none =>
        LoopStep.done { completion := Completion.outOfFuel, added := added, stream := h.stream }
      | some (false, s) =>
        LoopStep.done { completion := Completion.returned numFiles, added := added, stream := s }
      | some (true, s) =>
        su3File env contentPos contentLength (readDataDescriptor h s pos) numFiles added
    else su3File env contentPos contentLength h numFiles added
  else
    -- no more files
    LoopStep.done { completion := Completion.returned numFiles, added := added, stream := s }

/-- The `while (!s.eof ())` loop of `ProcessSU3Stream`; the fuel bounds its turns. -/
def su3Loop (env : ReseedEnv) (innerFuel contentPos contentLength : Nat) :
    Nat → IStream → Nat → List (List Nat) → SU3Locals → SU3Outcome
  | 0, s, _, added, _ => { completion := Completion.outOfFuel, added := added, stream := s }
  | fuel + 1, s, numFiles, added, locals =>
    if s.eof then { completion := Completion.returned numFiles, added := added, stream := s }
    else
      match su3Body env innerFuel contentPos contentLength s numFiles added locals with
      | LoopStep.next s numFiles added locals =>
        su3Loop env innerFuel contentPos contentLength fuel s numFiles added locals
      | LoopStep.done outcome => outcome

/-- `Reseeder::ProcessSU3Stream`.  The fuel bounds the turns of its loop and
of each `FindZipDataDescriptor` loop. -/
def ProcessSU3Stream (env : ReseedEnv) (fuel : Nat) (s : IStream) : SU3Outcome :=
  let magicNumber := s.readVar (env.indeterminate 7) 7 -- magic number and zero byte 6
  let s := magicNumber.2
  if magicNumber.1 ≠ SU3_MAGIC_NUMBER ++ [0] then
    { completion := Completion.returned 0, added := [], stream := s }
  else
    let s := s.seekg_cur 1 -- su3 file format version
    let signatureType := s.readVar (env.indeterminate 2) 2 -- signature type
    let s := signatureType.2
    let signatureLength := s.readVar (env.indeterminate 2) 2 -- signature length
    let s := signatureLength.2
    let s := s.seekg_cur 1 -- unused
    let versionLength := s.readVar (env.indeterminate 1) 1 -- version length
    let s := versionLength.2
    let s := s.seekg_cur 1 -- unused
    let signerIDLength := s.readVar (env.indeterminate 1) 1 -- signer ID length
    let s := signerIDLength.2
    let contentLength := s.readVar (env.indeterminate 8) 8 -- content length
    let s := contentLength.2
    let s := s.seekg_cur 1 -- unused
    let fileType := s.readVar (env.indeterminate 1) 1 -- file type
    let s := fileType.2
    if fileType.1.getD 0 0 ≠ 0x00 then
      { completion := Completion.returned 0, added := [], stream := s }
    else
      let s := s.seekg_cur 1 -- unused
      let contentType := s.readVar (env.indeterminate 1) 1 -- content type
      let s := contentType.2
      if contentType.1.getD 0 0 ≠ 0x03 then
        { completion := Completion.returned 0, added := [], stream := s }
      else
        let s := s.seekg_cur 12 -- unused
        let s := s.seekg_cur (versionLength.1.getD 0 0) -- skip version
        let s := s.seekg_cur (signerIDLength.1.getD 0 0) -- skip signer ID
        -- handle content
        let contentPos := s.tellg
        su3Loop env fuel contentPos (be64toh contentLength.1) fuel s 0 [] env.locals

/-! ## SU3 archives -/

/-- The eight bytes of a 64-bit value, high byte first. -/
def be64 (v : Nat) : List Nat :=
  [(v / 72057594037927936) % 256, (v / 281474976710656) % 256, (v / 1099511627776) % 256,
   (v / 4294967296) % 256, (v / 16777216) % 256, (v / 65536) % 256, (v / 256) % 256, v % 256]

/-- The variable parts of an SU3 file around its content; the `reserved`
fields are the bytes the format leaves unused. -/
structure SU3File where
  formatVersion : Nat
  signatureType : Nat
  signatureLength : Nat
  reserved12 : Nat
  reserved14 : Nat
  reserved24 : Nat
  reserved26 : Nat
  reserved28 : List Nat
  version : List Nat
  signerID : List Nat
  contentLength : Nat
deriving DecidableEq, Repr

/-- The magic number with the zero byte that follows it. -/
def su3Magic : List Nat := SU3_MAGIC_NUMBER ++ [0]

/-- The bytes of an SU3 file up to its content: the 40-byte header with file
type 0 (ZIP) and content type 3 (reseed data), the version string and the
signer ID. -/
def SU3File.prefixBytes (f : SU3File) : List Nat :=
  su3Magic ++ ([f.formatVersion] ++ (htobe16 f.signatureType ++ (htobe16 f.signatureLength ++
    ([f.reserved12] ++ ([f.version.length] ++ ([f.reserved14] ++ ([f.signerID.length] ++
      (be64 f.contentLength ++ ([f.reserved24] ++ ([0] ++ ([f.reserved26] ++ ([3] ++
        (f.reserved28 ++ (f.version ++ f.signerID))))))))))))))

/-- The lengths of an SU3 header fit their fields. -/
def SU3File.wellFormed (f : SU3File) : Prop :=
  f.version.length < 256 ∧ f.signerID.length < 256 ∧
  f.contentLength < 18446744073709551616 ∧ f.reserved28.length = 12

/-- A data descriptor behind the data of a local file: the CRC and the two sizes. -/
structure DataDescriptor where
  crc : List Nat
  compressedSize : Nat
  uncompressedSize : Nat
deriving DecidableEq, Repr

/-- The bytes of a data descriptor: signature `50 4B 07 08`, CRC, sizes. -/
def DataDescriptor.bytes (d : DataDescriptor) : List Nat :=
  ZIP_DATA_DESCRIPTOR_SIGNATURE ++ (d.crc ++ (htole32 d.compressedSize ++
    htole32 d.uncompressedSize))

/-- A local file of a ZIP stream: the two version bytes, the bit flag, the
compression method, the eight bytes of time, date and CRC, the sizes of the
header, the name, the extra field, the (compressed) data and the data
descriptor, when there is one. -/
structure ZipEntry where
  version : List Nat
  bitFlag : Nat
  compressionMethod : Nat
  timeDateCrc : List Nat
  compressedSize : Nat
  uncompressedSize : Nat
  fileName : List Nat
  extraField : List Nat
  compressed : List Nat
  dataDescriptor : Option DataDescriptor
deriving DecidableEq, Repr

/-- The bytes of a local file record behind its signature and before its data. -/
def ZipEntry.headerBytes (e : ZipEntry) : List Nat :=
  e.version ++ (le16 e.bitFlag ++ (le16 e.compressionMethod ++ (e.timeDateCrc ++
    (htole32 e.compressedSize ++ (htole32 e.uncompressedSize ++
      (le16 e.fileName.length ++ (le16 e.extraField.length ++
        (e.fileName ++ e.extraField))))))))

/-- The bytes of the data descriptor of a local file, none without one. -/
def ZipEntry.descriptorBytes (e : ZipEntry) : List Nat :=
  match e.dataDescriptor with
  | none => []
  | some d => d.bytes

/-- The bytes of a local file record: signature `50 4B 03 04`, header fields
(little-endian), name, extra field, data, data descriptor. -/
def ZipEntry.bytes (e : ZipEntry) : List Nat :=
  htole32 ZIP_HEADER_SIGNATURE ++ (e.headerBytes ++ (e.compressed ++ e.descriptorBytes))

/-- The loop variables of `ProcessSU3Stream` behind a local file record it
took in: the fields of the header, with the sizes of the data descriptor, and
4 more for the compressed size, when there is one. -/
def ZipEntry.locals (e : ZipEntry) : SU3Locals :=
  { signature := ZIP_HEADER_SIGNATURE, bitFlag := e.bitFlag,
    compressionMethod := e.compressionMethod,
    compressedSize := match e.dataDescriptor with
      | none => e.compressedSize
      | some dd => dd.compressedSize + 4,
    uncompressedSize := match e.dataDescriptor with
      | none => e.uncompressedSize
      | some dd => dd.uncompressedSize,
    fileNameLength := e.fileName.length, extraFieldLength := e.extraField.length }

/-- The matcher of `FindZipDataDescriptor` run over `bytes` from `nextInd`
matched signature bytes: the number matched at the end, or `none` when the
whole signature was matched on the way. -/
def descriptorScan : List Nat → Nat → Option Nat
  | [], nextInd => some nextInd
  | nextByte :: rest, nextInd =>
    if nextByte = ZIP_DATA_DESCRIPTOR_SIGNATURE.getD nextInd 0 then
      if nextInd + 1 ≥ 4 then none else descriptorScan rest (nextInd + 1)
    else descriptorScan rest 0

/-- The router descriptor a local file of an archive holds: its data when
stored, the inflated data when compressed. -/
def ZipEntry.descriptor (env : ReseedEnv) (e : ZipEntry) : Option (List Nat) :=
  if e.compressionMethod ≠ 0 then env.inflate e.compressed else some e.compressed

/-- The fields of a local file record have the widths of the format and the
name fits `localFileName`. -/
def ZipEntry.fieldsOK (e : ZipEntry) : Prop :=
  e.version.length = 2 ∧ e.timeDateCrc.length = 8 ∧ e.bitFlag < 65536 ∧
  e.compressionMethod < 65536 ∧ e.compressedSize < 4294967296 ∧
  e.uncompressedSize < 4294967296 ∧ e.fileName.length < 255 ∧ e.extraField.length < 65536

/-- A local file record that `ProcessSU3Stream` takes in: either without
data descriptor, with the sizes in its header, data that is not empty, and an
inflator that yields as many bytes as the header says when the data is
compressed; or compressed with a data descriptor that holds the sizes, data
over which the matcher of `FindZipDataDescriptor` finds no signature and ends
with no byte matched, and an inflator that yields the descriptor, as many
bytes as the data descriptor says, also from the data followed by the four
signature bytes. -/
def ZipEntry.wellFormed (env : ReseedEnv) (e : ZipEntry) : Prop :=
  e.fieldsOK ∧
  match e.dataDescriptor with
  | none =>
    e.bitFlag &&& ZIP_BIT_FLAG_DATA_DESCRIPTOR = 0 ∧
    e.compressedSize = e.compressed.length ∧ 0 < e.compressed.length ∧
    (e.compressionMethod ≠ 0 →
      ∃ d, env.inflate e.compressed = some d ∧ d.length = e.uncompressedSize)
  | some dd =>
    e.bitFlag &&& ZIP_BIT_FLAG_DATA_DESCRIPTOR ≠ 0 ∧ e.compressionMethod ≠ 0 ∧
    dd.crc.length = 4 ∧ dd.compressedSize = e.compressed.length ∧
    e.compressed.length + 4 < 4294967296 ∧ dd.uncompressedSize < 4294967296 ∧
    descriptorScan e.compressed 0 = some 0 ∧
    ∃ d, env.inflate e.compressed = some d ∧
      env.inflate (e.compressed ++ ZIP_DATA_DESCRIPTOR_SIGNATURE) = some d ∧
      d.length = dd.uncompressedSize

/-- The ZIP stream of the local files `entries`. -/
def zipBytes (entries : List ZipEntry) : List Nat :=
  (entries.map ZipEntry.bytes).flatten

/-- The bytes of an SU3 file: header, version and signer ID, then the
content, which is the ZIP stream of `entries` and what follows the local files
in the ZIP (`trailer`, the central directory), then the signature. -/
def SU3File.bytes (f : SU3File) (entries : List ZipEntry) (trailer signature : List Nat) :
    List Nat :=
  f.prefixBytes ++ (zipBytes entries ++ (trailer ++ signature))

/-- A good stream that has read `pre` and has `rest` left. -/
def IStream.mkAt (seekPastEnd : Bool) (pre rest : List Nat) : IStream :=
  { data := pre ++ rest, pos := pre.length, eofbit := false, failbit := false,
    seekPastEnd := seekPastEnd }

/-! ## Observations on the trace of a session -/

/-- The messages resubmitted through `transports.SendMessage`, with the
identity they were sent to, in order. -/
def resubmitted (s : NTCPSession) : List (List Nat × I2NPMessage) :=
  s.trace.filterMap (fun e => match e with
    | Event.SendMessage ident m => some (ident, m)
    | _ => none)

/-- The arguments of the `Send` calls so far, in order, as the handlers bound
to the writes tell them: `none` for the time-sync message of `Send (nullptr)`. -/
def sendCalls (s : NTCPSession) : List (Option I2NPMessage) :=
  s.trace.filterMap (fun e => match e with
    | Event.async_write _ (Handler.HandleSent m) => some m
    | _ => none)

/-- The operations on a session that touch the delay queue or the
established flag: `SendI2NPMessage (msg)`, `Connected ()` and `Terminate ()`. -/
inductive SessionOp where
  | send (msg : Option I2NPMessage)
  | connected
  | terminate
deriving DecidableEq, Repr

/-- Run one operation on a session. -/
def SessionOp.run (env : Env) (s : NTCPSession) : SessionOp → NTCPSession
  | SessionOp.send msg => SendI2NPMessage env s msg
  | SessionOp.connected => Connected env s
  | SessionOp.terminate => Terminate s

/-- The session after the operations `ops`, in order. -/
def runOps (env : Env) (s : NTCPSession) (ops : List SessionOp) : NTCPSession :=
  ops.foldl (SessionOp.run env) s

/-- The session `HandlePhase2Received` has made when it comes to verify the
hash: `data`, the 304 bytes read, are in `m_Establisher->phase2`, the key is
created, both cipher contexts are set, and the encrypted part of phase 2 is
decrypted in place. -/
def phase2Processed (env : Env) (s : NTCPSession) (data : List Nat) : Option NTCPSession :=
  match s.m_Establisher with
  | none => none
  | some est =>
    let phase2 : NTCPPhase2 := { pubKey := data.take 256, encrypted := slice data 256 48 }
    let s := { s with m_Establisher := some { est with phase2 := phase2 } }
    match CreateAESKey env s phase2.pubKey env.indeterminateAESKey with
    | none => none
    | some (s, aesKey) =>
      let dec : CBCDecryption := { key := aesKey, iv := slice phase2.pubKey 240 16 }
      let enc : CBCEncryption := { key := aesKey, iv := slice est.phase1.HXxorHI 16 16 }
      let r := dec.DecryptLen env phase2.encrypted 48
      let phase2 : NTCPPhase2 := { phase2 with encrypted := writeAt phase2.encrypted 0 r.1 }
      some { s with m_Decryption := r.2, m_Encryption := enc,
                    m_Establisher := some { est with phase2 := phase2 } }

/-- The end of `HandlePhase2Received`, from the verification of the hash on. -/
def verifyPhase2 (env : Env) (s : NTCPSession) : Option NTCPSession :=
  match s.m_DHKeysPair, s.m_Establisher with
  | some pair, some est =>
    let xy := pair.publicKey ++ est.phase2.pubKey
    if env.sha256 xy ≠ est.phase2.hxy then
      let s := s.emit (Event.ReuseDHKeysPair s.m_DHKeysPair)
      some (Terminate { s with m_DHKeysPair := none })
    else SendPhase3 env s
  | _, _ => none

/-- The Adler-32 checksum (RFC 1950) of a byte string, stored big-endian. -/
def adler32Digest (data : List Nat) : List Nat :=
  let r := data.foldl (fun (ab : Nat × Nat) x =>
    let a := (ab.1 + x) % 65521
    (a, (ab.2 + a) % 65521)) (1, 0)
  htobe32 (r.2 * 65536 + r.1)

/-- A toy environment for evaluating the model on concrete inputs: an
invertible block function in place of AES, a folding hash in place of SHA-256. -/
def demoEnv : Env where
  sha256 := fun d => (List.range 32).map (fun i => d.foldl (fun a x => (a * 31 + x + i) % 256) 7)
  aesEncrypt := fun key blk => (blk.map (fun x => x ^^^ key.sum)).reverse
  aesDecrypt := fun key blk => (blk.reverse).map (fun x => x ^^^ key.sum)
  adler32 := adler32Digest
  dhAgree := fun priv pub => some (xorBytes priv pub)
  NewI2NPMessage := { buf := List.replicate 64 0, len := 18, offset := 2 }
  GetNextDHKeysPair := { publicKey := List.replicate 256 3, privateKey := List.replicate 256 5 }
  localIdentHash := List.replicate 32 9
  now := 1400000000
  CreateDatabaseStoreMsg := { buf := List.replicate 64 1, len := 12, offset := 2 }
  NTCP_BUFFER_SIZE := 1040
  indeterminateAESKey := List.replicate 32 170
  localFullLen := 387
  localSignatureLen := 40
  localIdentityBuffer := List.replicate 387 1
  sign := fun d => List.replicate 40 (d.sum % 256)
  verify := fun _ d sg => sg == List.replicate 40 (d.sum % 256)
  identityFromBuffer := fun b => { identHash := List.replicate 32 (b.sum % 256), fullLen := 387, signatureLen := 40 }

/-- The handshake scratch space of a fresh session. -/
def demoEstablisher : Establisher :=
  { phase1 := { pubKey := [], HXxorHI := [] },
    phase2 := { pubKey := [], encrypted := List.replicate 48 0 } }

/-- A fresh session for the demo environment. -/
def demoSession : NTCPSession where
  m_RemoteRouter := some (List.replicate 32 9)
  m_RemoteIdentity := { identHash := List.replicate 32 9, fullLen := 387, signatureLen := 40 }
  m_DHKeysPair := some { publicKey := List.replicate 256 3, privateKey := List.replicate 256 5 }
  m_IsEstablished := false
  m_Establisher := some demoEstablisher
  m_Decryption := { key := List.replicate 32 1, iv := List.replicate 16 2 }
  m_Encryption := { key := List.replicate 32 1, iv := List.replicate 16 2 }
  m_ReceiveBuffer := List.replicate 1040 0
  m_TimeSyncBuffer := List.replicate 16 0
  m_ReceiveBufferOffset := 0
  m_NextMessage := none
  m_NextMessageOffset := 0
  m_DelayedMessages := []
  m_NumSentBytes := 0
  m_NumReceivedBytes := 0
  trace := []

/-- A message with the 20 payload bytes `1 .. 20` at offset 2. -/
def demoMsg : I2NPMessage :=
  { buf := [0, 0, 1, 2, 3, 4, 5, 6, 7, 8, 9, 10, 11, 12, 13, 14, 15, 16, 17, 18, 19, 20] ++
      List.replicate 26 77,
    len := 22, offset := 2 }

/-- A message with an empty payload at offset 2. -/
def emptyMsg : I2NPMessage := { buf := List.replicate 32 0, len := 2, offset := 2 }

/-- The first block of a frame that announces 16385 payload bytes, encrypted
for the demo session. -/
def oversizeBlock : List Nat :=
  demoEnv.aesEncrypt demoSession.m_Decryption.key
    (xorBytes (htobe16 16385 ++ List.replicate 14 0) demoSession.m_Decryption.iv)

/-- The demo environment with a message buffer of 32768 bytes. -/
def bigEnv : Env :=
  { demoEnv with NewI2NPMessage := { buf := List.replicate 32768 0, len := 18, offset := 2 } }

/-- A message with 9000 payload bytes at offset 2. -/
def msg9000 : I2NPMessage := { buf := List.replicate 9020 7, len := 9002, offset := 2 }

/-- Cut a byte string into `k` successive reads of `c` bytes (the last ones
shorter or empty when the string ends). -/
def cutReads (l : List Nat) (c k : Nat) : List (List Nat) :=
  (List.range k).map (fun i => slice l (c * i) c)

/-- A session that has just called `Receive`, with an empty receive buffer. -/
def listeningSession : NTCPSession := Receive demoEnv demoSession

/-- A peer public key whose shared secret with the demo key pair starts with
three zero bytes. -/
def zeroLeadPubKey : List Nat := [5, 5, 5, 4] ++ List.replicate 252 0

/-- A peer public key whose shared secret with the demo key pair is 255 zero
bytes followed by `0x01`. -/
def weakPubKey : List Nat := List.replicate 255 5 ++ [4]

/-- A responder that has read a phase-1 message carrying `weakPubKey`. -/
def weakSession : NTCPSession :=
  let est : Establisher :=
    { phase1 := { pubKey := weakPubKey, HXxorHI := List.replicate 32 0 },
      phase2 := { pubKey := [], encrypted := List.replicate 48 0 } }
  { demoSession with m_Establisher := some est }

/-- The demo environment for a router whose identity has 391 bytes and whose
signatures have 64 bytes, as has the identity it parses from a buffer. -/
def env391 : Env :=
  { demoEnv with
    localFullLen := 391
    localSignatureLen := 64
    localIdentityBuffer := List.replicate 391 1
    sign := fun d => List.replicate 64 (d.sum % 256)
    identityFromBuffer := fun b =>
      { identHash := List.replicate 32 (b.sum % 256), fullLen := b.length, signatureLen := 64 } }

/-- The bytes `SendPhase3` writes for the demo session in `env391`. -/
def phase3Message : List Nat :=
  ((SendPhase3 env391 demoSession).map lastWritten).getD []

/-- The demo session after it has read a phase-2 message of 304 zero bytes. -/
def zeroPhase2Session : NTCPSession :=
  let est : Establisher :=
    { demoEstablisher with
      phase2 := { pubKey := List.replicate 256 0, encrypted := List.replicate 48 0 } }
  { demoSession with m_Establisher := some est }

/-- A toy inflator for evaluating the model: the first byte of a compressed
stream says how many bytes follow, the descriptor is these bytes in reverse
order, bytes behind them are ignored, and a stream that is too short makes
the inflator throw.  Objects that were not written hold bytes `AA`. -/
def demoReseedEnv : ReseedEnv where
  inflate := fun c =>
    match c with
    | [] => none
    | n :: rest => if rest.length < n then none else some (rest.take n).reverse
  indeterminate := fun n => List.replicate n 0xAA
  locals := { signature := 0xAAAAAAAA, bitFlag := 0xAAAA, compressionMethod := 0xAAAA,
              compressedSize := 0xAAAAAAAA, uncompressedSize := 0xAAAAAAAA,
              fileNameLength := 0xAAAA, extraFieldLength := 0xAAAA }

/-- A demo SU3 file header for a content of `n` bytes. -/
def demoSU3 (n : Nat) : SU3File :=
  { formatVersion := 0, signatureType := 6, signatureLength := 512, reserved12 := 0,
    reserved14 := 0, reserved24 := 0, reserved26 := 0, reserved28 := List.replicate 12 0,
    version := [49, 50, 51], signerID := [120, 64, 121], contentLength := n }

/-- A stored local file with data `d`. -/
def storedEntry (d : List Nat) : ZipEntry :=
  { version := [20, 0], bitFlag := 0, compressionMethod := 0,
    timeDateCrc := [0, 0, 0, 0, 1, 2, 3, 4], compressedSize := d.length,
    uncompressedSize := d.length, fileName := [114, 105], extraField := [], compressed := d,
    dataDescriptor := none }

/-- A compressed local file with (deflated) data `c` of `u` uncompressed bytes. -/
def deflatedEntry (c : List Nat) (u : Nat) : ZipEntry :=
  { version := [20, 0], bitFlag := 0, compressionMethod := 8,
    timeDateCrc := [0, 0, 0, 0, 1, 2, 3, 4], compressedSize := c.length,
    uncompressedSize := u, fileName := [114, 105, 50], extraField := [7],
    compressed := c, dataDescriptor := none }

/-- A local file with data `c`, method `m`, the data-descriptor bit set,
zero sizes in the header and a data descriptor that says `u` uncompressed bytes. -/
def descriptorEntry (m : Nat) (c : List Nat) (u : Nat) : ZipEntry :=
  { version := [20, 0], bitFlag := 8, compressionMethod := m,
    timeDateCrc := [0, 0, 0, 0, 0, 0, 0, 0], compressedSize := 0, uncompressedSize := 0,
    fileName := [114, 105], extraField := [], compressed := c,
    dataDescriptor := some { crc := [1, 2, 3, 4], compressedSize := c.length,
                             uncompressedSize := u } }

/-- An SU3 archive with the ZIP stream of `entries` as its whole content
and no signature behind it. -/
def demoArchive (entries : List ZipEntry) : List Nat :=
  (demoSU3 (zipBytes entries).length).bytes entries [] []

/-- Four local files: stored, deflated, deflated with data descriptor, stored. -/
def demoEntries : List ZipEntry :=
  [storedEntry [1, 2, 3], deflatedEntry [3, 9, 8, 7] 3, descriptorEntry 8 [2, 5, 6] 2,
   storedEntry [5]]

/-- The first bytes of a central directory: signature `50 4B 01 02` and two more. -/
def demoTrailer : List Nat := [0x50, 0x4B, 1, 2, 20, 0]

/-- Sixteen bytes of data that start with the bytes `50 4B 07 08` and hold
`FC FF FF FF` where a data descriptor has its compressed size. -/
def maskingData : List Nat :=
  [0x50, 0x4B, 0x07, 0x08, 0, 0, 0, 0, 0xFC, 0xFF, 0xFF, 0xFF, 0, 0, 0, 0]

/-- A stored local file with the data `maskingData`, the data-descriptor bit
set, zero sizes in the header and a data descriptor with the CRC-32 of the
data and the sizes 16 and 16. -/
def maskingEntry : ZipEntry :=
  { version := [20, 0], bitFlag := 8, compressionMethod := 0,
    timeDateCrc := [0, 0, 0, 0, 0, 0, 0, 0], compressedSize := 0, uncompressedSize := 0,
    fileName := [114, 105], extraField := [], compressed := maskingData,
    dataDescriptor := some { crc := [0x6A, 0x00, 0x71, 0x1B], compressedSize := 16,
                             uncompressedSize := 16 } }

/-- A compressed local file with the data-descriptor bit set and zero sizes
in its header, whose data `01 02 03 50` no data descriptor follows. -/
def unterminatedEntry : ZipEntry :=
  { version := [20, 0], bitFlag := 8, compressionMethod := 8,
    timeDateCrc := [0, 0, 0, 0, 0, 0, 0, 0], compressedSize := 0, uncompressedSize := 0,
    fileName := [114, 105], extraField := [], compressed := [1, 2, 3, 0x50],
    dataDescriptor := none }

/-- An archive that announces 72 bytes of content, the stored local files
`01 02 03` and `04 05 06 07 08`, and ends after the first two bytes of the
second file. -/
def truncatedArchive : List Nat :=
  (demoSU3 72).prefixBytes ++
    (zipBytes [storedEntry [1, 2, 3]] ++ (storedEntry [4, 5, 6, 7, 8]).bytes.take 34)

/-- A second message, with the 4 payload bytes `9 8 7 6` at offset 2. -/
def demoMsg2 : I2NPMessage :=
  { buf := [0, 0, 9, 8, 7, 6] ++ List.replicate 26 55, len := 6, offset := 2 }

/-- A session accepted from a peer (no remote router object) with two
messages in its delay queue. -/
def inboundSession : NTCPSession :=
  { demoSession with m_RemoteRouter := none, m_DelayedMessages := [demoMsg, demoMsg2] }

/-- A session opened to a known router with two messages in its delay queue. -/
def outboundSession : NTCPSession :=
  { demoSession with m_DelayedMessages := [demoMsg, demoMsg2] }

/-- The demo environment with a key agreement that rejects the public key
zero, as `dh.Agree` does for a public key that fails validation. -/
def strictEnv : Env :=
  { demoEnv with
    dhAgree := fun priv pub => if pub.all (fun b => b == 0) then none else demoEnv.dhAgree priv pub }

/-- The public key zero, 256 zero bytes. -/
def zeroPubKey : List Nat := List.replicate 256 0

/-- A phase-1 message for the local router with the public key zero:
`X || (SHA256 (X) xor ident)`. -/
def zeroPhase1 : List Nat :=
  zeroPubKey ++ xorBytes (strictEnv.sha256 zeroPubKey) strictEnv.localIdentHash

/-- A phase-2 message with the public key zero. -/
def zeroPhase2 : List Nat := zeroPubKey ++ List.replicate 48 0

/-- The DH key pair of the demo initiator; its public key is `X`. -/
def pairA : DHKeysPair :=
  { publicKey := List.replicate 256 3, privateKey := List.replicate 256 5 }

/-- The DH key pair of the demo responder; its public key is `Y`.  With the
key agreement of the demo environment both sides get the shared secret
`02 02 .. 02`. -/
def pairB : DHKeysPair :=
  { publicKey := List.replicate 256 7, privateKey := List.replicate 256 1 }

/-- The phase-1 message of the demo initiator, as both sides hold it. -/
def demoPhase1 : NTCPPhase1 :=
  { pubKey := pairA.publicKey,
    HXxorHI := xorBytes (demoEnv.sha256 pairA.publicKey) (List.replicate 32 9) }

/-- The handshake scratch space of both demo sides after phase 1. -/
def phase1Establisher : Establisher :=
  { phase1 := demoPhase1, phase2 := { pubKey := [], encrypted := List.replicate 48 0 } }

/-- The demo responder after phase 1. -/
def responderSession : NTCPSession :=
  { demoSession with
    m_RemoteRouter := none, m_DHKeysPair := some pairB, m_Establisher := some phase1Establisher }

/-- The demo initiator after phase 1. -/
def initiatorSession : NTCPSession :=
  { demoSession with m_DHKeysPair := some pairA, m_Establisher := some phase1Establisher }

/-- A stream in which the data-descriptor signature follows one byte `50`. -/
def shadowedSignature : List Nat := [0x50, 0x50, 0x4B, 0x07, 0x08]

/-- A stored local file whose name has 255 bytes. -/
def longNameEntry : ZipEntry :=
  { version := [20, 0], bitFlag := 0, compressionMethod := 0,
    timeDateCrc := [0, 0, 0, 0, 1, 2, 3, 4], compressedSize := 3, uncompressedSize := 3,
    fileName := List.replicate 255 114, extraField := [], compressed := [1, 2, 3],
    dataDescriptor := none }

/-- A message whose offset leaves no room for the length in front of it. -/
def malformedMsg : I2NPMessage :=
  { buf := [1, 2, 3, 4, 5, 6, 7, 8, 9, 10] ++ List.replicate 38 77, len := 11, offset := 1 }

/-- The handshake scratch space of both demo sides after phase 2, with the
encrypted part of phase 2 in the clear: hash, `tsB`, filler. -/
def phase2Establisher : Establisher :=
  { phase1 := demoPhase1,
    phase2 := { pubKey := pairB.publicKey,
                encrypted := demoEnv.sha256 (pairA.publicKey ++ pairB.publicKey) ++
                  htobe32 1400000007 ++ List.replicate 12 0 } }

/-- The demo initiator when it sends phase 3. -/
def phase3Initiator : NTCPSession :=
  { demoSession with m_DHKeysPair := some pairA, m_Establisher := some phase2Establisher }

/-- The demo responder when it handles phase 3: the identity of the
initiator is parsed and the decrypted message is in `m_ReceiveBuffer`, with
`tsA` behind the identity. -/
def phase3Responder : NTCPSession :=
  { demoSession with
    m_RemoteRouter := none, m_DHKeysPair := some pairB,
    m_Establisher := some phase2Establisher,
    m_ReceiveBuffer := htobe16 387 ++ List.replicate 387 1 ++ htobe32 demoEnv.now ++
      List.replicate 647 0 }

/-- The string the demo initiator signs in phase 3: `X || Y || HI_r || tsA || tsB`. -/
def demoSigned3 : List Nat :=
  pairA.publicKey ++ pairB.publicKey ++ demoEnv.localIdentHash ++ htobe32 demoEnv.now ++
    htobe32 1400000007

/-- A signing function that gives every string the signature of `demoSigned3`. -/
def constSigner : List Nat → List Nat := fun _ => demoEnv.sign demoSigned3

/-- A compressed local file with the data-descriptor bit set whose one byte
of data makes the demo inflator throw. -/
def brokenDeflateEntry : ZipEntry := descriptorEntry 8 [9] 1

/-- A stored local file with the data-descriptor bit set whose one byte of
data is `50`, the first byte of the data-descriptor signature. -/
def shadowedEntry : ZipEntry := descriptorEntry 0 [0x50] 1

/-- The first block of a frame that announces 20 payload bytes, encrypted for
the demo session. -/
def header20Block : List Nat :=
  demoEnv.aesEncrypt demoSession.m_Decryption.key
    (xorBytes (htobe16 20 ++ List.replicate 14 0) demoSession.m_Decryption.iv)

/-- An archive that announces 500 bytes of content and ends behind its one
stored local file with the data `01 02 03`. -/
def cutAfterRecord : List Nat :=
  (demoSU3 500).prefixBytes ++ zipBytes [storedEntry [1, 2, 3]]

/-- The demo responder when it handles phase 3, with the signature of the
demo initiator over `demoSigned3` behind identity, `tsA` and 15 bytes of
padding in the decrypted message. -/
def phase3ResponderSigned : NTCPSession :=
  { phase3Responder with
    m_ReceiveBuffer := writeAt phase3Responder.m_ReceiveBuffer 408 (demoEnv.sign demoSigned3) }

/-! ## Theorems -/

theorem writeAt_append (a b c bytes : List Nat) (h : bytes.length = b.length) :
    writeAt (a ++ b ++ c) a.length bytes = a ++ bytes ++ c := by
  simp [writeAt, h, List.take_append_eq_append_take, List.drop_append_eq_append_drop]

theorem writeAt_length (buf : List Nat) (pos : Nat) (bytes : List Nat)
    (h : pos + bytes.length ≤ buf.length) : (writeAt buf pos bytes).length = buf.length := by
  simp [writeAt]; omega

theorem sendPadding_eq (len : Nat) : sendPadding len = (16 - (len + 6) % 16) % 16 := by
  unfold sendPadding
  simp only []
  split <;> omega

theorem sendPadding_lt (len : Nat) : sendPadding len < 16 := by
  rw [sendPadding_eq]; omega

theorem sendPadding_aligned (len : Nat) : (len + 6 + sendPadding len) % 16 = 0 := by
  rw [sendPadding_eq]; omega

/-- Splitting a buffer at the places `Send` touches. -/
theorem buf_split (buf : List Nat) (a b c : Nat) :
    buf = buf.take a ++ slice buf a b ++ slice buf (a + b) c ++ buf.drop (a + b + c) := by
  simp only [slice]
  rw [List.append_assoc, List.append_assoc]
  conv_lhs => rw [← List.take_append_drop a buf]
  congr 1
  conv_lhs => rw [← List.take_append_drop b (buf.drop a)]
  congr 1
  rw [List.drop_drop]
  conv_lhs => rw [← List.take_append_drop c (buf.drop (a + b))]
  rw [List.drop_drop]

theorem slice_add (buf : List Nat) (a b c : Nat) :
    slice buf a (b + c) = slice buf a b ++ slice buf (a + b) c := by
  simp only [slice]
  rw [List.take_add, List.drop_drop]

theorem slice_length (buf : List Nat) (a b : Nat) (h : a + b ≤ buf.length) :
    (slice buf a b).length = b := by
  simp [slice]; omega

/-- The plaintext frame of `Send` in closed form. -/
theorem sendFrame_eq (env : Env) (msg : I2NPMessage)
    (hadler : env.adlerOK)
    (hoff : 2 ≤ msg.offset) (hlen : msg.offset ≤ msg.len)
    (hroom : msg.len + sendPadding msg.GetLength + 4 ≤ msg.buf.length) :
    sendFrame env msg =
      htobe16 msg.GetLength ++ msg.payload ++ slice msg.buf msg.len (sendPadding msg.GetLength) ++
        env.adler32 (htobe16 msg.GetLength ++ msg.payload ++
          slice msg.buf msg.len (sendPadding msg.GetLength)) := by
  have hadler : ∀ d, (env.adler32 d).length = 4 := hadler
  obtain ⟨buf, len, offset⟩ := msg
  simp only [I2NPMessage.GetLength, I2NPMessage.GetBuffer, I2NPMessage.payload, sendFrame,
    sendBufferOf, sendChecksummed] at *
  generalize hP : sendPadding (len - offset) = P at *
  have hX : (writeAt buf (offset - 2) (htobe16 (len - offset))).drop (offset - 2)
      = htobe16 (len - offset) ++ buf.drop offset := by
    simp only [writeAt, htobe16, List.length_cons, List.length_nil]
    rw [List.append_assoc, List.drop_append_eq_append_drop]
    have h1 : (List.take (offset - 2) buf).length = offset - 2 := by
      rw [List.length_take]; omega
    have h2 : offset - 2 + (0 + 1 + 1) = offset := by omega
    simp [h1, h2]
  rw [hX]
  have hT : (htobe16 (len - offset) ++ buf.drop offset).take (len - offset + 2 + P)
      = htobe16 (len - offset) ++ slice buf offset (len - offset) ++ slice buf len P := by
    have h3 : len - offset + 2 + P = 2 + ((len - offset) + P) := by omega
    rw [h3, List.append_assoc]
    have h4 : slice buf len P = slice buf (offset + (len - offset)) P := by
      congr 1; omega
    rw [h4, ← slice_add]
    rw [show 2 + (len - offset + P) = (len - offset + P) + 1 + 1 by omega]
    simp [htobe16, slice]
  rw [hT]
  simp only [writeAt]
  rw [hT]
  have hlenT : (List.take (len - offset + 2 + P) (htobe16 (len - offset) ++ buf.drop offset)).length
      = len - offset + 2 + P := by
    rw [List.length_take]; simp [htobe16]; omega
  rw [hT] at hlenT
  rw [List.append_assoc (htobe16 (len - offset) ++ slice buf offset (len - offset) ++ slice buf len P),
    List.take_append_eq_append_take, hlenT]
  have h5 : len - offset + P + 6 - (len - offset + 2 + P) = 4 := by omega
  rw [h5, List.take_of_length_le (by omega), List.take_append_eq_append_take, hadler]
  simp [hadler]

theorem xorBytes_length (a b : List Nat) : (xorBytes a b).length = min a.length b.length := by
  simp [xorBytes]

theorem xorBytes_cancel (p iv : List Nat) (h : p.length ≤ iv.length) :
    xorBytes (xorBytes p iv) iv = p := by
  induction p generalizing iv with
  | nil => simp [xorBytes]
  | cons x xs ih =>
    cases iv with
    | nil => simp at h
    | cons y ys =>
      simp only [xorBytes, List.zipWith_cons_cons, List.cons.injEq]
      refine ⟨?_, ?_⟩
      · rw [Nat.xor_assoc, Nat.xor_self, Nat.xor_zero]
      · have := ih ys (by simpa using h)
        simpa [xorBytes] using this

/-- CBC decryption of the encryption of a block gives the block back. -/
theorem cbc_block_roundtrip (env : Env) (hc : env.cipherOK) (key p iv : List Nat)
    (hp : p.length = 16) (hiv : iv.length = 16) :
    xorBytes (env.aesDecrypt key (env.aesEncrypt key (xorBytes p iv))) iv = p := by
  have hx : (xorBytes p iv).length = 16 := by rw [xorBytes_length]; omega
  rw [(hc key _ hx).2]
  exact xorBytes_cancel p iv (by omega)

theorem cbc_block_length (env : Env) (hc : env.cipherOK) (key p iv : List Nat)
    (hp : p.length = 16) (hiv : iv.length = 16) :
    (env.aesEncrypt key (xorBytes p iv)).length = 16 := by
  have hx : (xorBytes p iv).length = 16 := by rw [xorBytes_length]; omega
  exact (hc key _ hx).1

/-- Chained encryption reads only the first `16 * n` bytes of its input. -/
theorem cbcEncryptBlocks_take (env : Env) (key : List Nat) (n : Nat) (iv data : List Nat) :
    cbcEncryptBlocks env key n iv (data.take (16 * n)) = cbcEncryptBlocks env key n iv data := by
  induction n generalizing iv data with
  | zero => simp [cbcEncryptBlocks]
  | succ n ih =>
    simp only [cbcEncryptBlocks]
    have h1 : List.take 16 (List.take (16 * (n + 1)) data) = List.take 16 data := by
      rw [List.take_take, Nat.min_eq_left (by omega)]
    have h2 : List.drop 16 (List.take (16 * (n + 1)) data) = List.take (16 * n) (List.drop 16 data) := by
      rw [List.drop_take, show 16 * (n + 1) - 16 = 16 * n by omega]
    rw [h1, h2, ih]

theorem cbcEncryptBlocks_length (env : Env) (hc : env.cipherOK) (key : List Nat) (n : Nat)
    (iv data : List Nat) (hiv : iv.length = 16) (hd : 16 * n ≤ data.length) :
    (cbcEncryptBlocks env key n iv data).1.length = 16 * n ∧
      ((cbcEncryptBlocks env key n iv data).2).length = 16 := by
  induction n generalizing iv data with
  | zero => simp [cbcEncryptBlocks, hiv]
  | succ n ih =>
    simp only [cbcEncryptBlocks]
    have hp : (data.take 16).length = 16 := by rw [List.length_take]; omega
    have hl := cbc_block_length env hc key _ iv hp hiv
    have := ih (env.aesEncrypt key (xorBytes (List.take 16 data) iv)) (data.drop 16) hl
      (by rw [List.length_drop]; omega)
    refine ⟨?_, this.2⟩
    simp only [List.length_append, this.1, hl]
    omega

theorem writeAt_writeAt (buf : List Nat) (p : Nat) (a b : List Nat) (h : p ≤ buf.length) :
    writeAt (writeAt buf p a) (p + a.length) b = writeAt buf p (a ++ b) := by
  have h1 : (List.take p buf).length = p := by rw [List.length_take]; omega
  have h2 : (List.take p buf ++ a).length = p + a.length := by simp [h1]
  have e1 : List.take (p + a.length) (writeAt buf p a) = List.take p buf ++ a := by
    unfold writeAt
    exact List.take_left' h2
  have e2 : List.drop (p + a.length + b.length) (writeAt buf p a)
      = List.drop (p + (a ++ b).length) buf := by
    unfold writeAt
    rw [← h2, List.drop_append, List.drop_drop, h2, List.length_append]
    congr 1
    omega
  unfold writeAt at e1 e2 ⊢
  rw [e1, e2]
  simp

/-- The remaining blocks of a message in progress: all are accepted, and the
message is handed over with the last one. -/
theorem decryptBlocks_continue (env : Env) (hc : env.cipherOK) (key : List Nat) :
    ∀ (n : Nat) (F iv : List Nat) (s : NTCPSession) (m : I2NPMessage),
      s.m_NextMessage = some m → s.m_Decryption = { key := key, iv := iv } →
      iv.length = 16 → 16 * (n + 1) ≤ F.length →
      s.m_NextMessageOffset ≤ m.buf.length →
      s.m_NextMessageOffset + 16 * n < m.len + 4 →
      m.len + 4 ≤ s.m_NextMessageOffset + 16 * (n + 1) →
      decryptBlocks env s (blocksOf (n + 1) (cbcEncryptBlocks env key (n + 1) iv F).1) =
        (true, { s with
          m_NextMessage := none
          m_NextMessageOffset := s.m_NextMessageOffset + 16 * (n + 1)
          m_Decryption := { key := key, iv := (cbcEncryptBlocks env key (n + 1) iv F).2 }
          trace := s.trace ++ [Event.HandleI2NPMessage
            { m with buf := writeAt m.buf s.m_NextMessageOffset (F.take (16 * (n + 1))) }] }) := by
  intro n
  induction n with
  | zero =>
    intro F iv s m hm hd hiv hF hbuf hlo hhi
    have hp : (F.take 16).length = 16 := by rw [List.length_take]; omega
    have hcl := cbc_block_length env hc key _ iv hp hiv
    simp only [cbcEncryptBlocks, blocksOf, decryptBlocks, List.append_nil]
    rw [List.take_of_length_le (by omega)]
    simp only [DecryptNextBlock, hm, CBCDecryption.Decrypt, hd,
      cbc_block_roundtrip env hc key _ iv hp hiv, completeNextMessage]
    have : s.m_NextMessageOffset + 16 ≥ m.len + 4 := by omega
    simp [this, NTCPSession.emit]
  | succ n ih =>
    intro F iv s m hm hd hiv hF hbuf hlo hhi
    have hp : (F.take 16).length = 16 := by rw [List.length_take]; omega
    have hcl := cbc_block_length env hc key _ iv hp hiv
    rw [cbcEncryptBlocks, blocksOf]
    simp only []
    rw [List.take_left' hcl, List.drop_left' hcl, decryptBlocks]
    simp only [DecryptNextBlock, hm, CBCDecryption.Decrypt, hd,
      cbc_block_roundtrip env hc key _ iv hp hiv, completeNextMessage]
    have hnot : ¬ (s.m_NextMessageOffset + 16 ≥ m.len + 4) := by omega
    simp only [hnot, if_false, Bool.not_true, Bool.false_eq_true]
    rw [ih (F.drop 16) _ _ { m with buf := writeAt m.buf s.m_NextMessageOffset (F.take 16) }
      rfl rfl hcl (by rw [List.length_drop]; omega)
      (by simp only [writeAt, List.length_append, List.length_take, List.length_drop]; omega)
      (by simp only []; omega) (by simp only []; omega)]
    simp only [Prod.mk.injEq, true_and]
    have hw : writeAt (writeAt m.buf s.m_NextMessageOffset (F.take 16)) (s.m_NextMessageOffset + 16)
        (List.take (16 * (n + 1)) (List.drop 16 F))
        = writeAt m.buf s.m_NextMessageOffset (F.take (16 * (n + 1 + 1))) := by
      have := writeAt_writeAt m.buf s.m_NextMessageOffset (F.take 16)
        (List.take (16 * (n + 1)) (List.drop 16 F)) hbuf
      rw [hp] at this
      rw [this]
      congr 1
      rw [show 16 * (n + 1 + 1) = 16 + 16 * (n + 1) by omega, List.take_add]
    simp only [hw]
    congr 1
    omega

theorem getD_append_left (a b : List Nat) (i : Nat) (h : i < a.length) :
    (a ++ b).getD i 0 = a.getD i 0 := by
  simp [List.getD_eq_getElem?_getD, List.getElem?_append_left h]

theorem be16toh_append (a b : List Nat) (h : 2 ≤ a.length) : be16toh (a ++ b) = be16toh a := by
  unfold be16toh
  rw [getD_append_left a b 0 (by omega), getD_append_left a b 1 (by omega)]

theorem be16toh_writeAt_take (buf F : List Nat) (h : 16 ≤ F.length) :
    be16toh (writeAt buf 0 (F.take 16)) = be16toh F := by
  have h1 : be16toh (writeAt buf 0 (F.take 16)) = be16toh (F.take 16) := by
    unfold writeAt
    rw [List.take_zero, List.nil_append, be16toh_append _ _ (by rw [List.length_take]; omega)]
  have h2 : be16toh F = be16toh (F.take 16) := by
    conv_lhs => rw [← List.take_append_drop 16 F]
    rw [be16toh_append _ _ (by rw [List.length_take]; omega)]
  rw [h1, h2]

theorem be16toh_htobe16 (v : Nat) (rest : List Nat) (h : v < 65536) :
    be16toh (htobe16 v ++ rest) = v := by
  simp only [be16toh, htobe16, List.cons_append, List.nil_append, List.getD_cons_zero,
    List.getD_cons_succ]
  omega

/-- One whole frame fed to a session with no message in progress: every
block is accepted and exactly one message is handed over, with the last block. -/
theorem decryptBlocks_frame (env : Env) (hc : env.cipherOK) (key : List Nat)
    (n : Nat) (F iv : List Nat) (s : NTCPSession)
    (hm : s.m_NextMessage = none) (hd : s.m_Decryption = { key := key, iv := iv })
    (hiv : iv.length = 16) (hF : F.length = 16 * (n + 1))
    (hL1 : 1 ≤ be16toh F) (hL2 : be16toh F ≤ NTCP_MAX_MESSAGE_SIZE)
    (hlo : 16 * n < be16toh F + 6) (hhi : be16toh F + 6 ≤ 16 * (n + 1))
    (hroom : 16 * (n + 1) ≤ env.NewI2NPMessage.buf.length) :
    decryptBlocks env s (blocksOf (n + 1) (cbcEncryptBlocks env key (n + 1) iv F).1) =
      (true, { s with
        m_NextMessage := none
        m_NextMessageOffset := 16 * (n + 1)
        m_Decryption := { key := key, iv := (cbcEncryptBlocks env key (n + 1) iv F).2 }
        trace := s.trace ++ [Event.HandleI2NPMessage
          { buf := writeAt env.NewI2NPMessage.buf 0 F, len := be16toh F + 2, offset := 2 }] }) := by
  have hp : (F.take 16).length = 16 := by rw [List.length_take]; omega
  have hcl := cbc_block_length env hc key _ iv hp hiv
  have hbe := be16toh_writeAt_take env.NewI2NPMessage.buf F (by omega)
  have hne : be16toh F ≠ 0 := by omega
  have hnot : ¬ (be16toh F > NTCP_MAX_MESSAGE_SIZE) := by omega
  cases n with
  | zero =>
    simp only [cbcEncryptBlocks, blocksOf, decryptBlocks, List.append_nil]
    rw [List.take_of_length_le (by omega)]
    simp only [DecryptNextBlock, hm, CBCDecryption.Decrypt, hd,
      cbc_block_roundtrip env hc key _ iv hp hiv, completeNextMessage, hbe]
    have h16 : 0 + 16 ≥ be16toh F + 2 + 4 := by omega
    have hFt : F.take 16 = F := List.take_of_length_le (by omega)
    simp [hne, hnot, h16, NTCPSession.emit, hFt]
  | succ n =>
    rw [cbcEncryptBlocks, blocksOf]
    simp only []
    rw [List.take_left' hcl, List.drop_left' hcl, decryptBlocks]
    simp only [DecryptNextBlock, hm, CBCDecryption.Decrypt, hd,
      cbc_block_roundtrip env hc key _ iv hp hiv, completeNextMessage, hbe]
    have h16 : ¬ (0 + 16 ≥ be16toh F + 2 + 4) := by omega
    simp only [hne, hnot, h16, ne_eq, not_false_eq_true, if_true, if_false, Bool.not_true,
      Bool.false_eq_true]
    rw [decryptBlocks_continue env hc key n (F.drop 16) _ _
      { buf := writeAt env.NewI2NPMessage.buf 0 (F.take 16), len := be16toh F + 2, offset := 2 }
      rfl rfl hcl (by rw [List.length_drop]; omega)
      (by simp only [writeAt, List.length_append, List.length_take, List.length_drop]; omega)
      (by simp only []; omega) (by simp only []; omega)]
    simp only [Prod.mk.injEq, true_and]
    have hw : writeAt (writeAt env.NewI2NPMessage.buf 0 (F.take 16)) (0 + 16)
        (List.take (16 * (n + 1)) (List.drop 16 F))
        = writeAt env.NewI2NPMessage.buf 0 F := by
      have := writeAt_writeAt env.NewI2NPMessage.buf 0 (F.take 16)
        (List.take (16 * (n + 1)) (List.drop 16 F)) (by omega)
      rw [hp] at this
      rw [this]
      congr 1
      rw [← List.take_add, List.take_of_length_le (by omega)]
    simp only [hw]
    congr 1
    omega

theorem sendFrame_length (env : Env) (msg : I2NPMessage)
    (hadler : env.adlerOK)
    (hoff : 2 ≤ msg.offset) (hlen : msg.offset ≤ msg.len)
    (hroom : msg.len + sendPadding msg.GetLength + 4 ≤ msg.buf.length) :
    (sendFrame env msg).length = msg.GetLength + sendPadding msg.GetLength + 6 := by
  rw [sendFrame_eq env msg hadler hoff hlen hroom]
  have hadler : ∀ d, (env.adler32 d).length = 4 := hadler
  simp only [List.length_append, hadler, I2NPMessage.payload, htobe16, List.length_cons,
    List.length_nil]
  rw [slice_length _ _ _ (by omega), slice_length _ _ _ (by omega)]
  simp only [I2NPMessage.GetLength]
  omega

/-- What `Send` writes for a regular message: the chained encryption of the
plaintext frame, and nothing else. -/
theorem Send_trace (env : Env) (hc : env.cipherOK) (hadler : env.adlerOK)
    (s : NTCPSession) (msg : I2NPMessage) (hiv : s.m_Encryption.iv.length = 16)
    (hoff : 2 ≤ msg.offset) (hlen : msg.offset ≤ msg.len)
    (hroom : msg.len + sendPadding msg.GetLength + 4 ≤ msg.buf.length) :
    Send env s (some msg) =
      { s with
        m_Encryption := { s.m_Encryption with iv := (cbcEncryptBlocks env s.m_Encryption.key
          ((msg.GetLength + sendPadding msg.GetLength + 6) / 16) s.m_Encryption.iv
          (sendFrame env msg)).2 }
        trace := s.trace ++ [Event.async_write (cbcEncryptBlocks env s.m_Encryption.key
          ((msg.GetLength + sendPadding msg.GetLength + 6) / 16) s.m_Encryption.iv
          (sendFrame env msg)).1 (Handler.HandleSent (some msg))] } := by
  have hl := sendFrame_length env msg hadler hoff hlen hroom
  have hal := sendPadding_aligned msg.GetLength
  have h16 : 16 * ((msg.GetLength + sendPadding msg.GetLength + 6) / 16)
      = msg.GetLength + sendPadding msg.GetLength + 6 := by omega
  have hnlt : ¬ (msg.offset < 2) := by omega
  have hE : cbcEncryptBlocks env s.m_Encryption.key
      ((msg.GetLength + sendPadding msg.GetLength + 6) / 16) s.m_Encryption.iv (sendBufferOf env msg)
      = cbcEncryptBlocks env s.m_Encryption.key
      ((msg.GetLength + sendPadding msg.GetLength + 6) / 16) s.m_Encryption.iv (sendFrame env msg) := by
    rw [← cbcEncryptBlocks_take env _ _ _ (sendBufferOf env msg), h16]
    rfl
  have hcl := (cbcEncryptBlocks_length env hc s.m_Encryption.key
    ((msg.GetLength + sendPadding msg.GetLength + 6) / 16) s.m_Encryption.iv (sendFrame env msg)
    hiv (by omega)).1
  rw [h16] at hcl
  simp only [Send, hnlt, if_false, CBCEncryption.Encrypt, hE, NTCPSession.emit]
  have hw : List.take (msg.GetLength + sendPadding msg.GetLength + 6)
      (writeAt (sendBufferOf env msg) 0 (cbcEncryptBlocks env s.m_Encryption.key
      ((msg.GetLength + sendPadding msg.GetLength + 6) / 16) s.m_Encryption.iv (sendFrame env msg)).1)
      = (cbcEncryptBlocks env s.m_Encryption.key
      ((msg.GetLength + sendPadding msg.GetLength + 6) / 16) s.m_Encryption.iv (sendFrame env msg)).1 := by
    unfold writeAt
    rw [List.take_zero, List.nil_append, List.take_left' hcl]
  rw [hw]

theorem dispatched_append (s : NTCPSession) (tr : List Event) (m : I2NPMessage) :
    dispatched { s with trace := tr ++ [Event.HandleI2NPMessage m] }
      = dispatched { s with trace := tr } ++ [m] := by
  simp [dispatched, List.filterMap_append]

theorem lastWritten_of_trace (s : NTCPSession) (tr : List Event) (d : List Nat) (h : Handler)
    (hs : s.trace = tr ++ [Event.async_write d h]) : lastWritten s = d := by
  simp [lastWritten, written, hs, List.filterMap_append]

theorem payload_length (msg : I2NPMessage) (h : msg.len ≤ msg.buf.length)
    (hlen : msg.offset ≤ msg.len) : msg.payload.length = msg.GetLength := by
  unfold I2NPMessage.payload I2NPMessage.GetLength
  rw [slice_length _ _ _ (by omega)]

theorem slice_frame_payload (hd pay rest tail : List Nat) (hhd : hd.length = 2) :
    slice (writeAt tail 0 (hd ++ pay ++ rest)) 2 pay.length = pay := by
  unfold writeAt slice
  rw [List.take_zero, List.nil_append, List.append_assoc, List.append_assoc, ← hhd,
    List.drop_left, List.append_assoc, List.take_left]

/-- Decoding the frame `Send` writes for a message of 1 to 16384 payload bytes
hands over exactly one message, whose payload is the one sent. -/
theorem frame_roundtrip_aux (env : Env) (hc : env.cipherOK)
    (hadler : env.adlerOK)
    (sender receiver : NTCPSession) (msg : I2NPMessage)
    (hkey : receiver.m_Decryption.key = sender.m_Encryption.key)
    (hiv : receiver.m_Decryption.iv = sender.m_Encryption.iv)
    (hivlen : sender.m_Encryption.iv.length = 16)
    (hnone : receiver.m_NextMessage = none)
    (hoff : 2 ≤ msg.offset) (hlen : msg.offset ≤ msg.len)
    (hroom : msg.len + sendPadding msg.GetLength + 4 ≤ msg.buf.length)
    (hP1 : 1 ≤ msg.GetLength) (hP2 : msg.GetLength ≤ 16384)
    (hfresh : msg.GetLength + sendPadding msg.GetLength + 6 ≤ env.NewI2NPMessage.buf.length) :
    (lastWritten (Send env sender (some msg))).length
        = msg.GetLength + sendPadding msg.GetLength + 6 ∧
    decryptBlocks env receiver (blocksOf ((lastWritten (Send env sender (some msg))).length / 16)
        (lastWritten (Send env sender (some msg)))) =
      (true, { receiver with
        m_NextMessage := none
        m_NextMessageOffset := msg.GetLength + sendPadding msg.GetLength + 6
        m_Decryption := { key := sender.m_Encryption.key,
                          iv := (Send env sender (some msg)).m_Encryption.iv }
        trace := receiver.trace ++ [Event.HandleI2NPMessage
          { buf := writeAt env.NewI2NPMessage.buf 0 (sendFrame env msg),
            len := msg.GetLength + 2, offset := 2 }] }) := by
  have hl := sendFrame_length env msg hadler hoff hlen hroom
  have hal := sendPadding_aligned msg.GetLength
  have hfe := sendFrame_eq env msg hadler hoff hlen hroom
  obtain ⟨n, hn⟩ : ∃ n, (msg.GetLength + sendPadding msg.GetLength + 6) / 16 = n + 1 :=
    ⟨(msg.GetLength + sendPadding msg.GetLength + 6) / 16 - 1, by omega⟩
  have h16 : 16 * (n + 1) = msg.GetLength + sendPadding msg.GetLength + 6 := by omega
  have hpl := sendPadding_lt msg.GetLength
  have hbe : be16toh (sendFrame env msg) = msg.GetLength := by
    rw [hfe, List.append_assoc, List.append_assoc, be16toh_htobe16 _ _ (by omega)]
  have hcl := cbcEncryptBlocks_length env hc sender.m_Encryption.key (n + 1)
    sender.m_Encryption.iv (sendFrame env msg) hivlen (by omega)
  have hdec : receiver.m_Decryption =
      { key := sender.m_Encryption.key, iv := sender.m_Encryption.iv } := by
    cases hr : receiver.m_Decryption with
    | mk k i => rw [hr] at hkey hiv; simp only at hkey hiv; rw [hkey, hiv]
  have hlw : lastWritten (Send env sender (some msg))
      = (cbcEncryptBlocks env sender.m_Encryption.key (n + 1) sender.m_Encryption.iv
          (sendFrame env msg)).1 := by
    rw [Send_trace env hc hadler sender msg hivlen hoff hlen hroom, hn]
    exact lastWritten_of_trace _ _ _ _ rfl
  have hsiv : (Send env sender (some msg)).m_Encryption.iv
      = (cbcEncryptBlocks env sender.m_Encryption.key (n + 1) sender.m_Encryption.iv
          (sendFrame env msg)).2 := by
    rw [Send_trace env hc hadler sender msg hivlen hoff hlen hroom, hn]
  rw [hlw, hsiv]
  refine ⟨by rw [hcl.1, h16], ?_⟩
  rw [hcl.1, show 16 * (n + 1) / 16 = n + 1 by omega]
  rw [decryptBlocks_frame env hc sender.m_Encryption.key n (sendFrame env msg)
    sender.m_Encryption.iv receiver hnone hdec hivlen (by omega) (by omega)
    (by simp only [NTCP_MAX_MESSAGE_SIZE]; omega) (by omega) (by omega) (by omega)]
  rw [hbe, h16]

/-- The message handed over for the frame of `msg` carries the payload of `msg`. -/
theorem roundtrip_payload (env : Env) (hadler : env.adlerOK) (msg : I2NPMessage)
    (hoff : 2 ≤ msg.offset) (hlen : msg.offset ≤ msg.len)
    (hroom : msg.len + sendPadding msg.GetLength + 4 ≤ msg.buf.length) :
    slice (writeAt env.NewI2NPMessage.buf 0 (sendFrame env msg)) 2 msg.payload.length
      = msg.payload ∧
    I2NPMessage.payload { buf := writeAt env.NewI2NPMessage.buf 0 (sendFrame env msg),
                          len := msg.GetLength + 2, offset := 2 } = msg.payload := by
  have hpl := payload_length msg (by omega) hlen
  have hfe := sendFrame_eq env msg hadler hoff hlen hroom
  have := slice_frame_payload (htobe16 msg.GetLength) msg.payload
    (slice msg.buf msg.len (sendPadding msg.GetLength) ++
      env.adler32 (htobe16 msg.GetLength ++ msg.payload ++
        slice msg.buf msg.len (sendPadding msg.GetLength)))
    env.NewI2NPMessage.buf (by simp [htobe16])
  rw [← List.append_assoc, ← hfe] at this
  refine ⟨this, ?_⟩
  rw [hpl] at this
  conv_lhs => simp only [I2NPMessage.payload]
  rw [show msg.GetLength + 2 - 2 = msg.GetLength by omega]
  exact this

/-- The resubmission loop of `Terminate` only appends `SendMessage` calls. -/
theorem resend_foldl (l : List I2NPMessage) (s : NTCPSession) :
    l.foldl (fun (s : NTCPSession) it =>
        match s.m_RemoteRouter with
        | some ident => s.emit (Event.SendMessage ident it)
        | none => s) s =
      { s with trace := s.trace ++
          (match s.m_RemoteRouter with
           | some ident => l.map (fun it => Event.SendMessage ident it)
           | none => []) } := by
  induction l generalizing s with
  | nil => cases s; simp only [List.foldl_nil, List.map_nil]; split <;> simp
  | cons a l ih =>
    rw [List.foldl_cons, ih]
    cases s
    rename_i rr _ _ _ _ _ _ _ _ _ _ _ _ _ _ _
    cases rr <;> simp [NTCPSession.emit]

/-- `Terminate` in closed form. -/
theorem Terminate_eq (s : NTCPSession) :
    Terminate s =
      { s with
        m_IsEstablished := false
        m_DelayedMessages := []
        trace := s.trace ++ [Event.socket_close] ++
          (match s.m_RemoteRouter with
           | some ident => s.m_DelayedMessages.map (fun it => Event.SendMessage ident it)
           | none => []) ++ [Event.RemoveNTCPSession] } := by
  unfold Terminate
  simp only []
  rw [resend_foldl]
  simp only [NTCPSession.emit]

theorem dispatched_Terminate (s : NTCPSession) : dispatched (Terminate s) = dispatched s := by
  rw [Terminate_eq]
  cases h : s.m_RemoteRouter <;> simp [dispatched, List.filterMap_append, List.filterMap_map]

theorem terminateCount_Terminate (s : NTCPSession) :
    terminateCount (Terminate s) = terminateCount s + 1 := by
  rw [Terminate_eq]
  cases h : s.m_RemoteRouter <;> simp [terminateCount, List.count_append]
  rw [List.count_eq_zero_of_not_mem]
  simp

theorem readArmed_Terminate (s : NTCPSession) : readArmed (Terminate s) = false := by
  rw [Terminate_eq]
  simp only [readArmed, List.getLast?_concat]

theorem sameDecoding_refl (s : NTCPSession) : sameDecoding s s := ⟨rfl, rfl, rfl, rfl⟩

theorem sameDecoding_symm {s t : NTCPSession} (h : sameDecoding s t) : sameDecoding t s :=
  ⟨h.1.symm, h.2.1.symm, h.2.2.1.symm, h.2.2.2.symm⟩

theorem sameDecoding_trans {s t u : NTCPSession} (h : sameDecoding s t) (h2 : sameDecoding t u) :
    sameDecoding s u :=
  ⟨h.1.trans h2.1, h.2.1.trans h2.2.1, h.2.2.1.trans h2.2.2.1, h.2.2.2.trans h2.2.2.2⟩

theorem sameDecoding_Terminate (s : NTCPSession) : sameDecoding (Terminate s) s := by
  refine ⟨?_, ?_, ?_, dispatched_Terminate s⟩ <;> rw [Terminate_eq]

/-- `DecryptNextBlock` leaves the receive buffer and its fill offset alone. -/
theorem DecryptNextBlock_buffer (env : Env) (s : NTCPSession) (b : List Nat) :
    (DecryptNextBlock env s b).2.m_ReceiveBuffer = s.m_ReceiveBuffer ∧
    (DecryptNextBlock env s b).2.m_ReceiveBufferOffset = s.m_ReceiveBufferOffset := by
  unfold DecryptNextBlock completeNextMessage
  cases s.m_NextMessage <;> simp only [] <;> (repeat' split) <;> simp [NTCPSession.emit]

/-- `DecryptNextBlock` depends only on the decoding state. -/
theorem DecryptNextBlock_congr (env : Env) (s t : NTCPSession) (b : List Nat)
    (h : sameDecoding s t) :
    (DecryptNextBlock env s b).1 = (DecryptNextBlock env t b).1 ∧
    sameDecoding (DecryptNextBlock env s b).2 (DecryptNextBlock env t b).2 := by
  obtain ⟨h1, h2, h3, h4⟩ := h
  unfold sameDecoding DecryptNextBlock completeNextMessage
  rw [h1, h2, h3]
  cases t.m_NextMessage <;> simp only [] <;> (repeat' split) <;>
    simp_all [NTCPSession.emit, dispatched, List.filterMap_append]

theorem decryptBlocks_congr (env : Env) (l : List (List Nat)) :
    ∀ s t : NTCPSession, sameDecoding s t →
      (decryptBlocks env s l).1 = (decryptBlocks env t l).1 ∧
      sameDecoding (decryptBlocks env s l).2 (decryptBlocks env t l).2 := by
  induction l with
  | nil => intro s t h; exact ⟨rfl, h⟩
  | cons b l ih =>
    intro s t h
    have hc := DecryptNextBlock_congr env s t b h
    simp only [decryptBlocks, hc.1]
    cases hb : (DecryptNextBlock env t b).1
    · simpa using hc.2
    · simpa using ih _ _ hc.2

theorem decryptBlocks_append (env : Env) (l1 l2 : List (List Nat)) :
    ∀ s : NTCPSession, decryptBlocks env s (l1 ++ l2) =
      if (decryptBlocks env s l1).1 then decryptBlocks env (decryptBlocks env s l1).2 l2
      else decryptBlocks env s l1 := by
  induction l1 with
  | nil => intro s; simp [decryptBlocks]
  | cons b l ih =>
    intro s
    simp only [List.cons_append, decryptBlocks]
    cases hb : (DecryptNextBlock env s b).1
    · simp
    · simpa using ih _

theorem blocksOf_add (n m : Nat) : ∀ X : List Nat,
    blocksOf (n + m) X = blocksOf n X ++ blocksOf m (X.drop (16 * n)) := by
  induction n with
  | zero => intro X; simp [blocksOf]
  | succ n ih =>
    intro X
    rw [show n + 1 + m = (n + m) + 1 by omega]
    simp only [blocksOf, List.cons_append, ih, List.drop_drop]
    rw [show 16 + 16 * n = 16 * (n + 1) by omega]

theorem blocksOf_append_left (n : Nat) : ∀ X Y : List Nat, 16 * n ≤ X.length →
    blocksOf n (X ++ Y) = blocksOf n X := by
  induction n with
  | zero => intro X Y _; simp [blocksOf]
  | succ n ih =>
    intro X Y h
    simp only [blocksOf]
    rw [List.take_append_of_le_length (by omega), List.drop_append_of_le_length (by omega),
      ih _ _ (by rw [List.length_drop]; omega)]

theorem sameDecoding_consumeBlock (s : NTCPSession) : sameDecoding s.consumeBlock s :=
  ⟨rfl, rfl, rfl, rfl⟩

/-- The block loop of `HandleReceived` feeds the whole blocks of the buffer,
in order, to `DecryptNextBlock`, and leaves by its own test. -/
theorem receiveLoop_spec (env : Env) : ∀ (n : Nat) (s : NTCPSession) (nb : Nat),
    16 * n ≤ s.m_ReceiveBufferOffset → s.m_ReceiveBufferOffset < 16 * (n + 1) →
    (receiveLoop env n s nb).1
      = (decryptBlocks env s (blocksOf n (s.m_ReceiveBuffer.drop nb))).1 ∧
    sameDecoding (receiveLoop env n s nb).2.1
      (decryptBlocks env s (blocksOf n (s.m_ReceiveBuffer.drop nb))).2 ∧
    ((receiveLoop env n s nb).1 = false → readArmed (receiveLoop env n s nb).2.1 = false) ∧
    ((receiveLoop env n s nb).1 = true →
      (receiveLoop env n s nb).2.1.m_ReceiveBuffer = s.m_ReceiveBuffer ∧
      (receiveLoop env n s nb).2.1.m_ReceiveBufferOffset = s.m_ReceiveBufferOffset - 16 * n ∧
      (receiveLoop env n s nb).2.2 = nb + 16 * n) := by
  intro n
  induction n with
  | zero =>
    intro s nb _ _
    simp [receiveLoop, blocksOf, decryptBlocks, sameDecoding_refl]
  | succ n ih =>
    intro s nb hlo hhi
    have hge : s.m_ReceiveBufferOffset ≥ 16 := by omega
    have hbuf := DecryptNextBlock_buffer env s (slice s.m_ReceiveBuffer nb 16)
    simp only [receiveLoop, hge, if_true, blocksOf, decryptBlocks]
    have hsl : List.take 16 (List.drop nb s.m_ReceiveBuffer) = slice s.m_ReceiveBuffer nb 16 := rfl
    rw [hsl]
    cases hb : (DecryptNextBlock env s (slice s.m_ReceiveBuffer nb 16)).1
    · simp [sameDecoding_Terminate, readArmed_Terminate]
    · simp only [Bool.not_true, Bool.false_eq_true, if_false]
      have e1 : (DecryptNextBlock env s (slice s.m_ReceiveBuffer nb 16)).2.consumeBlock.m_ReceiveBuffer
          = s.m_ReceiveBuffer := hbuf.1
      have e2 : (DecryptNextBlock env s
          (slice s.m_ReceiveBuffer nb 16)).2.consumeBlock.m_ReceiveBufferOffset
          = s.m_ReceiveBufferOffset - 16 := by
        show (DecryptNextBlock env s (slice s.m_ReceiveBuffer nb 16)).2.m_ReceiveBufferOffset - 16 = _
        rw [hbuf.2]
      have ih' := ih (DecryptNextBlock env s (slice s.m_ReceiveBuffer nb 16)).2.consumeBlock
        (nb + 16) (by rw [e2]; omega) (by rw [e2]; omega)
      rw [e1, e2] at ih'
      have hcg := decryptBlocks_congr env (blocksOf n (List.drop (nb + 16) s.m_ReceiveBuffer))
        _ _ (sameDecoding_consumeBlock (DecryptNextBlock env s (slice s.m_ReceiveBuffer nb 16)).2)
      rw [List.drop_drop]
      refine ⟨ih'.1.trans hcg.1, sameDecoding_trans ih'.2.1 hcg.2, ih'.2.2.1, ?_⟩
      intro hok
      have := ih'.2.2.2 hok
      refine ⟨this.1, ?_, ?_⟩
      · rw [this.2.1]; omega
      · rw [this.2.2]; omega

theorem sameDecoding_Receive (env : Env) (s : NTCPSession) :
    sameDecoding (Receive env (ScheduleTermination s)) s := by
  refine ⟨rfl, rfl, rfl, ?_⟩
  simp [Receive, ScheduleTermination, NTCPSession.emit, dispatched, List.filterMap_append]

theorem readArmed_Receive (env : Env) (s : NTCPSession) : readArmed (Receive env s) = true := by
  simp only [readArmed, Receive, NTCPSession.emit, List.getLast?_concat]

theorem sameDecoding_storeRead (s : NTCPSession) (data : List Nat) :
    sameDecoding (s.storeRead data) s := ⟨rfl, rfl, rfl, rfl⟩

theorem sameDecoding_moveRemainder (s : NTCPSession) (nb : Nat) :
    sameDecoding (s.moveRemainder nb) s := by
  unfold NTCPSession.moveRemainder
  split
  · exact ⟨rfl, rfl, rfl, rfl⟩
  · exact sameDecoding_refl s

theorem pendingBytes_length (s : NTCPSession)
    (hinv : s.m_ReceiveBufferOffset ≤ s.m_ReceiveBuffer.length) :
    (pendingBytes s).length = s.m_ReceiveBufferOffset := by
  simp [pendingBytes, hinv]

theorem storeRead_buffer (s : NTCPSession) (data : List Nat) :
    (s.storeRead data).m_ReceiveBuffer
      = pendingBytes s ++ data ++ s.m_ReceiveBuffer.drop (s.m_ReceiveBufferOffset + data.length) :=
  rfl

/-- The remainder kept by `HandleReceived` is what follows the whole blocks. -/
theorem moveRemainder_pending (s : NTCPSession) (T rest : List Nat) (n : Nat)
    (hbuf : s.m_ReceiveBuffer = T ++ rest)
    (hoff : s.m_ReceiveBufferOffset = T.length - 16 * n) (hn : 16 * n ≤ T.length) :
    pendingBytes (s.moveRemainder (16 * n)) = T.drop (16 * n) ∧
    (s.moveRemainder (16 * n)).m_ReceiveBufferOffset = T.length - 16 * n ∧
    (s.moveRemainder (16 * n)).m_ReceiveBufferOffset
      ≤ (s.moveRemainder (16 * n)).m_ReceiveBuffer.length := by
  have hsl : slice (T ++ rest) (16 * n) (T.length - 16 * n) = T.drop (16 * n) := by
    unfold slice
    rw [List.drop_append_of_le_length hn, List.take_left' (by rw [List.length_drop])]
  unfold NTCPSession.moveRemainder pendingBytes
  by_cases h0 : s.m_ReceiveBufferOffset > 0
  · rw [if_pos h0]
    dsimp only
    rw [hbuf, hoff, hsl]
    simp only [writeAt, List.take_zero, List.nil_append]
    refine ⟨List.take_left' (by rw [List.length_drop]), trivial, ?_⟩
    simp only [List.length_append, List.length_drop]
    omega
  · rw [if_neg h0]
    have hz : T.length - 16 * n = 0 := by omega
    refine ⟨?_, hoff, by omega⟩
    rw [hoff, hz, List.take_zero]
    symm
    apply List.drop_of_length_le
    omega

/-- One completed read: the whole blocks of the pending bytes followed by the
new data go through `DecryptNextBlock` in order; the rest stays pending. -/
theorem HandleReceived_spec (env : Env) (s : NTCPSession) (data : List Nat)
    (hinv : s.m_ReceiveBufferOffset ≤ s.m_ReceiveBuffer.length) :
    sameDecoding (HandleReceived env s ErrorCode.success data)
      (decryptBlocks env s (blocksOf ((pendingBytes s ++ data).length / 16)
        (pendingBytes s ++ data))).2 ∧
    readArmed (HandleReceived env s ErrorCode.success data)
      = (decryptBlocks env s (blocksOf ((pendingBytes s ++ data).length / 16)
        (pendingBytes s ++ data))).1 ∧
    ((decryptBlocks env s (blocksOf ((pendingBytes s ++ data).length / 16)
        (pendingBytes s ++ data))).1 = true →
      pendingBytes (HandleReceived env s ErrorCode.success data)
        = (pendingBytes s ++ data).drop (16 * ((pendingBytes s ++ data).length / 16)) ∧
      (HandleReceived env s ErrorCode.success data).m_ReceiveBufferOffset < 16 ∧
      (HandleReceived env s ErrorCode.success data).m_ReceiveBufferOffset
        ≤ (HandleReceived env s ErrorCode.success data).m_ReceiveBuffer.length) := by
  have hpl := pendingBytes_length s hinv
  generalize hT : pendingBytes s ++ data = T
  have hTl : T.length = s.m_ReceiveBufferOffset + data.length := by
    rw [← hT, List.length_append, hpl]
  have hso : (s.storeRead data).m_ReceiveBufferOffset = T.length := by
    rw [hTl]; rfl
  have hsb : (s.storeRead data).m_ReceiveBuffer
      = T ++ s.m_ReceiveBuffer.drop (s.m_ReceiveBufferOffset + data.length) := by
    rw [storeRead_buffer, hT]
  simp only [HandleReceived, ne_eq, not_true_eq_false, if_false, hso]
  by_cases h16 : T.length ≥ 16
  · simp only [h16, if_true]
    have hspec := receiveLoop_spec env (T.length / 16) (s.storeRead data) 0
      (by rw [hso]; omega) (by rw [hso]; omega)
    rw [List.drop_zero, hsb, blocksOf_append_left _ _ _ (by omega)] at hspec
    have hcg := decryptBlocks_congr env (blocksOf (T.length / 16) T) _ _
      (sameDecoding_storeRead s data)
    rw [← hcg.1]
    cases hb : (receiveLoop env (T.length / 16) (s.storeRead data) 0).1
    · rw [hb] at hspec
      simp only [Bool.not_false, if_true]
      refine ⟨sameDecoding_trans hspec.2.1 hcg.2, ?_, ?_⟩
      · rw [hspec.2.2.1 rfl, ← hspec.1]
      · intro h; rw [← hspec.1] at h; cases h
    · rw [hb] at hspec
      simp only [Bool.not_true, Bool.false_eq_true, if_false]
      obtain ⟨hbuf, hoff, hnb⟩ := hspec.2.2.2 rfl
      rw [hso] at hoff
      rw [Nat.zero_add] at hnb
      have hmv := moveRemainder_pending (receiveLoop env (T.length / 16) (s.storeRead data) 0).2.1
        T _ (T.length / 16) hbuf hoff (by omega)
      rw [hnb]
      refine ⟨?_, ?_, ?_⟩
      · exact sameDecoding_trans (sameDecoding_Receive env _)
          (sameDecoding_trans (sameDecoding_moveRemainder _ _)
            (sameDecoding_trans hspec.2.1 hcg.2))
      · rw [readArmed_Receive, ← hspec.1]
      · intro _
        refine ⟨hmv.1, ?_, hmv.2.2⟩
        have := hmv.2.1
        show ((receiveLoop env (T.length / 16) (s.storeRead data) 0).2.1.moveRemainder
          (16 * (T.length / 16))).m_ReceiveBufferOffset < 16
        omega
  · simp only [h16, if_false]
    have hn0 : T.length / 16 = 0 := by omega
    rw [hn0]
    simp only [blocksOf, decryptBlocks]
    refine ⟨sameDecoding_trans (sameDecoding_Receive env _) (sameDecoding_storeRead s data),
      readArmed_Receive env _, ?_⟩
    intro _
    refine ⟨?_, ?_, ?_⟩
    · show List.take (s.storeRead data).m_ReceiveBufferOffset (s.storeRead data).m_ReceiveBuffer = _
      rw [hso, hsb, List.take_left' rfl]
      rfl
    · show (s.storeRead data).m_ReceiveBufferOffset < 16
      omega
    · show (s.storeRead data).m_ReceiveBufferOffset ≤ (s.storeRead data).m_ReceiveBuffer.length
      rw [hso, hsb, List.length_append]
      omega

theorem receiveAll_not_armed (env : Env) (s : NTCPSession) (reads : List (List Nat))
    (h : readArmed s = false) : receiveAll env s reads = s := by
  cases reads with
  | nil => rfl
  | cons d rest => simp [receiveAll, h]

/-- Reading a stream in pieces feeds its whole blocks, in order, to
`DecryptNextBlock`, however it is cut. -/
theorem receiveAll_spec (env : Env) : ∀ (reads : List (List Nat)) (s : NTCPSession),
    readArmed s = true → s.m_ReceiveBufferOffset < 16 →
    s.m_ReceiveBufferOffset ≤ s.m_ReceiveBuffer.length →
    sameDecoding (receiveAll env s reads)
      (decryptBlocks env s (blocksOf ((pendingBytes s ++ reads.flatten).length / 16)
        (pendingBytes s ++ reads.flatten))).2 := by
  intro reads
  induction reads with
  | nil =>
    intro s _ hlt hinv
    have hpl := pendingBytes_length s hinv
    simp only [List.flatten_nil, List.append_nil, hpl, receiveAll]
    rw [show s.m_ReceiveBufferOffset / 16 = 0 by omega]
    exact sameDecoding_refl s
  | cons d rest ih =>
    intro s harmed hlt hinv
    have hspec := HandleReceived_spec env s d hinv
    simp only [receiveAll, harmed, if_true, List.flatten_cons]
    generalize hT1 : pendingBytes s ++ d = T1 at hspec
    rw [← List.append_assoc, hT1]
    have hsplit : (T1 ++ rest.flatten).length / 16
        = T1.length / 16 + (T1.drop (16 * (T1.length / 16)) ++ rest.flatten).length / 16 := by
      simp only [List.length_append, List.length_drop]
      omega
    rw [hsplit, blocksOf_add, blocksOf_append_left _ _ _ (by omega),
      List.drop_append_of_le_length (by omega), decryptBlocks_append]
    cases hb : (decryptBlocks env s (blocksOf (T1.length / 16) T1)).1
    · rw [hb] at hspec
      simp only [Bool.false_eq_true, if_false]
      rw [receiveAll_not_armed env _ rest hspec.2.1]
      have := hspec.1
      rwa [show (decryptBlocks env s (blocksOf (T1.length / 16) T1))
        = (false, (decryptBlocks env s (blocksOf (T1.length / 16) T1)).2) by rw [← hb]] at this
    · rw [hb] at hspec
      simp only [if_true]
      obtain ⟨hp, hlt', hinv'⟩ := hspec.2.2 rfl
      have ih' := ih (HandleReceived env s ErrorCode.success d) hspec.2.1 hlt' hinv'
      rw [hp] at ih'
      have hcg := decryptBlocks_congr env
        (blocksOf ((T1.drop (16 * (T1.length / 16)) ++ rest.flatten).length / 16)
          (T1.drop (16 * (T1.length / 16)) ++ rest.flatten)) _ _ hspec.1
      exact sameDecoding_trans ih' hcg.2

theorem demoEnv_cipherOK : demoEnv.cipherOK := by
  intro key blk h
  refine ⟨by simp only [demoEnv, List.length_reverse, List.length_map, h], ?_⟩
  simp only [demoEnv, List.reverse_reverse, List.map_map]
  conv_rhs => rw [← List.map_id blk]
  apply List.map_congr_left
  intro x _
  simp only [Function.comp, id, Nat.xor_assoc, Nat.xor_self, Nat.xor_zero]

theorem demoEnv_adlerOK : demoEnv.adlerOK := by
  intro d
  simp only [demoEnv, adler32Digest, htobe32, List.length_cons, List.length_nil]

/-- C1 (amended): for every message with 1 to 16384 payload bytes, held in a
buffer with room for the frame, the ciphertext `Send` writes has `L + 6 + P`
bytes, and feeding it block by block to `DecryptNextBlock` of a session with
no message in progress and the same key and IV accepts every block and hands
exactly one message to the I2NP dispatcher, whose bytes `buf[2 .. 2 + L)` are
the payload sent; afterwards no message is in progress. -/
theorem C1_frame_roundtrip (env : Env) (hc : env.cipherOK) (hadler : env.adlerOK)
    (sender receiver : NTCPSession) (msg : I2NPMessage)
    (hkey : receiver.m_Decryption.key = sender.m_Encryption.key)
    (hiv : receiver.m_Decryption.iv = sender.m_Encryption.iv)
    (hivlen : sender.m_Encryption.iv.length = 16)
    (hnone : receiver.m_NextMessage = none)
    (hoff : 2 ≤ msg.offset) (hlen : msg.offset ≤ msg.len)
    (hroom : msg.len + sendPadding msg.GetLength + 4 ≤ msg.buf.length)
    (hP1 : 1 ≤ msg.GetLength) (hP2 : msg.GetLength ≤ 16384)
    (hfresh : msg.GetLength + sendPadding msg.GetLength + 6 ≤ env.NewI2NPMessage.buf.length) :
    msg.payload.length = msg.GetLength ∧
    (lastWritten (Send env sender (some msg))).length
      = msg.GetLength + sendPadding msg.GetLength + 6 ∧
    (decryptBlocks env receiver (blocksOf ((lastWritten (Send env sender (some msg))).length / 16)
      (lastWritten (Send env sender (some msg))))).1 = true ∧
    (decryptBlocks env receiver (blocksOf ((lastWritten (Send env sender (some msg))).length / 16)
      (lastWritten (Send env sender (some msg))))).2.m_NextMessage = none ∧
    ∃ m : I2NPMessage,
      dispatched (decryptBlocks env receiver
        (blocksOf ((lastWritten (Send env sender (some msg))).length / 16)
          (lastWritten (Send env sender (some msg))))).2 = dispatched receiver ++ [m] ∧
      slice m.buf 2 msg.payload.length = msg.payload ∧ m.payload = msg.payload := by
  have haux := frame_roundtrip_aux env hc hadler sender receiver msg hkey hiv hivlen hnone hoff
    hlen hroom hP1 hP2 hfresh
  have hpl := payload_length msg (by omega) hlen
  have hrp := roundtrip_payload env hadler msg hoff hlen hroom
  refine ⟨hpl, haux.1, ?_, ?_, ?_⟩
  · rw [haux.2]
  · rw [haux.2]
  · refine ⟨{ buf := writeAt env.NewI2NPMessage.buf 0 (sendFrame env msg),
              len := msg.GetLength + 2, offset := 2 }, ?_, hrp.1, hrp.2⟩
    rw [haux.2]
    simp [dispatched, List.filterMap_append]

/-- Witness for C1: the 20-byte demo message between two demo sessions. -/
theorem C1_frame_roundtrip_witness :
    ∃ m : I2NPMessage,
      dispatched (decryptBlocks demoEnv demoSession
        (blocksOf ((lastWritten (Send demoEnv demoSession (some demoMsg))).length / 16)
          (lastWritten (Send demoEnv demoSession (some demoMsg))))).2 = dispatched demoSession ++ [m] ∧
      slice m.buf 2 demoMsg.payload.length = demoMsg.payload ∧ m.payload = demoMsg.payload :=
  (C1_frame_roundtrip demoEnv demoEnv_cipherOK demoEnv_adlerOK demoSession demoSession demoMsg
    rfl rfl (by decide) rfl (by decide) (by decide) (by decide) (by decide) (by decide)
    (by decide)).2.2.2.2

/-- C1 fails for the empty payload: the frame `Send` writes for it is taken
for a time stamp by `DecryptNextBlock` and no message is handed over. -/
theorem C1_empty_payload_not_dispatched :
    emptyMsg.payload = [] ∧
    demoSession.m_Decryption.key = demoSession.m_Encryption.key ∧
    demoSession.m_Decryption.iv = demoSession.m_Encryption.iv ∧
    demoSession.m_NextMessage = none ∧
    (lastWritten (Send demoEnv demoSession (some emptyMsg))).length = 16 ∧
    dispatched (decryptBlocks demoEnv demoSession
      (blocksOf ((lastWritten (Send demoEnv demoSession (some emptyMsg))).length / 16)
        (lastWritten (Send demoEnv demoSession (some emptyMsg))))).2 = [] := by
  decide

/-- The encryption context after `Send` is the one left by encrypting the
plaintext frame. -/
theorem Send_encrypts_frame (env : Env) (s : NTCPSession) (msg : I2NPMessage) :
    (Send env s (some msg)).m_Encryption =
      (s.m_Encryption.Encrypt env (sendFrame env msg)
        (msg.GetLength + sendPadding msg.GetLength + 6)).2 := by
  have hal := sendPadding_aligned msg.GetLength
  have h16 : 16 * ((msg.GetLength + sendPadding msg.GetLength + 6) / 16)
      = msg.GetLength + sendPadding msg.GetLength + 6 := by omega
  have hE : cbcEncryptBlocks env s.m_Encryption.key
      ((msg.GetLength + sendPadding msg.GetLength + 6) / 16) s.m_Encryption.iv (sendBufferOf env msg)
      = cbcEncryptBlocks env s.m_Encryption.key
      ((msg.GetLength + sendPadding msg.GetLength + 6) / 16) s.m_Encryption.iv (sendFrame env msg) := by
    rw [← cbcEncryptBlocks_take env _ _ _ (sendBufferOf env msg), h16]
    rfl
  by_cases h : msg.offset < 2 <;>
    simp only [Send, h, if_true, if_false, CBCEncryption.Encrypt, NTCPSession.emit, hE]

/-- C2: for every I2NP message with payload length `L` and offset at least 2,
held in a buffer with room for the frame, the plaintext frame `Send` encrypts
is `BE16(L) || payload || P filler bytes || 4 checksum bytes` with
`P = (16 - ((L + 6) mod 16)) mod 16 < 16`, its length `L + 6 + P` is a
multiple of 16, and its last 4 bytes are the Adler-32 of its first `L + 2 + P`
bytes. -/
theorem C2_send_frame_layout (env : Env) (hadler : env.adlerOK) (s : NTCPSession)
    (msg : I2NPMessage) (hoff : 2 ≤ msg.offset) (hlen : msg.offset ≤ msg.len)
    (hroom : msg.len + sendPadding msg.GetLength + 4 ≤ msg.buf.length) :
    (Send env s (some msg)).m_Encryption =
      (s.m_Encryption.Encrypt env (sendFrame env msg)
        (msg.GetLength + sendPadding msg.GetLength + 6)).2 ∧
    sendFrame env msg =
      htobe16 msg.GetLength ++ msg.payload ++ slice msg.buf msg.len (sendPadding msg.GetLength) ++
        env.adler32 (htobe16 msg.GetLength ++ msg.payload ++
          slice msg.buf msg.len (sendPadding msg.GetLength)) ∧
    msg.payload.length = msg.GetLength ∧
    (slice msg.buf msg.len (sendPadding msg.GetLength)).length = sendPadding msg.GetLength ∧
    (env.adler32 (htobe16 msg.GetLength ++ msg.payload ++
          slice msg.buf msg.len (sendPadding msg.GetLength))).length = 4 ∧
    sendPadding msg.GetLength = (16 - (msg.GetLength + 6) % 16) % 16 ∧
    sendPadding msg.GetLength < 16 ∧
    (sendFrame env msg).length = msg.GetLength + 6 + sendPadding msg.GetLength ∧
    (msg.GetLength + 6 + sendPadding msg.GetLength) % 16 = 0 ∧
    (sendFrame env msg).drop (msg.GetLength + 2 + sendPadding msg.GetLength) =
      env.adler32 ((sendFrame env msg).take (msg.GetLength + 2 + sendPadding msg.GetLength)) := by
  have hfe := sendFrame_eq env msg hadler hoff hlen hroom
  have hfl := sendFrame_length env msg hadler hoff hlen hroom
  have hpl := payload_length msg (by omega) hlen
  have hsl : (slice msg.buf msg.len (sendPadding msg.GetLength)).length
      = sendPadding msg.GetLength := slice_length _ _ _ (by omega)
  have hpre : (htobe16 msg.GetLength ++ msg.payload ++
      slice msg.buf msg.len (sendPadding msg.GetLength)).length
      = msg.GetLength + 2 + sendPadding msg.GetLength := by
    simp only [List.length_append, hpl, hsl, htobe16, List.length_cons, List.length_nil]
    omega
  refine ⟨Send_encrypts_frame env s msg, hfe, hpl, hsl, hadler _, sendPadding_eq _,
    sendPadding_lt _, by omega, sendPadding_aligned _, ?_⟩
  rw [hfe, List.drop_left' hpre, List.take_left' hpre]

/-- Witness for C2: the 20-byte demo message. -/
theorem C2_send_frame_layout_witness :
    sendFrame demoEnv demoMsg =
      htobe16 20 ++ demoMsg.payload ++ List.replicate 6 77 ++
        demoEnv.adler32 (htobe16 20 ++ demoMsg.payload ++ List.replicate 6 77) ∧
    sendPadding demoMsg.GetLength = 6 ∧ (sendFrame demoEnv demoMsg).length = 32 :=
  ⟨(C2_send_frame_layout demoEnv demoEnv_adlerOK demoSession demoMsg (by decide) (by decide)
    (by decide)).2.1, by decide, by decide⟩

theorem topBit_iff (x : Nat) (hx : x < 256) : (x &&& 0x80 ≠ 0 ↔ 128 ≤ x) := by
  interval_cases x <;> decide

/-- The search loop of `CreateAESKey` stops at the first non-zero byte. -/
theorem findNonZero_first (sharedKey : List Nat) (z : Nat) (hz : z ≤ 32)
    (hnz : sharedKey.getD z 0 ≠ 0) :
    ∀ (fuel nonZero : Nat), nonZero ≤ z → z < nonZero + fuel →
      (∀ i, nonZero ≤ i → i < z → sharedKey.getD i 0 = 0) →
      findNonZero sharedKey fuel nonZero = some z := by
  intro fuel
  induction fuel with
  | zero => intro nonZero h1 h2 _; omega
  | succ fuel ih =>
    intro nonZero h1 h2 hzero
    unfold findNonZero
    by_cases hcur : sharedKey.getD nonZero 0 = 0
    · have hne : nonZero ≠ z := by
        intro h; rw [h] at hcur; exact hnz hcur
      have hlt : nonZero < z := by omega
      rw [if_pos hcur, if_neg (by omega)]
      exact ih (nonZero + 1) (by omega) (by omega) (fun i hi1 hi2 => hzero i (by omega) hi2)
    · rw [if_neg hcur]
      have : nonZero = z := by
        by_contra hne
        exact hcur (hzero nonZero (Nat.le_refl _) (by omega))
      rw [this]

/-- The search loop of `CreateAESKey` gives up when the bytes 1 to 32 are all zero. -/
theorem findNonZero_none (sharedKey : List Nat) :
    ∀ (fuel nonZero : Nat), 1 ≤ nonZero → nonZero ≤ 32 → 32 < nonZero + fuel →
      (∀ i, nonZero ≤ i → i ≤ 32 → sharedKey.getD i 0 = 0) →
      findNonZero sharedKey fuel nonZero = none := by
  intro fuel
  induction fuel with
  | zero => intro nonZero _ h2 h3 _; omega
  | succ fuel ih =>
    intro nonZero h1 h2 h3 hzero
    unfold findNonZero
    rw [if_pos (hzero nonZero (Nat.le_refl _) h2)]
    by_cases h32 : nonZero + 1 > 32
    · rw [if_pos h32]
    · rw [if_neg h32]
      exact ih (nonZero + 1) (by omega) (by omega) (by omega)
        (fun i hi1 hi2 => hzero i (by omega) hi2)

theorem writeAt_full (key bytes : List Nat) (h : bytes.length = key.length) :
    writeAt key 0 bytes = bytes := by
  unfold writeAt
  rw [List.take_zero, List.nil_append, Nat.zero_add, h, List.drop_length, List.append_nil]

theorem getD_lt_256 (l : List Nat) (h : ∀ b ∈ l, b < 256) (i : Nat) : l.getD i 0 < 256 := by
  rw [List.getD_eq_getElem?_getD]
  cases hi : l[i]? with
  | none => simp
  | some b => exact h b (List.getElem?_mem hi)

/-- C3: for every 256-byte shared secret `s` the 32-byte AES key
`CreateAESKey` writes is `0x00` followed by `s[0..31)` when the top bit of
`s[0]` is set, `s[0..32)` when `s[0]` is non-zero with the top bit clear, and
`s[z..z+32)` when `s[0] = 0` and `z`, with `1 <= z <= 32`, is the index of the
first non-zero byte; the session is left as it was. -/
theorem C3_aes_key_derivation (env : Env) (s : NTCPSession) (pair : DHKeysPair)
    (pubKey key sharedKey : List Nat)
    (hpair : s.m_DHKeysPair = some pair)
    (hagree : env.dhAgree pair.privateKey pubKey = some sharedKey)
    (hlen : sharedKey.length = 256) (hbytes : ∀ b ∈ sharedKey, b < 256)
    (hkey : key.length = 32) :
    (128 ≤ sharedKey.getD 0 0 →
      CreateAESKey env s pubKey key = some (s, 0 :: sharedKey.take 31)) ∧
    (sharedKey.getD 0 0 ≠ 0 → sharedKey.getD 0 0 < 128 →
      CreateAESKey env s pubKey key = some (s, sharedKey.take 32)) ∧
    (∀ z, 1 ≤ z → z ≤ 32 → (∀ i, i < z → sharedKey.getD i 0 = 0) → sharedKey.getD z 0 ≠ 0 →
      CreateAESKey env s pubKey key = some (s, slice sharedKey z 32) ∧
      (slice sharedKey z 32).length = 32) := by
  have htop := topBit_iff (sharedKey.getD 0 0) (getD_lt_256 sharedKey hbytes 0)
  have hC : ∀ k, deriveAESKey sharedKey key = some k →
      CreateAESKey env s pubKey key = some (s, k) := by
    intro k hk
    simp only [CreateAESKey, hpair, hagree, hk]
  refine ⟨?_, ?_, ?_⟩
  · intro h
    have h1 : sharedKey.getD 0 0 &&& 0x80 ≠ 0 := htop.mpr h
    apply hC
    unfold deriveAESKey
    rw [if_pos h1]
    have e1 : writeAt key 0 [0] = 0 :: key.drop 1 := by
      simp [writeAt]
    have e2 : writeAt (0 :: key.drop 1) 1 (sharedKey.take 31) = 0 :: sharedKey.take 31 := by
      unfold writeAt
      have : (List.take 31 sharedKey).length = 31 := by rw [List.length_take]; omega
      rw [this]
      have hd : List.drop (1 + 31) (0 :: List.drop 1 key) = [] := by
        apply List.drop_of_length_le
        simp only [List.length_cons, List.length_drop]; omega
      rw [hd]
      simp
    rw [e1, e2]
  · intro h0 h128
    have h1 : ¬ (sharedKey.getD 0 0 &&& 0x80 ≠ 0) := by
      rw [htop]; omega
    apply hC
    unfold deriveAESKey
    rw [if_neg h1, if_pos h0, writeAt_full _ _ (by rw [List.length_take]; omega)]
  · intro z hz1 hz32 hzero hnz
    have h0 : sharedKey.getD 0 0 = 0 := hzero 0 (by omega)
    have h1 : ¬ (sharedKey.getD 0 0 &&& 0x80 ≠ 0) := by
      rw [htop]; omega
    have hf := findNonZero_first sharedKey z hz32 hnz 32 1 hz1 (by omega)
      (fun i _ hi => hzero i hi)
    have hsl : (slice sharedKey z 32).length = 32 := slice_length _ _ _ (by omega)
    refine ⟨?_, hsl⟩
    apply hC
    unfold deriveAESKey
    rw [if_neg h1, if_neg (not_not.mpr h0), hf]
    simp only []
    rw [writeAt_full _ _ (by rw [hsl, hkey])]

set_option maxRecDepth 100000 in
/-- Witness for C3: a shared secret with three leading zero bytes. -/
theorem C3_aes_key_derivation_witness :
    CreateAESKey demoEnv demoSession zeroLeadPubKey demoEnv.indeterminateAESKey
      = some (demoSession, slice ([0, 0, 0, 1] ++ List.replicate 252 5) 3 32) :=
  ((C3_aes_key_derivation demoEnv demoSession
    { publicKey := List.replicate 256 3, privateKey := List.replicate 256 5 }
    zeroLeadPubKey demoEnv.indeterminateAESKey ([0, 0, 0, 1] ++ List.replicate 252 5)
    rfl (by decide) (by decide) (by decide) (by decide)).2.2 3 (by decide) (by decide)
    (by decide) (by decide)).1

/-- With more than 32 leading zero bytes in the shared secret `CreateAESKey`
returns with the session and the key buffer as they were. -/
theorem CreateAESKey_zero_secret (env : Env) (s : NTCPSession) (pair : DHKeysPair)
    (pubKey key sharedKey : List Nat)
    (hpair : s.m_DHKeysPair = some pair)
    (hagree : env.dhAgree pair.privateKey pubKey = some sharedKey)
    (hzero : ∀ i, i ≤ 32 → sharedKey.getD i 0 = 0) :
    CreateAESKey env s pubKey key = some (s, key) := by
  have h0 : sharedKey.getD 0 0 = 0 := hzero 0 (by omega)
  have hf := findNonZero_none sharedKey 32 1 (by omega) (by omega) (by omega)
    (fun i _ hi => hzero i hi)
  have hd : deriveAESKey sharedKey key = none := by
    unfold deriveAESKey
    rw [h0, if_neg (by decide), if_neg (by decide), hf]
  simp only [CreateAESKey, hpair, hagree, hd]

set_option maxRecDepth 100000 in
/-- C4 (code at the failing input): with a shared secret of 255 zero bytes
and `0x01`, `SendPhase2` does not call `Terminate`, installs the key buffer
that `CreateAESKey` left unwritten as cipher key, and writes a phase-2 message
of 304 bytes. -/
theorem C4_zero_secret_handshake_continues :
    demoEnv.dhAgree (List.replicate 256 5) weakPubKey = some (List.replicate 255 0 ++ [1]) ∧
    (SendPhase2 demoEnv weakSession).map terminateCount = some 0 ∧
    (SendPhase2 demoEnv weakSession).map (fun s => (written s).map List.length) = some [304] ∧
    (SendPhase2 demoEnv weakSession).map (fun s => s.m_Decryption.key)
      = some demoEnv.indeterminateAESKey ∧
    (SendPhase2 demoEnv weakSession).map (fun s => s.m_Encryption.key)
      = some demoEnv.indeterminateAESKey := by
  decide

theorem xorBytes_getD (d a : List Nat) (i : Nat) (hd : i < d.length) (ha : i < a.length) :
    (xorBytes d a).getD i 0 = d.getD i 0 ^^^ a.getD i 0 := by
  have hx : i < (xorBytes d a).length := by rw [xorBytes_length]; omega
  rw [List.getD_eq_getElem _ _ hx, List.getD_eq_getElem _ _ hd, List.getD_eq_getElem _ _ ha]
  simp [xorBytes, List.getElem_zipWith]

/-- The identity test of `HandlePhase1Received` passes exactly for the
identity hash that was xored in. -/
theorem wrongIdent_iff (d a b : List Nat) (hd : d.length = 32) (ha : a.length = 32)
    (hb : b.length = 32) : wrongIdent (xorBytes d a) b d = false ↔ a = b := by
  unfold wrongIdent
  rw [List.any_eq_false]
  constructor
  · intro h
    apply List.ext_getElem (by omega)
    intro i h1 h2
    have hi := h i (List.mem_range.mpr (by omega))
    rw [xorBytes_getD d a i (by omega) (by omega)] at hi
    simp only [ne_eq, decide_not, Bool.not_eq_true', decide_eq_false_iff_not, not_not,
      Bool.not_eq_true, Bool.not_eq_false', decide_eq_true_eq] at hi
    rw [Nat.xor_assoc] at hi
    have h0 : d.getD i 0 ^^^ (a.getD i 0 ^^^ b.getD i 0) = d.getD i 0 ^^^ 0 := by
      rw [hi, Nat.xor_zero]
    have := Nat.xor_eq_zero.mp (Nat.xor_right_inj.mp h0)
    rwa [List.getD_eq_getElem _ _ h1, List.getD_eq_getElem _ _ h2] at this
  · intro h i hi
    have hi32 : i < 32 := List.mem_range.mp hi
    rw [xorBytes_getD d a i (by omega) (by omega), ← h, Nat.xor_assoc, Nat.xor_self,
      Nat.xor_zero]
    simp

/-- A session that went through `SendPhase2` has a write as its last call, not
the end of `Terminate`. -/
theorem SendPhase2_last (env : Env) (s s' : NTCPSession) (h : SendPhase2 env s = some s') :
    s'.trace.getLast? ≠ some Event.RemoveNTCPSession := by
  unfold SendPhase2 at h
  simp only [] at h
  split at h
  · split at h
    · cases h
    · cases h
      simp only [NTCPSession.emit, List.getLast?_concat]
      intro hh
      cases hh
  · cases h

theorem Terminate_ne_SendPhase2 (env : Env) (s t : NTCPSession) :
    some (Terminate s) ≠ SendPhase2 env t := by
  intro h
  apply SendPhase2_last env t (Terminate s) h.symm
  rw [Terminate_eq]
  simp only [List.getLast?_concat]

theorem written_Terminate (s : NTCPSession) : written (Terminate s) = written s := by
  rw [Terminate_eq]
  cases h : s.m_RemoteRouter <;> simp [written, List.filterMap_append, List.filterMap_map]

/-- C5: for every DH public value `X` and identity hashes `a` (the one the
initiator holds for the responder) and `b` (the responder's own),
`ClientLogin` writes `X || (SHA256(X) XOR a)`, and on that message
`HandlePhase1Received` goes on to `SendPhase2` if and only if `a = b`; when
`a != b` it calls `Terminate` once and writes nothing. -/
theorem C5_phase1_ident_check (env : Env) (s : NTCPSession) (est : Establisher)
    (X a : List Nat) (hest : s.m_Establisher = some est) (hX : X.length = 256)
    (hsha : (env.sha256 X).length = 32) (ha : a.length = 32)
    (hb : env.localIdentHash.length = 32) :
    (∀ (si : NTCPSession) (pair : DHKeysPair) (esti : Establisher),
      si.m_DHKeysPair = some pair → pair.publicKey = X → si.m_Establisher = some esti →
      si.m_RemoteIdentity.identHash = a →
      (ClientLogin env si).map lastWritten = some (X ++ xorBytes (env.sha256 X) a)) ∧
    (HandlePhase1Received env s ErrorCode.success (X ++ xorBytes (env.sha256 X) a)
        = SendPhase2 env { s with m_Establisher := some { est with
            phase1 := { pubKey := X, HXxorHI := xorBytes (env.sha256 X) a } } }
      ↔ a = env.localIdentHash) ∧
    (a ≠ env.localIdentHash →
      HandlePhase1Received env s ErrorCode.success (X ++ xorBytes (env.sha256 X) a)
        = some (Terminate { s with m_Establisher := some { est with
            phase1 := { pubKey := X, HXxorHI := xorBytes (env.sha256 X) a } } }) ∧
      (HandlePhase1Received env s ErrorCode.success (X ++ xorBytes (env.sha256 X) a)).map written
        = some (written s) ∧
      (HandlePhase1Received env s ErrorCode.success
        (X ++ xorBytes (env.sha256 X) a)).map terminateCount = some (terminateCount s + 1)) := by
  have hxl : (xorBytes (env.sha256 X) a).length = 32 := by rw [xorBytes_length]; omega
  have h1 : List.take 256 (X ++ xorBytes (env.sha256 X) a) = X := List.take_left' hX
  have h2 : slice (X ++ xorBytes (env.sha256 X) a) 256 32 = xorBytes (env.sha256 X) a := by
    unfold slice
    rw [List.drop_left' hX, List.take_of_length_le (by omega)]
  have hw := wrongIdent_iff (env.sha256 X) a env.localIdentHash hsha ha hb
  have hHR : HandlePhase1Received env s ErrorCode.success (X ++ xorBytes (env.sha256 X) a) =
      if wrongIdent (xorBytes (env.sha256 X) a) env.localIdentHash (env.sha256 X) then
        some (Terminate { s with m_Establisher := some { est with
            phase1 := { pubKey := X, HXxorHI := xorBytes (env.sha256 X) a } } })
      else SendPhase2 env { s with m_Establisher := some { est with
            phase1 := { pubKey := X, HXxorHI := xorBytes (env.sha256 X) a } } } := by
    simp only [HandlePhase1Received, ne_eq, not_true_eq_false, if_false, hest, h1, h2]
  refine ⟨?_, ?_, ?_⟩
  · intro si pair esti hp hpx hei hia
    simp only [ClientLogin, ensureDHKeysPair, hp, hei, Option.map_some', hpx, hia,
      NTCPPhase1.bytes]
    congr 1
    exact lastWritten_of_trace _ _ _ _ rfl
  · rw [hHR]
    constructor
    · intro h
      by_contra hne
      have hwt : wrongIdent (xorBytes (env.sha256 X) a) env.localIdentHash (env.sha256 X)
          = true := by
        cases hc : wrongIdent (xorBytes (env.sha256 X) a) env.localIdentHash (env.sha256 X)
        · exact absurd (hw.mp hc) hne
        · rfl
      rw [hwt, if_pos rfl] at h
      exact Terminate_ne_SendPhase2 env _ _ h
    · intro h
      rw [hw.mpr h]
      simp
  · intro hne
    have hwt : wrongIdent (xorBytes (env.sha256 X) a) env.localIdentHash (env.sha256 X)
        = true := by
      cases hc : wrongIdent (xorBytes (env.sha256 X) a) env.localIdentHash (env.sha256 X)
      · exact absurd (hw.mp hc) hne
      · rfl
    rw [hHR, hwt, if_pos rfl]
    refine ⟨rfl, ?_, ?_⟩
    · rw [Option.map_some', written_Terminate]
      rfl
    · rw [Option.map_some', terminateCount_Terminate]
      rfl

set_option maxRecDepth 100000 in
/-- Witness for C5: a phase-1 message built with the all-zero identity hash
makes the responder terminate. -/
theorem C5_phase1_ident_check_witness :
    (HandlePhase1Received demoEnv demoSession ErrorCode.success
      (List.replicate 256 3 ++
        xorBytes (demoEnv.sha256 (List.replicate 256 3)) (List.replicate 32 0))).map
      terminateCount = some (terminateCount demoSession + 1) :=
  ((C5_phase1_ident_check demoEnv demoSession demoEstablisher (List.replicate 256 3)
    (List.replicate 32 0) rfl (by decide) (by decide) (by decide) (by decide)).2.2
    (by decide)).2.2

theorem unreachableMarks_Terminate (s : NTCPSession) :
    unreachableMarks (Terminate s) = unreachableMarks s := by
  rw [Terminate_eq]
  cases h : s.m_RemoteRouter <;>
    simp [unreachableMarks, List.filterMap_append, List.filterMap_map]

/-- `CreateAESKey` returns the session as it was or after `Terminate`. -/
theorem CreateAESKey_session (env : Env) (s s1 : NTCPSession) (pubKey key aesKey : List Nat)
    (h : CreateAESKey env s pubKey key = some (s1, aesKey)) : s1 = s ∨ s1 = Terminate s := by
  unfold CreateAESKey at h
  split at h
  · cases h
  · split at h
    · cases h; exact Or.inr rfl
    · split at h <;> cases h <;> exact Or.inl rfl

/-- C6 (amended): when `HandlePhase2Received` is called without an I/O error
and the decrypted 32-byte hash differs from `SHA256(X || Y)`, the session is
terminated, no phase-3 message (no message at all) is written, the DH key
pair is handed back to the transport, and `netdb.SetUnreachable` is not
called. -/
theorem C6_phase2_hash_mismatch (env : Env) (s s1 : NTCPSession) (est : Establisher)
    (pair : DHKeysPair) (data aesKey : List Nat)
    (hest : s.m_Establisher = some est)
    (hkey : CreateAESKey env
      { s with m_Establisher := some { est with
          phase2 := { pubKey := data.take 256, encrypted := slice data 256 48 } } }
      (data.take 256) env.indeterminateAESKey = some (s1, aesKey))
    (hpair : s1.m_DHKeysPair = some pair)
    (hmis : env.sha256 (pair.publicKey ++ data.take 256) ≠
      slice (writeAt (slice data 256 48) 0
        (CBCDecryption.DecryptLen env { key := aesKey, iv := slice (data.take 256) 240 16 }
          (slice data 256 48) 48).1) 0 32) :
    ∃ s' : NTCPSession, HandlePhase2Received env s ErrorCode.success data = some s' ∧
      s'.m_IsEstablished = false ∧
      terminateCount s' ≥ terminateCount s + 1 ∧
      written s' = written s ∧
      unreachableMarks s' = unreachableMarks s ∧
      Event.ReuseDHKeysPair (some pair) ∈ s'.trace ∧
      s'.m_DHKeysPair = none := by
  have hs1 := CreateAESKey_session env _ s1 _ _ _ hkey
  have hHR : ∃ s2 : NTCPSession,
      HandlePhase2Received env s ErrorCode.success data = some (Terminate s2) ∧
      s2.trace = s1.trace ++ [Event.ReuseDHKeysPair (some pair)] ∧ s2.m_DHKeysPair = none := by
    simp only [HandlePhase2Received, ne_eq, not_true_eq_false, if_false, hest, hkey, hpair,
      NTCPPhase2.hxy, hmis, not_false_eq_true, if_true, NTCPSession.emit]
    exact ⟨_, rfl, rfl, rfl⟩
  obtain ⟨s2, hHR, htr, hdh⟩ := hHR
  have hs1tr : ∃ ev, s1.trace = s.trace ++ ev ∧ (∀ e ∈ ev, e = Event.socket_close ∨
      e = Event.RemoveNTCPSession ∨ ∃ i m, e = Event.SendMessage i m) := by
    rcases hs1 with h | h
    · exact ⟨[], by rw [h]; simp, by simp⟩
    · rw [h, Terminate_eq]
      cases hr : s.m_RemoteRouter
      · exact ⟨[Event.socket_close, Event.RemoveNTCPSession], by simp, by simp⟩
      · rename_i val
        refine ⟨[Event.socket_close] ++
          s.m_DelayedMessages.map (fun it => Event.SendMessage val it) ++
          [Event.RemoveNTCPSession], by simp, ?_⟩
        intro e he
        simp only [List.mem_append, List.mem_singleton, List.mem_map] at he
        rcases he with (he | ⟨m, _, he⟩) | he
        · exact Or.inl he
        · exact Or.inr (Or.inr ⟨_, m, he.symm⟩)
        · exact Or.inr (Or.inl he)
  obtain ⟨ev, hev, hevp⟩ := hs1tr
  have hw2 : written s2 = written s := by
    unfold written
    rw [htr, hev, List.filterMap_append, List.filterMap_append]
    have : List.filterMap (fun e => match e with
        | Event.async_write d _ => some d
        | _ => none) ev = [] := by
      rw [List.filterMap_eq_nil_iff]
      intro e he
      rcases hevp e he with h | h | ⟨i, m, h⟩ <;> rw [h]
    rw [this]
    simp
  have hu2 : unreachableMarks s2 = unreachableMarks s := by
    unfold unreachableMarks
    rw [htr, hev, List.filterMap_append, List.filterMap_append]
    have : List.filterMap (fun e => match e with
        | Event.SetUnreachable ident b => some (ident, b)
        | _ => none) ev = [] := by
      rw [List.filterMap_eq_nil_iff]
      intro e he
      rcases hevp e he with h | h | ⟨i, m, h⟩ <;> rw [h]
    rw [this]
    simp
  have ht2 : terminateCount s2 ≥ terminateCount s := by
    unfold terminateCount
    rw [htr, hev, List.count_append, List.count_append]
    omega
  refine ⟨_, hHR, ?_, ?_, ?_, ?_, ?_, ?_⟩
  · rw [Terminate_eq]
  · rw [terminateCount_Terminate]
    omega
  · rw [written_Terminate, hw2]
  · rw [unreachableMarks_Terminate, hu2]
  · rw [Terminate_eq]
    simp [htr]
  · rw [Terminate_eq]
    exact hdh

set_option maxRecDepth 100000 in
/-- C6 fails as stated: on a phase-2 message of 304 zero bytes, whose
decrypted hash is not `SHA256(X || Y)`, the demo session terminates and
writes nothing, and `netdb.SetUnreachable` is not called. -/
theorem C6_hash_mismatch_not_marked :
    (HandlePhase2Received demoEnv demoSession ErrorCode.success (List.replicate 304 0)).map
      (fun s => (terminateCount s, written s, unreachableMarks s)) = some (1, [], []) := by
  decide

set_option maxRecDepth 100000 in
/-- Witness for C6: the phase-2 message of 304 zero bytes. -/
theorem C6_phase2_hash_mismatch_witness :
    ∃ s' : NTCPSession,
      HandlePhase2Received demoEnv demoSession ErrorCode.success (List.replicate 304 0) = some s' ∧
      s'.m_IsEstablished = false ∧
      terminateCount s' ≥ terminateCount demoSession + 1 ∧
      written s' = written demoSession ∧
      unreachableMarks s' = unreachableMarks demoSession ∧
      Event.ReuseDHKeysPair
        (some { publicKey := List.replicate 256 3, privateKey := List.replicate 256 5 }) ∈ s'.trace ∧
      s'.m_DHKeysPair = none :=
  C6_phase2_hash_mismatch demoEnv demoSession zeroPhase2Session demoEstablisher
    { publicKey := List.replicate 256 3, privateKey := List.replicate 256 5 }
    (List.replicate 304 0) (List.replicate 32 5) rfl (by decide) rfl (by decide)

set_option maxRecDepth 100000 in
/-- C7 (code at the failing input): for an identity of 391 bytes and
signatures of 64 bytes `SendPhase3` writes 464 bytes, and the responder, after
its first read of 448 bytes, asks for 464 more bytes, not for the 16 that
remain. -/
theorem C7_phase3_continuation_read_size :
    phase3Message.length = 464 ∧
    (HandlePhase3Received env391 demoSession ErrorCode.success
        (phase3Message.take NTCP_DEFAULT_PHASE3_SIZE) (htobe32 env391.now)).map
      (fun s => s.trace.getLast?)
      = some (some (Event.async_read 448 464
          (Handler.HandlePhase3ExtraReceived (htobe32 env391.now) 3))) := by
  decide

theorem be16toh_writeAt (buf p : List Nat) (h : 2 ≤ p.length) :
    be16toh (writeAt buf 0 p) = be16toh p := by
  unfold writeAt
  rw [List.take_zero, List.nil_append, be16toh_append _ _ h]

/-- What `DecryptNextBlock` does with the first block of a message. -/
theorem DecryptNextBlock_header (env : Env) (s : NTCPSession) (encrypted : List Nat)
    (hnone : s.m_NextMessage = none)
    (hplain : (s.m_Decryption.Decrypt env encrypted).1.length = 16) :
    ((DecryptNextBlock env s encrypted).1 = false ↔
      be16toh (s.m_Decryption.Decrypt env encrypted).1 > NTCP_MAX_MESSAGE_SIZE) ∧
    ((DecryptNextBlock env s encrypted).1 = false →
      (DecryptNextBlock env s encrypted).2.m_NextMessage = none ∧
      dispatched (DecryptNextBlock env s encrypted).2 = dispatched s) := by
  have hbe := be16toh_writeAt env.NewI2NPMessage.buf (s.m_Decryption.Decrypt env encrypted).1
    (by omega)
  simp only [DecryptNextBlock, hnone, hbe]
  by_cases h0 : be16toh (s.m_Decryption.Decrypt env encrypted).1 = 0
  · simp [h0, NTCP_MAX_MESSAGE_SIZE]
  · by_cases h1 : be16toh (s.m_Decryption.Decrypt env encrypted).1 > NTCP_MAX_MESSAGE_SIZE
    · simp [h0, h1, NTCPSession.emit, dispatched, List.filterMap_append]
    · simp [h0, h1]

/-- C8: when no inbound message is in progress and the next decrypted block
has length prefix `L`, `DecryptNextBlock` returns false if and only if
`L > NTCP_MAX_MESSAGE_SIZE = 16384` (16384 is accepted, 16385 is not); after
it returned false no message is in progress and nothing was handed over, and
`HandleReceived`, reading that block into an empty buffer, calls `Terminate`,
hands nothing over and arms no further read. -/
theorem C8_max_message_size (env : Env) (s : NTCPSession) (encrypted : List Nat)
    (hnone : s.m_NextMessage = none)
    (hplain : (s.m_Decryption.Decrypt env encrypted).1.length = 16) :
    NTCP_MAX_MESSAGE_SIZE = 16384 ∧
    ((DecryptNextBlock env s encrypted).1 = false ↔
      be16toh (s.m_Decryption.Decrypt env encrypted).1 > NTCP_MAX_MESSAGE_SIZE) ∧
    (be16toh (s.m_Decryption.Decrypt env encrypted).1 = 16384 →
      (DecryptNextBlock env s encrypted).1 = true) ∧
    (be16toh (s.m_Decryption.Decrypt env encrypted).1 = 16385 →
      (DecryptNextBlock env s encrypted).1 = false) ∧
    ((DecryptNextBlock env s encrypted).1 = false →
      (DecryptNextBlock env s encrypted).2.m_NextMessage = none ∧
      dispatched (DecryptNextBlock env s encrypted).2 = dispatched s) ∧
    (s.m_ReceiveBufferOffset = 0 → encrypted.length = 16 →
      be16toh (s.m_Decryption.Decrypt env encrypted).1 > NTCP_MAX_MESSAGE_SIZE →
      terminateCount (HandleReceived env s ErrorCode.success encrypted) = terminateCount s + 1 ∧
      dispatched (HandleReceived env s ErrorCode.success encrypted) = dispatched s ∧
      (HandleReceived env s ErrorCode.success encrypted).m_NextMessage = none ∧
      readArmed (HandleReceived env s ErrorCode.success encrypted) = false) := by
  have hh := DecryptNextBlock_header env s encrypted hnone hplain
  refine ⟨rfl, hh.1, ?_, ?_, hh.2, ?_⟩
  · intro h
    cases hb : (DecryptNextBlock env s encrypted).1
    · have := hh.1.mp hb
      simp only [NTCP_MAX_MESSAGE_SIZE] at this
      omega
    · rfl
  · intro h
    exact hh.1.mpr (by simp only [NTCP_MAX_MESSAGE_SIZE]; omega)
  · intro hoff henc hL
    have hsl : slice (s.storeRead encrypted).m_ReceiveBuffer 0 16 = encrypted := by
      simp only [NTCPSession.storeRead, hoff]
      unfold slice writeAt
      rw [List.take_zero, List.nil_append, List.drop_zero, List.take_left' henc]
    have hso : (s.storeRead encrypted).m_ReceiveBufferOffset = 16 := by
      simp only [NTCPSession.storeRead, hoff, henc]
    have hh2 := DecryptNextBlock_header env (s.storeRead encrypted) encrypted hnone hplain
    have hfalse := hh2.1.mpr hL
    have hrest := hh2.2 hfalse
    have hHR : HandleReceived env s ErrorCode.success encrypted =
        Terminate (DecryptNextBlock env (s.storeRead encrypted) encrypted).2 := by
      simp only [HandleReceived, hso, ne_eq, not_true_eq_false, if_false,
        ge_iff_le, Nat.le_refl, if_true, Nat.div_self, Nat.lt_add_one, receiveLoop, hsl, hfalse,
        Bool.not_false]
    rw [hHR, terminateCount_Terminate, dispatched_Terminate, readArmed_Terminate, Terminate_eq]
    refine ⟨?_, hrest.2, hrest.1, rfl⟩
    have : terminateCount (DecryptNextBlock env (s.storeRead encrypted) encrypted).2
        = terminateCount s := by
      have hbe := be16toh_writeAt env.NewI2NPMessage.buf (s.m_Decryption.Decrypt env encrypted).1
        (by omega)
      have h0 : be16toh (s.m_Decryption.Decrypt env encrypted).1 ≠ 0 := by
        simp only [NTCP_MAX_MESSAGE_SIZE] at hL; omega
      have hd : (s.storeRead encrypted).m_Decryption = s.m_Decryption := rfl
      have hm : (s.storeRead encrypted).m_NextMessage = none := hnone
      have ht : (s.storeRead encrypted).trace = s.trace := rfl
      simp [DecryptNextBlock, hm, hd, hbe, h0, hL, NTCPSession.emit, terminateCount,
        List.count_append, ht]
    rw [this]

/-- Witness for C8: a block announcing 16385 bytes is rejected. -/
theorem C8_max_message_size_witness :
    be16toh (demoSession.m_Decryption.Decrypt demoEnv oversizeBlock).1 = 16385 ∧
    (DecryptNextBlock demoEnv demoSession oversizeBlock).1 = false :=
  ⟨by decide, (C8_max_message_size demoEnv demoSession oversizeBlock rfl (by decide)).2.2.2.1
    (by decide)⟩

theorem flatten_cutReads (l : List Nat) (c k : Nat) :
    (cutReads l c k).flatten = l.take (c * k) := by
  induction k with
  | zero => simp [cutReads]
  | succ k ih =>
    unfold cutReads at ih ⊢
    rw [List.range_succ, List.map_append, List.flatten_append, ih]
    simp only [List.map_cons, List.map_nil, List.flatten_cons, List.flatten_nil, List.append_nil,
      slice]
    rw [Nat.mul_succ, List.take_add]

/-- C9: for every byte stream and every way of cutting it into successive
reads, `HandleReceived` hands over the same messages as when the stream
arrives in a single read; and when the stream is the frame `Send` writes for
a message of 1 to 16384 payload bytes (9000 bytes in 37 reads among them),
cut anywhere, exactly one message is handed over, with that payload. -/
theorem C9_split_reads (env : Env) (s : NTCPSession) (reads : List (List Nat))
    (hlt : s.m_ReceiveBufferOffset < 16)
    (hinv : s.m_ReceiveBufferOffset ≤ s.m_ReceiveBuffer.length) :
    dispatched (receiveAll env s reads) = dispatched (receiveAll env s [reads.flatten]) ∧
    ∀ (sender : NTCPSession) (msg : I2NPMessage),
      env.cipherOK → env.adlerOK → readArmed s = true →
      s.m_ReceiveBufferOffset = 0 → s.m_NextMessage = none →
      s.m_Decryption.key = sender.m_Encryption.key →
      s.m_Decryption.iv = sender.m_Encryption.iv →
      sender.m_Encryption.iv.length = 16 →
      2 ≤ msg.offset → msg.offset ≤ msg.len →
      msg.len + sendPadding msg.GetLength + 4 ≤ msg.buf.length →
      1 ≤ msg.GetLength → msg.GetLength ≤ 16384 →
      msg.GetLength + sendPadding msg.GetLength + 6 ≤ env.NewI2NPMessage.buf.length →
      reads.flatten = lastWritten (Send env sender (some msg)) →
      ∃ m : I2NPMessage, dispatched (receiveAll env s reads) = dispatched s ++ [m] ∧
        m.payload = msg.payload ∧ m.payload.length = msg.GetLength := by
  constructor
  · cases harmed : readArmed s
    · rw [receiveAll_not_armed env s _ harmed, receiveAll_not_armed env s _ harmed]
    · have h1 := receiveAll_spec env reads s harmed hlt hinv
      have h2 := receiveAll_spec env [reads.flatten] s harmed hlt hinv
      simp only [List.flatten_cons, List.flatten_nil, List.append_nil] at h2
      exact h1.2.2.2.trans h2.2.2.2.symm
  · intro sender msg hc hadler harmed hoff0 hnone hkey hiv hivlen hoff hlen hroom hP1 hP2 hfresh
      hreads
    have h1 := receiveAll_spec env reads s harmed hlt hinv
    have hpend : pendingBytes s = [] := by simp [pendingBytes, hoff0]
    rw [hpend, List.nil_append, hreads] at h1
    have haux := frame_roundtrip_aux env hc hadler sender s msg hkey hiv hivlen hnone hoff
      hlen hroom hP1 hP2 hfresh
    rw [haux.2] at h1
    have hrp := roundtrip_payload env hadler msg hoff hlen hroom
    refine ⟨{ buf := writeAt env.NewI2NPMessage.buf 0 (sendFrame env msg),
              len := msg.GetLength + 2, offset := 2 }, ?_, hrp.2, ?_⟩
    · rw [h1.2.2.2]
      simp [dispatched, List.filterMap_append]
    · rw [hrp.2]
      exact payload_length msg (by omega) hlen

theorem bigEnv_cipherOK : bigEnv.cipherOK := demoEnv_cipherOK

theorem bigEnv_adlerOK : bigEnv.adlerOK := demoEnv_adlerOK

theorem msg9000_room : msg9000.len + sendPadding msg9000.GetLength + 4 ≤ msg9000.buf.length := by
  show 9002 + sendPadding (9002 - 2) + 4 ≤ (List.replicate 9020 7).length
  rw [List.length_replicate]
  decide

theorem bigEnv_room :
    msg9000.GetLength + sendPadding msg9000.GetLength + 6 ≤ bigEnv.NewI2NPMessage.buf.length := by
  show 9002 - 2 + sendPadding (9002 - 2) + 6 ≤ (List.replicate 32768 0).length
  rw [List.length_replicate]
  decide

/-- The frame of the 9000-byte message, cut into 37 reads of 244 bytes (the
last one shorter), is the frame again when put together. -/
theorem cutReads_frame9000 :
    (cutReads (lastWritten (Send bigEnv demoSession (some msg9000))) 244 37).flatten
      = lastWritten (Send bigEnv demoSession (some msg9000)) := by
  rw [flatten_cutReads]
  apply List.take_of_length_le
  rw [(frame_roundtrip_aux bigEnv bigEnv_cipherOK bigEnv_adlerOK demoSession demoSession msg9000
    rfl rfl (by decide) rfl (by decide) (by decide) msg9000_room (by decide) (by decide)
    bigEnv_room).1]
  decide

/-- Witness for C9: a framed 9000-byte payload read in 37 pieces of 244 bytes
(232 for the last) is handed over once, as one message of 9000 bytes. -/
theorem C9_split_reads_witness :
    (cutReads (lastWritten (Send bigEnv demoSession (some msg9000))) 244 37).length = 37 ∧
    msg9000.GetLength = 9000 ∧
    ∃ m : I2NPMessage,
      dispatched (receiveAll bigEnv listeningSession
        (cutReads (lastWritten (Send bigEnv demoSession (some msg9000))) 244 37))
        = dispatched listeningSession ++ [m] ∧
      m.payload = msg9000.payload ∧ m.payload.length = msg9000.GetLength :=
  ⟨by simp only [cutReads, List.length_map, List.length_range], by decide,
    (C9_split_reads bigEnv listeningSession
      (cutReads (lastWritten (Send bigEnv demoSession (some msg9000))) 244 37)
      (by decide) (Nat.zero_le _)).2 demoSession msg9000 bigEnv_cipherOK bigEnv_adlerOK
      (readArmed_Receive demoEnv demoSession) rfl rfl rfl rfl (by decide) (by decide)
      (by decide) msg9000_room (by decide) (by decide) bigEnv_room cutReads_frame9000⟩

theorem open_eq_mkAt (data : List Nat) (sp : Bool) : IStream.open data sp = IStream.mkAt sp [] data :=
  rfl

theorem read_mkAt (sp : Bool) (pre x rest : List Nat) (n : Nat) (h : x.length = n) :
    (IStream.mkAt sp pre (x ++ rest)).read n = (x, IStream.mkAt sp (pre ++ x) rest) := by
  subst h
  have h1 : x.length ≤ pre.length + (x.length + rest.length) - pre.length := by omega
  have h2 : slice (pre ++ (x ++ rest)) pre.length x.length = x := by
    unfold slice
    rw [List.drop_left, List.take_left]
  simp only [IStream.read, IStream.mkAt, IStream.good, Bool.not_false, Bool.and_self,
    Bool.not_true, Bool.false_eq_true, if_false, List.length_append, h1, if_true, h2,
    List.append_assoc]

theorem stored_full (old x : List Nat) (n : Nat) (h : x.length = n) :
    stored n old x = x := by
  unfold stored
  rw [← h, List.take_left]

theorem readVar_mkAt (old : List Nat) (sp : Bool) (pre x rest : List Nat) (n : Nat)
    (h : x.length = n) :
    (IStream.mkAt sp pre (x ++ rest)).readVar old n = (x, IStream.mkAt sp (pre ++ x) rest) := by
  unfold IStream.readVar
  rw [read_mkAt sp pre x rest n h]
  simp only [stored_full old x n h]

theorem seekg_cur_mkAt (sp : Bool) (pre x rest : List Nat) (n : Nat) (h : x.length = n) :
    (IStream.mkAt sp pre (x ++ rest)).seekg_cur n = IStream.mkAt sp (pre ++ x) rest := by
  subst h
  have h1 : ¬ (pre.length + x.length > pre.length + (x.length + rest.length)) := by omega
  simp only [IStream.seekg_cur, IStream.mkAt, Bool.false_eq_true, if_false, List.length_append,
    h1, decide_False, Bool.false_and, List.append_assoc]

theorem tellg_mkAt (sp : Bool) (pre rest : List Nat) : (IStream.mkAt sp pre rest).tellg = pre.length :=
  rfl

theorem eof_mkAt (sp : Bool) (pre rest : List Nat) : (IStream.mkAt sp pre rest).eof = false := rfl

theorem le16_length (v : Nat) : (le16 v).length = 2 := rfl

theorem htole32_length (v : Nat) : (htole32 v).length = 4 := rfl

theorem be64_length (v : Nat) : (be64 v).length = 8 := rfl

theorem htobe16_length (v : Nat) : (htobe16 v).length = 2 := rfl

theorem le16toh_le16 (v : Nat) (h : v < 65536) : le16toh (le16 v) = v := by
  simp only [le16toh, le16, List.getD_cons_zero, List.getD_cons_succ]
  omega

theorem le32toh_htole32 (v : Nat) (h : v < 4294967296) : le32toh (htole32 v) = v := by
  simp only [le32toh, htole32, List.getD_cons_zero, List.getD_cons_succ]
  omega

theorem be64toh_be64 (v : Nat) (h : v < 18446744073709551616) : be64toh (be64 v) = v := by
  simp only [be64toh, be64, List.foldl_cons, List.foldl_nil]
  omega

/-- The bytes of a local file record between its signature and its data. -/
theorem readLocalFileHeader_generic (locals : SU3Locals) (sp : Bool) (pre rest : List Nat)
    (e : ZipEntry) (hwf : e.fieldsOK) :
    readLocalFileHeader locals (IStream.mkAt sp pre
      (e.version ++ (le16 e.bitFlag ++ (le16 e.compressionMethod ++ (e.timeDateCrc ++
        (htole32 e.compressedSize ++ (htole32 e.uncompressedSize ++
          (le16 e.fileName.length ++ (le16 e.extraField.length ++
            (e.fileName ++ (e.extraField ++ rest)))))))))))
    = { bitFlag := e.bitFlag, compressionMethod := e.compressionMethod,
        compressedSize := e.compressedSize, uncompressedSize := e.uncompressedSize,
        fileNameLength := e.fileName.length, extraFieldLength := e.extraField.length,
        stream := IStream.mkAt sp
          (pre ++ e.version ++ le16 e.bitFlag ++ le16 e.compressionMethod ++ e.timeDateCrc ++
            htole32 e.compressedSize ++ htole32 e.uncompressedSize ++
            le16 e.fileName.length ++ le16 e.extraField.length ++ e.fileName ++ e.extraField)
          rest } := by
  obtain ⟨hv, ht, hbf, hcm, hcl, hul, hfn, hxf⟩ := hwf
  have hfn' : e.fileName.length < 65536 := by omega
  unfold readLocalFileHeader
  simp only [seekg_cur_mkAt sp _ _ _ 2 hv, readVar_mkAt _ sp _ _ _ 2 (le16_length _),
    seekg_cur_mkAt sp _ _ _ 8 ht, readVar_mkAt _ sp _ _ _ 4 (htole32_length _),
    le16toh_le16 _ hbf, le16toh_le16 _ hcm, le16toh_le16 _ hfn', le16toh_le16 _ hxf,
    le32toh_htole32 _ hcl, le32toh_htole32 _ hul,
    read_mkAt sp _ e.fileName _ e.fileName.length rfl,
    seekg_cur_mkAt sp _ e.extraField _ e.extraField.length rfl]

theorem seekg_beg_mkAt (sp : Bool) (pre x rest : List Nat) :
    (IStream.mkAt sp (pre ++ x) rest).seekg_beg pre.length = IStream.mkAt sp pre (x ++ rest) := by
  have h1 : ¬ (pre.length > pre.length + (x.length + rest.length)) := by omega
  simp only [IStream.seekg_beg, IStream.mkAt, Bool.false_eq_true, if_false, List.length_append,
    h1, decide_False, Bool.false_and, List.append_assoc]

/-- The end test of the loop, `end - contentPos >= contentLength` in `size_t`. -/
theorem endTest (endPos contentPos : Nat) (h1 : contentPos ≤ endPos)
    (h2 : endPos < 18446744073709551616) :
    (endPos + 18446744073709551616 - contentPos) % 18446744073709551616 = endPos - contentPos := by
  omega

/-- `su3File` on a record of which the data `x` is read: the descriptor is
handed over and the stream is behind the record. -/
theorem su3File_read (env : ReseedEnv) (contentPos contentLength : Nat) (sp : Bool)
    (pre x tail post d : List Nat) (h : LocalFileHeader) (numFiles : Nat)
    (added : List (List Nat))
    (hs : h.stream = IStream.mkAt sp pre (x ++ (tail ++ post)))
    (hx : x.length = h.compressedSize) (hx0 : 0 < x.length)
    (htail : if h.bitFlag &&& ZIP_BIT_FLAG_DATA_DESCRIPTOR ≠ 0 then tail.length = 12
      else tail = [])
    (hd : if h.compressionMethod ≠ 0 then
        ∃ r, env.inflate x = some r ∧ r.length = h.uncompressedSize ∧ d = r
      else d = x)
    (hpos : contentPos ≤ pre.length)
    (hsize : (pre ++ x ++ tail).length < 18446744073709551616) :
    su3File env contentPos contentLength h numFiles added =
      if contentLength ≤ (pre ++ x ++ tail).length - contentPos then
        LoopStep.done { completion := Completion.returned (numFiles + 1), added := added ++ [d],
                        stream := IStream.mkAt sp (pre ++ x ++ tail) post }
      else LoopStep.next (IStream.mkAt sp (pre ++ x ++ tail) post) (numFiles + 1)
        (added ++ [d]) h.locals := by
  have hne : h.compressedSize ≠ 0 := by omega
  have hskip : (if h.bitFlag &&& ZIP_BIT_FLAG_DATA_DESCRIPTOR ≠ 0 then
        (IStream.mkAt sp (pre ++ x) (tail ++ post)).seekg_cur 12
      else IStream.mkAt sp (pre ++ x) (tail ++ post))
      = IStream.mkAt sp (pre ++ x ++ tail) post := by
    split
    · rename_i hb
      rw [if_pos hb] at htail
      rw [seekg_cur_mkAt sp _ tail post 12 htail]
    · rename_i hb
      rw [if_neg hb] at htail
      rw [htail, List.nil_append, List.append_nil]
  have hproc : processLocalFile env h numFiles added
      = some (numFiles + 1, added ++ [d], IStream.mkAt sp (pre ++ x ++ tail) post) := by
    unfold processLocalFile
    simp only [hs, read_mkAt sp pre x (tail ++ post) h.compressedSize hx,
      stored_full _ x h.compressedSize hx, hskip]
    by_cases hm : h.compressionMethod ≠ 0
    · rw [if_pos hm] at hd
      obtain ⟨r, hr1, hr2, hr3⟩ := hd
      rw [if_pos hm]
      simp only [hr1]
      rw [if_pos (by omega), List.take_of_length_le (by omega),
        stored_full _ r h.uncompressedSize hr2, hr3]
    · rw [if_neg hm] at hd
      rw [if_neg hm, hd]
  unfold su3File
  rw [if_neg hne]
  simp only [hproc, tellg_mkAt]
  have het := endTest (pre ++ x ++ tail).length contentPos
    (by simp only [List.length_append] at hsize ⊢; omega) hsize
  simp only [het, ge_iff_le]

/-- `readLocalFileHeader` on the header bytes of a record. -/
theorem readLocalFileHeader_bytes (locals : SU3Locals) (sp : Bool) (pre rest : List Nat)
    (e : ZipEntry) (hwf : e.fieldsOK) :
    readLocalFileHeader locals (IStream.mkAt sp pre (e.headerBytes ++ rest))
    = { bitFlag := e.bitFlag, compressionMethod := e.compressionMethod,
        compressedSize := e.compressedSize, uncompressedSize := e.uncompressedSize,
        fileNameLength := e.fileName.length, extraFieldLength := e.extraField.length,
        stream := IStream.mkAt sp (pre ++ e.headerBytes) rest } := by
  have e1 : e.headerBytes ++ rest = e.version ++ (le16 e.bitFlag ++ (le16 e.compressionMethod ++
      (e.timeDateCrc ++ (htole32 e.compressedSize ++ (htole32 e.uncompressedSize ++
        (le16 e.fileName.length ++ (le16 e.extraField.length ++
          (e.fileName ++ (e.extraField ++ rest))))))))) := by
    simp only [ZipEntry.headerBytes, List.append_assoc]
  have e2 : pre ++ e.headerBytes = pre ++ e.version ++ le16 e.bitFlag ++
      le16 e.compressionMethod ++ e.timeDateCrc ++ htole32 e.compressedSize ++
      htole32 e.uncompressedSize ++ le16 e.fileName.length ++ le16 e.extraField.length ++
      e.fileName ++ e.extraField := by
    simp only [ZipEntry.headerBytes, List.append_assoc]
  rw [e1, e2]
  exact readLocalFileHeader_generic locals sp pre rest e hwf

theorem getLast_cons_getD (a b : Nat) (c : List Nat) :
    (a :: c).getLast?.getD b = c.getLast?.getD a := by
  cases c with
  | nil => rfl
  | cons x xs =>
    rw [List.getLast?_cons_cons, List.getLast?_eq_getLast _ (List.cons_ne_nil x xs)]
    rfl

/-- `FindZipDataDescriptor` over data on which its matcher finds no
signature; `nextByte` holds the last byte read. -/
theorem findLoop_data (sp : Bool) : ∀ (c : List Nat) (fuel k k' b : Nat)
    (pre rest : List Nat), descriptorScan c k = some k' →
    findZipDataDescriptorLoop (fuel + c.length) (IStream.mkAt sp pre (c ++ rest)) k b
      = findZipDataDescriptorLoop fuel (IStream.mkAt sp (pre ++ c) rest) k'
          (c.getLast?.getD b) := by
  intro c
  induction c with
  | nil =>
    intro fuel k k' b pre rest h
    simp only [descriptorScan, Option.some.injEq] at h
    simp only [List.length_nil, Nat.add_zero, List.nil_append, List.append_nil, h,
      List.getLast?_nil, Option.getD_none]
  | cons b0 c ih =>
    intro fuel k k' b pre rest h
    have hcons : b0 :: c ++ rest = [b0] ++ (c ++ rest) := rfl
    rw [List.length_cons, ← Nat.add_assoc, findZipDataDescriptorLoop, eof_mkAt, hcons,
      readVar_mkAt [b] sp pre [b0] (c ++ rest) 1 rfl, getLast_cons_getD]
    simp only [Bool.false_eq_true, if_false, List.getD_cons_zero, List.singleton_append]
    unfold descriptorScan at h
    by_cases hb : b0 = ZIP_DATA_DESCRIPTOR_SIGNATURE.getD k 0
    · rw [if_pos hb] at h
      rw [if_pos hb]
      by_cases hk : k + 1 ≥ 4
      · rw [if_pos hk] at h
        cases h
      · rw [if_neg hk] at h
        rw [if_neg hk, ih fuel (k + 1) k' b0 (pre ++ [b0]) rest h]
        simp only [List.append_assoc, List.singleton_append]
    · rw [if_neg hb] at h
      rw [if_neg hb, ih fuel 0 k' b0 (pre ++ [b0]) rest h]
      simp only [List.append_assoc, List.singleton_append]

theorem findLoop_step (sp : Bool) (fuel b k nb : Nat) (pre rest : List Nat)
    (hb : b = ZIP_DATA_DESCRIPTOR_SIGNATURE.getD k 0) :
    findZipDataDescriptorLoop (fuel + 1) (IStream.mkAt sp pre (b :: rest)) k nb
      = if k + 1 ≥ 4 then some (true, IStream.mkAt sp (pre ++ [b]) rest)
        else findZipDataDescriptorLoop fuel (IStream.mkAt sp (pre ++ [b]) rest) (k + 1) b := by
  have hcons : b :: rest = [b] ++ rest := rfl
  rw [findZipDataDescriptorLoop, eof_mkAt, hcons, readVar_mkAt [nb] sp pre [b] rest 1 rfl]
  simp only [Bool.false_eq_true, if_false, List.getD_cons_zero]
  rw [if_pos hb]

/-- `FindZipDataDescriptor` on the signature, with no byte matched before. -/
theorem findLoop_signature (sp : Bool) (fuel nb : Nat) (pre rest : List Nat) :
    findZipDataDescriptorLoop (fuel + 4)
      (IStream.mkAt sp pre (ZIP_DATA_DESCRIPTOR_SIGNATURE ++ rest)) 0 nb
      = some (true, IStream.mkAt sp (pre ++ ZIP_DATA_DESCRIPTOR_SIGNATURE) rest) := by
  have hsig : ZIP_DATA_DESCRIPTOR_SIGNATURE ++ rest = 0x50 :: 0x4B :: 0x07 :: 0x08 :: rest := rfl
  rw [hsig, findLoop_step sp (fuel + 3) 0x50 0 nb pre _ rfl, if_neg (by decide),
    findLoop_step sp (fuel + 2) 0x4B 1 _ _ _ rfl, if_neg (by decide),
    findLoop_step sp (fuel + 1) 0x07 2 _ _ _ rfl, if_neg (by decide),
    findLoop_step sp fuel 0x08 3 _ _ _ rfl, if_pos (by decide)]
  simp only [List.append_assoc, List.singleton_append, List.cons_append, List.nil_append,
    ZIP_DATA_DESCRIPTOR_SIGNATURE]

/-- `readDataDescriptor` on the bytes behind a found signature. -/
theorem readDataDescriptor_bytes (sp : Bool) (pre x post : List Nat) (h : LocalFileHeader)
    (dd : DataDescriptor) (hcrc : dd.crc.length = 4)
    (hcs : dd.compressedSize + 4 < 4294967296) (hus : dd.uncompressedSize < 4294967296) :
    readDataDescriptor h (IStream.mkAt sp (pre ++ x)
        (dd.crc ++ (htole32 dd.compressedSize ++ (htole32 dd.uncompressedSize ++ post))))
      pre.length
    = { h with compressedSize := dd.compressedSize + 4, uncompressedSize := dd.uncompressedSize,
               stream := IStream.mkAt sp pre
                 (x ++ ((dd.crc ++ (htole32 dd.compressedSize ++ htole32 dd.uncompressedSize))
                   ++ post)) } := by
  unfold readDataDescriptor
  simp only [seekg_cur_mkAt sp _ _ _ 4 hcrc, readVar_mkAt _ sp _ _ _ 4 (htole32_length _),
    le32toh_htole32 _ hus, le32toh_htole32 dd.compressedSize (by omega)]
  have e1 : pre ++ x ++ dd.crc ++ htole32 dd.compressedSize ++ htole32 dd.uncompressedSize
      = pre ++ (x ++ (dd.crc ++ (htole32 dd.compressedSize ++ htole32 dd.uncompressedSize))) := by
    simp only [List.append_assoc]
  rw [e1, seekg_beg_mkAt, Nat.mod_eq_of_lt hcs]
  simp only [List.append_assoc]

/-- One turn of the loop on a well-formed record: its descriptor is handed
over, the stream is behind the record, and the loop is left exactly when the
content length is reached. -/
theorem su3Body_entry (env : ReseedEnv) (innerFuel contentPos contentLength : Nat) (sp : Bool)
    (pre post d : List Nat) (e : ZipEntry) (numFiles : Nat) (added : List (List Nat))
    (locals : SU3Locals)
    (hwf : e.wellFormed env) (hd : e.descriptor env = some d)
    (hpos : contentPos ≤ pre.length)
    (hsize : (pre ++ e.bytes).length < 18446744073709551616)
    (hfuel : e.compressed.length + 4 < innerFuel) :
    su3Body env innerFuel contentPos contentLength (IStream.mkAt sp pre (e.bytes ++ post))
        numFiles added locals =
      if contentLength ≤ (pre ++ e.bytes).length - contentPos then
        LoopStep.done { completion := Completion.returned (numFiles + 1), added := added ++ [d],
                        stream := IStream.mkAt sp (pre ++ e.bytes) post }
      else LoopStep.next (IStream.mkAt sp (pre ++ e.bytes) post) (numFiles + 1)
        (added ++ [d]) e.locals := by
  obtain ⟨hf, hk⟩ := hwf
  have hname : ¬ (e.fileName.length ≥ 255) := by
    have := hf.2.2.2.2.2.2.1
    omega
  have hb : e.bytes ++ post = htole32 ZIP_HEADER_SIGNATURE ++
      (e.headerBytes ++ (e.compressed ++ (e.descriptorBytes ++ post))) := by
    simp only [ZipEntry.bytes, List.append_assoc]
  have hsig : le32toh (htole32 ZIP_HEADER_SIGNATURE) = ZIP_HEADER_SIGNATURE :=
    le32toh_htole32 _ (by decide)
  unfold su3Body
  simp only [hb, readVar_mkAt _ sp pre _ _ 4 (htole32_length _), hsig, if_true,
    readLocalFileHeader_bytes locals sp _ _ e hf, hname, if_false]
  cases hdd : e.dataDescriptor with
  | none =>
    rw [hdd] at hk
    obtain ⟨hbit, hcs, hc0, hinfl⟩ := hk
    have hdb : e.descriptorBytes = [] := by simp only [ZipEntry.descriptorBytes, hdd]
    have hnb : ¬ (e.bitFlag &&& ZIP_BIT_FLAG_DATA_DESCRIPTOR ≠ 0) := by
      rw [hbit]; exact fun h => h rfl
    have hwhole : pre ++ htole32 ZIP_HEADER_SIGNATURE ++ e.headerBytes ++ e.compressed ++ []
        = pre ++ e.bytes := by
      simp only [ZipEntry.bytes, hdb, List.append_nil, List.append_assoc]
    rw [if_neg hnb, hdb]
    rw [su3File_read env contentPos contentLength sp
      (pre ++ htole32 ZIP_HEADER_SIGNATURE ++ e.headerBytes) e.compressed [] post d _ numFiles
      added rfl hcs.symm hc0 (by rw [if_neg hnb]) ?_ (by simp only [List.length_append]; omega)
      (by rw [hwhole]; exact hsize), hwhole]
    · simp only [LocalFileHeader.locals, ZipEntry.locals, hdd]
    simp only [ZipEntry.descriptor] at hd
    by_cases hm : e.compressionMethod ≠ 0
    · rw [if_pos hm] at hd ⊢
      obtain ⟨r, hr1, hr2⟩ := hinfl hm
      rw [hr1] at hd
      exact ⟨r, hr1, hr2, (Option.some.inj hd).symm⟩
    · rw [if_neg hm] at hd ⊢
      exact (Option.some.inj hd).symm
  | some dd =>
    rw [hdd] at hk
    obtain ⟨hbit, hm, hcrc, hcs, hc32, hus, hscan, r, hr0, hr1, hr2⟩ := hk
    have hdb : e.descriptorBytes = ZIP_DATA_DESCRIPTOR_SIGNATURE ++
        (dd.crc ++ (htole32 dd.compressedSize ++ htole32 dd.uncompressedSize)) := by
      simp only [ZipEntry.descriptorBytes, hdd, DataDescriptor.bytes]
    have hwhole : pre ++ htole32 ZIP_HEADER_SIGNATURE ++ e.headerBytes ++
        (e.compressed ++ ZIP_DATA_DESCRIPTOR_SIGNATURE) ++
        (dd.crc ++ (htole32 dd.compressedSize ++ htole32 dd.uncompressedSize))
        = pre ++ e.bytes := by
      simp only [ZipEntry.bytes, hdb, List.append_assoc]
    obtain ⟨f0, hf0⟩ : ∃ f0, innerFuel = (f0 + 4) + e.compressed.length :=
      ⟨innerFuel - 4 - e.compressed.length, by omega⟩
    have hfind : FindZipDataDescriptor env innerFuel
        (IStream.mkAt sp (pre ++ htole32 ZIP_HEADER_SIGNATURE ++ e.headerBytes)
          (e.compressed ++ (e.descriptorBytes ++ post)))
        = some (true, IStream.mkAt sp
            (pre ++ htole32 ZIP_HEADER_SIGNATURE ++ e.headerBytes ++
              (e.compressed ++ ZIP_DATA_DESCRIPTOR_SIGNATURE))
            (dd.crc ++ (htole32 dd.compressedSize ++ (htole32 dd.uncompressedSize ++ post)))) := by
      unfold FindZipDataDescriptor
      have hrest : ZIP_DATA_DESCRIPTOR_SIGNATURE ++
          (dd.crc ++ (htole32 dd.compressedSize ++ htole32 dd.uncompressedSize)) ++ post
          = ZIP_DATA_DESCRIPTOR_SIGNATURE ++
            (dd.crc ++ (htole32 dd.compressedSize ++ (htole32 dd.uncompressedSize ++ post))) := by
        simp only [List.append_assoc]
      rw [hf0, findLoop_data sp e.compressed (f0 + 4) 0 0 _ _ _ hscan, hdb, hrest,
        findLoop_signature]
      simp only [List.append_assoc]
    rw [if_pos hbit]
    simp only [hfind, tellg_mkAt]
    rw [readDataDescriptor_bytes sp _ _ post _ dd hcrc (by omega) hus]
    rw [su3File_read env contentPos contentLength sp
      (pre ++ htole32 ZIP_HEADER_SIGNATURE ++ e.headerBytes)
      (e.compressed ++ ZIP_DATA_DESCRIPTOR_SIGNATURE)
      (dd.crc ++ (htole32 dd.compressedSize ++ htole32 dd.uncompressedSize)) post d _ numFiles
      added rfl ?_ ?_ ?_ ?_ (by simp only [List.length_append]; omega)
      (by rw [hwhole]; exact hsize), hwhole]
    · simp only [LocalFileHeader.locals, ZipEntry.locals, hdd]
    · simp only [List.length_append, hcs]
      rfl
    · simp only [List.length_append]
      have : ZIP_DATA_DESCRIPTOR_SIGNATURE.length = 4 := rfl
      omega
    · show (if e.bitFlag &&& ZIP_BIT_FLAG_DATA_DESCRIPTOR ≠ 0 then _ else _)
      rw [if_pos hbit]
      simp only [List.length_append, hcrc, htole32_length]
    · show (if e.compressionMethod ≠ 0 then _ else _)
      rw [if_pos hm]
      simp only [ZipEntry.descriptor, if_pos hm, hr0] at hd
      exact ⟨r, hr1, hr2, (Option.some.inj hd).symm⟩

theorem zipBytes_cons (e : ZipEntry) (es : List ZipEntry) :
    zipBytes (e :: es) = e.bytes ++ zipBytes es := by
  simp only [zipBytes, List.map_cons, List.flatten_cons]

theorem bytes_length_pos (e : ZipEntry) : 0 < e.bytes.length := by
  simp only [ZipEntry.bytes, List.length_append, htole32_length]
  omega

/-- The loop over the records of a ZIP stream that ends where the content
ends, or goes on with bytes that are not the signature of a local file. -/
theorem su3Loop_entries (env : ReseedEnv) (innerFuel contentPos contentLength : Nat) (sp : Bool)
    (trailer post : List Nat)
    (htr : trailer = [] ∨
      (4 ≤ trailer.length ∧ le32toh (trailer.take 4) ≠ ZIP_HEADER_SIGNATURE)) :
    ∀ (entries : List ZipEntry) (ds : List (List Nat)) (fuel : Nat) (pre : List Nat) (n : Nat)
      (added : List (List Nat)) (locals : SU3Locals),
      (∀ e ∈ entries, e.wellFormed env ∧ e.compressed.length + 4 < innerFuel) →
      entries.map (ZipEntry.descriptor env) = ds.map some →
      (trailer = [] → entries ≠ []) →
      contentPos ≤ pre.length →
      contentPos + contentLength = pre.length + (zipBytes entries).length + trailer.length →
      (pre ++ zipBytes entries).length < 18446744073709551616 →
      entries.length < fuel →
      (su3Loop env innerFuel contentPos contentLength fuel
          (IStream.mkAt sp pre (zipBytes entries ++ (trailer ++ post))) n added
          locals).completion
        = Completion.returned (n + entries.length) ∧
      (su3Loop env innerFuel contentPos contentLength fuel
          (IStream.mkAt sp pre (zipBytes entries ++ (trailer ++ post))) n added
          locals).added
        = added ++ ds := by
  intro entries
  induction entries with
  | nil =>
    intro ds fuel pre n added locals _ hds hne _ _ _ hfuel
    obtain ⟨f, rfl⟩ : ∃ f, fuel = f + 1 := ⟨fuel - 1, by simp only [List.length_nil] at hfuel; omega⟩
    have hds0 : ds = [] := by
      cases ds with
      | nil => rfl
      | cons d ds => simp only [List.map_nil, List.map_cons] at hds; exact absurd hds (by simp)
    subst hds0
    rcases htr with h0 | ⟨h4, hsig⟩
    · exact absurd rfl (hne h0)
    · have hsplit : zipBytes [] ++ (trailer ++ post)
          = trailer.take 4 ++ (trailer.drop 4 ++ post) := by
        simp only [zipBytes, List.map_nil, List.flatten_nil, List.nil_append]
        rw [← List.append_assoc, List.take_append_drop]
      have hlen : (trailer.take 4).length = 4 := by
        rw [List.length_take]; omega
      rw [hsplit]
      unfold su3Loop
      simp only [eof_mkAt, Bool.false_eq_true, if_false, su3Body,
        readVar_mkAt _ sp pre _ _ 4 hlen, hsig, List.length_nil, Nat.add_zero,
        List.append_nil, and_self]
  | cons e es ih =>
    intro ds fuel pre n added locals hwf hds hne hpos hlen hsize hfuel
    obtain ⟨f, rfl⟩ : ∃ f, fuel = f + 1 := ⟨fuel - 1, by omega⟩
    obtain ⟨hwe, hfe⟩ := hwf e (List.mem_cons_self _ _)
    cases ds with
    | nil => simp only [List.map_nil, List.map_cons] at hds; exact absurd hds (by simp)
    | cons d ds' =>
    simp only [List.map_cons, List.cons.injEq] at hds
    obtain ⟨hd, hds'⟩ := hds
    rw [zipBytes_cons] at hlen hsize
    have hsize1 : (pre ++ e.bytes).length < 18446744073709551616 := by
      simp only [List.length_append] at hsize ⊢
      omega
    have hbody := su3Body_entry env innerFuel contentPos contentLength sp pre
      (zipBytes es ++ (trailer ++ post)) d e n added locals hwe hd hpos hsize1 hfe
    have hstream : zipBytes (e :: es) ++ (trailer ++ post)
        = e.bytes ++ (zipBytes es ++ (trailer ++ post)) := by
      rw [zipBytes_cons, List.append_assoc]
    rw [hstream]
    unfold su3Loop
    simp only [eof_mkAt, Bool.false_eq_true, if_false, hbody]
    by_cases hend : contentLength ≤ (pre ++ e.bytes).length - contentPos
    · simp only [if_pos hend]
      have hz : (zipBytes es).length + trailer.length = 0 := by
        simp only [List.length_append] at hend hlen
        omega
      have hes : es = [] := by
        cases es with
        | nil => rfl
        | cons e2 es2 =>
          rw [zipBytes_cons, List.length_append] at hz
          have := bytes_length_pos e2
          omega
      subst hes
      have hds0 : ds' = [] := by
        cases ds' with
        | nil => rfl
        | cons d ds => simp only [List.map_nil, List.map_cons] at hds'; exact absurd hds' (by simp)
      subst hds0
      exact ⟨rfl, rfl⟩
    · simp only [if_neg hend]
      have hne2 : trailer = [] → es ≠ [] := by
        intro ht hes
        subst hes
        subst ht
        apply hend
        simp only [zipBytes, List.map_nil, List.flatten_nil, List.length_nil, List.length_append,
          Nat.add_zero] at hlen ⊢
        omega
      have := ih ds' f (pre ++ e.bytes) (n + 1) (added ++ [d]) e.locals
        (fun e2 h2 => hwf e2 (List.mem_cons_of_mem _ h2)) hds' hne2
        (by simp only [List.length_append]; omega)
        (by simp only [List.length_append] at hlen ⊢; omega)
        (by simp only [List.length_append] at hsize ⊢; omega)
        (by simp only [List.length_cons] at hfuel; omega)
      obtain ⟨h1, h2⟩ := this
      refine ⟨?_, ?_⟩
      · rw [h1, List.length_cons]
        congr 1
        omega
      · rw [h2, List.append_assoc, List.singleton_append]

/-- The header of an SU3 file with file type 0 and content type 3 takes
`ProcessSU3Stream` to its loop, at the start of the content. -/
theorem ProcessSU3Stream_header (env : ReseedEnv) (fuel : Nat) (sp : Bool) (f : SU3File)
    (rest : List Nat) (hf : f.wellFormed) :
    ProcessSU3Stream env fuel (IStream.open (f.prefixBytes ++ rest) sp) =
      su3Loop env fuel f.prefixBytes.length f.contentLength fuel
        (IStream.mkAt sp f.prefixBytes rest) 0 [] env.locals := by
  obtain ⟨hv, hs, hc, hr⟩ := hf
  have hdata : f.prefixBytes ++ rest = (SU3_MAGIC_NUMBER ++ [0]) ++ ([f.formatVersion] ++
      (htobe16 f.signatureType ++ (htobe16 f.signatureLength ++ ([f.reserved12] ++
        ([f.version.length] ++ ([f.reserved14] ++ ([f.signerID.length] ++
          (be64 f.contentLength ++ ([f.reserved24] ++ ([0] ++ ([f.reserved26] ++ ([3] ++
            (f.reserved28 ++ (f.version ++ (f.signerID ++ rest))))))))))))))) := by
    simp only [SU3File.prefixBytes, su3Magic, List.append_assoc]
  have hmagic : (SU3_MAGIC_NUMBER ++ [0]).length = 7 := by decide
  unfold ProcessSU3Stream
  rw [open_eq_mkAt, hdata]
  simp only [readVar_mkAt _ sp _ (SU3_MAGIC_NUMBER ++ [0]) _ 7 hmagic,
    seekg_cur_mkAt sp _ [_] _ 1 (List.length_singleton _),
    readVar_mkAt _ sp _ [_] _ 1 (List.length_singleton _),
    readVar_mkAt _ sp _ _ _ 2 (htobe16_length _),
    readVar_mkAt _ sp _ _ _ 8 (be64_length _),
    seekg_cur_mkAt sp _ f.reserved28 _ 12 hr,
    seekg_cur_mkAt sp _ f.version _ f.version.length rfl,
    seekg_cur_mkAt sp _ f.signerID _ f.signerID.length rfl,
    List.getD_cons_zero, ne_eq, not_true_eq_false, if_false, be64toh_be64 _ hc, tellg_mkAt]
  simp only [SU3File.prefixBytes, su3Magic, List.append_assoc, List.nil_append]

theorem length_le_zipBytes (entries : List ZipEntry) :
    entries.length ≤ (zipBytes entries).length := by
  induction entries with
  | nil => exact Nat.zero_le _
  | cons e es ih =>
    rw [zipBytes_cons, List.length_append, List.length_cons]
    have := bytes_length_pos e
    omega

theorem compressed_lt_zipBytes (entries : List ZipEntry) (e : ZipEntry) (he : e ∈ entries) :
    e.compressed.length + 4 ≤ (zipBytes entries).length := by
  induction entries with
  | nil => exact absurd he (List.not_mem_nil _)
  | cons e2 es ih =>
    rw [zipBytes_cons, List.length_append]
    rcases List.mem_cons.1 he with rfl | h
    · simp only [ZipEntry.bytes, List.length_append, htole32_length]
      omega
    · have := ih h
      omega

/-- Counterexample to C10 as stated: a valid archive whose one local file is
stored and has a data descriptor holds the router descriptor `01 02 03`, but
`AddRouterInfo` is called with seven bytes, the descriptor followed by the
data-descriptor signature `50 4B 07 08`. -/
theorem C10_stored_with_data_descriptor :
    (demoSU3 51).wellFormed ∧
    (demoSU3 51).contentLength = (zipBytes [descriptorEntry 0 [1, 2, 3] 3]).length ∧
    demoArchive [descriptorEntry 0 [1, 2, 3] 3]
      = (demoSU3 51).bytes [descriptorEntry 0 [1, 2, 3] 3] [] [] ∧
    ZipEntry.descriptor demoReseedEnv (descriptorEntry 0 [1, 2, 3] 3) = some [1, 2, 3] ∧
    (ProcessSU3Stream demoReseedEnv 100
      (IStream.open (demoArchive [descriptorEntry 0 [1, 2, 3] 3]) false)).completion
      = Completion.returned 1 ∧
    (ProcessSU3Stream demoReseedEnv 100
      (IStream.open (demoArchive [descriptorEntry 0 [1, 2, 3] 3]) false)).added
      = [[1, 2, 3, 0x50, 0x4B, 0x07, 0x08]] := by
  refine ⟨?_, ?_, ?_, ?_, ?_, ?_⟩
  · unfold SU3File.wellFormed
    decide
  · decide
  · decide
  · decide
  · decide
  · decide

/-- C10 (amended): for every SU3 file with a well-formed header whose content
is the ZIP stream of local files that are each well-formed (non-empty data,
name shorter than 255 bytes, sizes in the header, or deflated with a data
descriptor that the matcher finds and an inflator that ignores the four
signature bytes behind the data), followed by nothing or by bytes that are not
a local file signature, `ProcessSU3Stream` returns the number of local files
and has called `AddRouterInfo` once per local file, in file order, with exactly
the bytes of its router descriptor. -/
theorem C10_su3_roundtrip (env : ReseedEnv) (fuel : Nat) (sp : Bool) (f : SU3File)
    (entries : List ZipEntry) (ds : List (List Nat)) (trailer signature : List Nat)
    (hf : f.wellFormed)
    (hwf : ∀ e ∈ entries, e.wellFormed env)
    (hds : entries.map (ZipEntry.descriptor env) = ds.map some)
    (hlen : f.contentLength = (zipBytes entries).length + trailer.length)
    (htr : (trailer = [] ∧ entries ≠ []) ∨
      (4 ≤ trailer.length ∧ le32toh (trailer.take 4) ≠ ZIP_HEADER_SIGNATURE))
    (hsize : (f.prefixBytes ++ zipBytes entries).length < 18446744073709551616)
    (hfuel : (zipBytes entries).length < fuel) :
    (ProcessSU3Stream env fuel (IStream.open (f.bytes entries trailer signature) sp)).completion
      = Completion.returned entries.length ∧
    (ProcessSU3Stream env fuel (IStream.open (f.bytes entries trailer signature) sp)).added = ds ∧
    ds.length = entries.length := by
  have hloop := su3Loop_entries env fuel f.prefixBytes.length f.contentLength sp trailer signature
    (htr.imp (fun h => h.1) (fun h => h)) entries ds fuel f.prefixBytes 0 [] env.locals
    (fun e he => ⟨hwf e he, by have := compressed_lt_zipBytes entries e he; omega⟩) hds
    (fun ht => by
      rcases htr with h | h
      · exact h.2
      · rw [ht] at h
        exact absurd h.1 (by decide))
    (Nat.le_refl _) (by omega) hsize
    (by have := length_le_zipBytes entries; omega)
  unfold SU3File.bytes
  rw [ProcessSU3Stream_header env fuel sp f _ hf]
  refine ⟨?_, ?_, ?_⟩
  · rw [hloop.1, Nat.zero_add]
  · rw [hloop.2, List.nil_append]
  · have := congrArg List.length hds
    simp only [List.length_map] at this
    exact this.symm

set_option maxRecDepth 100000 in
/-- Witness for C10: an archive of four local files (stored, deflated,
deflated with data descriptor, stored) followed by a central directory and a
signature. -/
theorem C10_su3_roundtrip_witness :
    (ProcessSU3Stream demoReseedEnv 1000 (IStream.open
      ((demoSU3 163).bytes demoEntries demoTrailer [0xEE, 0xEE]) false)).completion
      = Completion.returned 4 ∧
    (ProcessSU3Stream demoReseedEnv 1000 (IStream.open
      ((demoSU3 163).bytes demoEntries demoTrailer [0xEE, 0xEE]) false)).added
      = [[1, 2, 3], [7, 8, 9], [6, 5], [5]] ∧
    [[1, 2, 3], [7, 8, 9], [6, 5], [5]].length = demoEntries.length :=
  C10_su3_roundtrip demoReseedEnv 1000 false (demoSU3 163) demoEntries
    [[1, 2, 3], [7, 8, 9], [6, 5], [5]] demoTrailer [0xEE, 0xEE]
    (by unfold SU3File.wellFormed; decide)
    (by
      intro e he
      simp only [demoEntries, List.mem_cons, List.mem_singleton, List.not_mem_nil,
        or_false] at he
      rcases he with rfl | rfl | rfl | rfl
      · exact ⟨by unfold ZipEntry.fieldsOK; decide, by decide, by decide, by decide,
          fun h => absurd rfl h⟩
      · exact ⟨by unfold ZipEntry.fieldsOK; decide, by decide, by decide, by decide,
          fun _ => ⟨[7, 8, 9], by decide, by decide⟩⟩
      · exact ⟨by unfold ZipEntry.fieldsOK; decide, by decide, by decide, by decide, by decide,
          by decide, by decide, by decide, [6, 5], by decide, by decide, by decide⟩
      · exact ⟨by unfold ZipEntry.fieldsOK; decide, by decide, by decide, by decide,
          fun h => absurd rfl h⟩)
    (by decide) (by decide) (Or.inr ⟨by decide, by decide⟩) (by decide) (by decide)

/-- `su3File` on a record of which the data `x` is read and whose inflated
data is not longer than the header or data descriptor says: what is handed over
is the buffer of the size said, and the stream is behind the record. -/
theorem su3File_read_le (env : ReseedEnv) (contentPos contentLength : Nat) (sp : Bool)
    (pre x tail post d : List Nat) (h : LocalFileHeader) (numFiles : Nat)
    (added : List (List Nat))
    (hs : h.stream = IStream.mkAt sp pre (x ++ (tail ++ post)))
    (hx : x.length = h.compressedSize) (hx0 : 0 < x.length)
    (htail : if h.bitFlag &&& ZIP_BIT_FLAG_DATA_DESCRIPTOR ≠ 0 then tail.length = 12
      else tail = [])
    (hd : if h.compressionMethod ≠ 0 then
        ∃ r, env.inflate x = some r ∧ r.length ≤ h.uncompressedSize ∧
          d = stored h.uncompressedSize (env.indeterminate h.uncompressedSize)
            (r.take h.uncompressedSize)
      else d = x)
    (hpos : contentPos ≤ pre.length)
    (hsize : (pre ++ x ++ tail).length < 18446744073709551616) :
    su3File env contentPos contentLength h numFiles added =
      if contentLength ≤ (pre ++ x ++ tail).length - contentPos then
        LoopStep.done { completion := Completion.returned (numFiles + 1), added := added ++ [d],
                        stream := IStream.mkAt sp (pre ++ x ++ tail) post }
      else LoopStep.next (IStream.mkAt sp (pre ++ x ++ tail) post) (numFiles + 1)
        (added ++ [d]) h.locals := by
  have hne : h.compressedSize ≠ 0 := by omega
  have hskip : (if h.bitFlag &&& ZIP_BIT_FLAG_DATA_DESCRIPTOR ≠ 0 then
        (IStream.mkAt sp (pre ++ x) (tail ++ post)).seekg_cur 12
      else IStream.mkAt sp (pre ++ x) (tail ++ post))
      = IStream.mkAt sp (pre ++ x ++ tail) post := by
    split
    · rename_i hb
      rw [if_pos hb] at htail
      rw [seekg_cur_mkAt sp _ tail post 12 htail]
    · rename_i hb
      rw [if_neg hb] at htail
      rw [htail, List.nil_append, List.append_nil]
  have hproc : processLocalFile env h numFiles added
      = some (numFiles + 1, added ++ [d], IStream.mkAt sp (pre ++ x ++ tail) post) := by
    unfold processLocalFile
    simp only [hs, read_mkAt sp pre x (tail ++ post) h.compressedSize hx,
      stored_full _ x h.compressedSize hx, hskip]
    by_cases hm : h.compressionMethod ≠ 0
    · rw [if_pos hm] at hd
      obtain ⟨r, hr1, hr2, hr3⟩ := hd
      rw [if_pos hm]
      simp only [hr1]
      rw [if_pos hr2, hr3]
    · rw [if_neg hm] at hd
      rw [if_neg hm, hd]
  unfold su3File
  rw [if_neg hne]
  simp only [hproc, tellg_mkAt]
  have het := endTest (pre ++ x ++ tail).length contentPos
    (by simp only [List.length_append] at hsize ⊢; omega) hsize
  simp only [het, ge_iff_le]

/-- One turn of the loop on a record with a data descriptor that the matcher
of `FindZipDataDescriptor` finds: the data and the four signature bytes are
taken for the compressed data. -/
theorem su3Body_descriptor (env : ReseedEnv) (innerFuel contentPos contentLength : Nat)
    (sp : Bool) (pre post d : List Nat) (e : ZipEntry) (dd : DataDescriptor) (numFiles : Nat)
    (added : List (List Nat)) (locals : SU3Locals)
    (hf : e.fieldsOK) (hdd : e.dataDescriptor = some dd)
    (hbit : e.bitFlag &&& ZIP_BIT_FLAG_DATA_DESCRIPTOR ≠ 0)
    (hcrc : dd.crc.length = 4) (hcs : dd.compressedSize = e.compressed.length)
    (hc32 : e.compressed.length + 4 < 4294967296) (hus : dd.uncompressedSize < 4294967296)
    (hscan : descriptorScan e.compressed 0 = some 0)
    (hd : if e.compressionMethod ≠ 0 then
        ∃ r, env.inflate (e.compressed ++ ZIP_DATA_DESCRIPTOR_SIGNATURE) = some r ∧
          r.length ≤ dd.uncompressedSize ∧
          d = stored dd.uncompressedSize (env.indeterminate dd.uncompressedSize)
            (r.take dd.uncompressedSize)
      else d = e.compressed ++ ZIP_DATA_DESCRIPTOR_SIGNATURE)
    (hpos : contentPos ≤ pre.length)
    (hsize : (pre ++ e.bytes).length < 18446744073709551616)
    (hfuel : e.compressed.length + 4 < innerFuel) :
    su3Body env innerFuel contentPos contentLength (IStream.mkAt sp pre (e.bytes ++ post))
        numFiles added locals =
      if contentLength ≤ (pre ++ e.bytes).length - contentPos then
        LoopStep.done { completion := Completion.returned (numFiles + 1), added := added ++ [d],
                        stream := IStream.mkAt sp (pre ++ e.bytes) post }
      else LoopStep.next (IStream.mkAt sp (pre ++ e.bytes) post) (numFiles + 1)
        (added ++ [d]) e.locals := by
  have hname : ¬ (e.fileName.length ≥ 255) := by
    have := hf.2.2.2.2.2.2.1
    omega
  have hb : e.bytes ++ post = htole32 ZIP_HEADER_SIGNATURE ++
      (e.headerBytes ++ (e.compressed ++ (e.descriptorBytes ++ post))) := by
    simp only [ZipEntry.bytes, List.append_assoc]
  have hsig : le32toh (htole32 ZIP_HEADER_SIGNATURE) = ZIP_HEADER_SIGNATURE :=
    le32toh_htole32 _ (by decide)
  unfold su3Body
  simp only [hb, readVar_mkAt _ sp pre _ _ 4 (htole32_length _), hsig, if_true,
    readLocalFileHeader_bytes locals sp _ _ e hf, hname, if_false]
  have hdb : e.descriptorBytes = ZIP_DATA_DESCRIPTOR_SIGNATURE ++
      (dd.crc ++ (htole32 dd.compressedSize ++ htole32 dd.uncompressedSize)) := by
    simp only [ZipEntry.descriptorBytes, hdd, DataDescriptor.bytes]
  have hwhole : pre ++ htole32 ZIP_HEADER_SIGNATURE ++ e.headerBytes ++
      (e.compressed ++ ZIP_DATA_DESCRIPTOR_SIGNATURE) ++
      (dd.crc ++ (htole32 dd.compressedSize ++ htole32 dd.uncompressedSize))
      = pre ++ e.bytes := by
    simp only [ZipEntry.bytes, hdb, List.append_assoc]
  obtain ⟨f0, hf0⟩ : ∃ f0, innerFuel = (f0 + 4) + e.compressed.length :=
    ⟨innerFuel - 4 - e.compressed.length, by omega⟩
  have hfind : FindZipDataDescriptor env innerFuel
      (IStream.mkAt sp (pre ++ htole32 ZIP_HEADER_SIGNATURE ++ e.headerBytes)
        (e.compressed ++ (e.descriptorBytes ++ post)))
      = some (true, IStream.mkAt sp
          (pre ++ htole32 ZIP_HEADER_SIGNATURE ++ e.headerBytes ++
            (e.compressed ++ ZIP_DATA_DESCRIPTOR_SIGNATURE))
          (dd.crc ++ (htole32 dd.compressedSize ++ (htole32 dd.uncompressedSize ++ post)))) := by
    unfold FindZipDataDescriptor
    have hrest : ZIP_DATA_DESCRIPTOR_SIGNATURE ++
        (dd.crc ++ (htole32 dd.compressedSize ++ htole32 dd.uncompressedSize)) ++ post
        = ZIP_DATA_DESCRIPTOR_SIGNATURE ++
          (dd.crc ++ (htole32 dd.compressedSize ++ (htole32 dd.uncompressedSize ++ post))) := by
      simp only [List.append_assoc]
    rw [hf0, findLoop_data sp e.compressed (f0 + 4) 0 0 _ _ _ hscan, hdb, hrest,
      findLoop_signature]
    simp only [List.append_assoc]
  rw [if_pos hbit]
  simp only [hfind, tellg_mkAt]
  rw [readDataDescriptor_bytes sp _ _ post _ dd hcrc (by omega) hus]
  rw [su3File_read_le env contentPos contentLength sp
    (pre ++ htole32 ZIP_HEADER_SIGNATURE ++ e.headerBytes)
    (e.compressed ++ ZIP_DATA_DESCRIPTOR_SIGNATURE)
    (dd.crc ++ (htole32 dd.compressedSize ++ htole32 dd.uncompressedSize)) post d _ numFiles
    added rfl ?_ ?_ ?_ ?_ (by simp only [List.length_append]; omega)
    (by rw [hwhole]; exact hsize), hwhole]
  · simp only [LocalFileHeader.locals, ZipEntry.locals, hdd]
  · simp only [List.length_append, hcs]
    rfl
  · simp only [List.length_append]
    have : ZIP_DATA_DESCRIPTOR_SIGNATURE.length = 4 := rfl
    omega
  · show (if e.bitFlag &&& ZIP_BIT_FLAG_DATA_DESCRIPTOR ≠ 0 then _ else _)
    rw [if_pos hbit]
    simp only [List.length_append, hcrc, htole32_length]
  · exact hd

/-- Counterexample to C11 as stated: a valid archive whose one local file has
bit 0x0008 set, zero sizes in its header, sixteen bytes of (stored) data and a
valid data descriptor behind them.  The data start with `50 4B 07 08`, so the
matcher stops there, the size read is `FFFFFFFC + 4 = 0`, the file is skipped
and `ProcessSU3Stream` returns 0. -/
theorem C11_signature_bytes_in_payload :
    (demoSU3 64).wellFormed ∧
    demoArchive [maskingEntry] = (demoSU3 64).bytes [maskingEntry] [] [] ∧
    maskingEntry.bitFlag = 0x0008 ∧ maskingEntry.compressedSize = 0 ∧
    maskingEntry.uncompressedSize = 0 ∧
    maskingEntry.bytes = htole32 ZIP_HEADER_SIGNATURE ++ maskingEntry.headerBytes ++
      maskingData ++ ZIP_DATA_DESCRIPTOR_SIGNATURE ++ [0x6A, 0x00, 0x71, 0x1B] ++
      htole32 16 ++ htole32 16 ∧
    (ProcessSU3Stream demoReseedEnv 200
      (IStream.open (demoArchive [maskingEntry]) false)).completion = Completion.returned 0 ∧
    (ProcessSU3Stream demoReseedEnv 200
      (IStream.open (demoArchive [maskingEntry]) false)).added = [] := by
  refine ⟨?_, ?_, ?_, ?_, ?_, ?_, ?_, ?_⟩
  · unfold SU3File.wellFormed
    decide
  · decide
  · decide
  · decide
  · decide
  · decide
  · decide
  · decide

/-- C11 (amended): for every SU3 file with a well-formed header whose content
is one local file with bit 0x0008 set, followed by its data and a data
descriptor with the length of the data, and then by nothing or by bytes that
are not a local file signature, `ProcessSU3Stream` returns 1 and has called
`AddRouterInfo` once, provided the matcher of `FindZipDataDescriptor` finds
no signature in the data and has no byte matched at their end, and, when the
file is compressed, the inflator yields from the data and the four signature
bytes no more bytes than the data descriptor says. -/
theorem C11_data_descriptor_record (env : ReseedEnv) (fuel : Nat) (sp : Bool) (f : SU3File)
    (e : ZipEntry) (dd : DataDescriptor) (trailer signature : List Nat)
    (hf : f.wellFormed) (he : e.fieldsOK) (hdd : e.dataDescriptor = some dd)
    (hbit : e.bitFlag &&& ZIP_BIT_FLAG_DATA_DESCRIPTOR ≠ 0)
    (hcrc : dd.crc.length = 4) (hcs : dd.compressedSize = e.compressed.length)
    (hc32 : e.compressed.length + 4 < 4294967296) (hus : dd.uncompressedSize < 4294967296)
    (hscan : descriptorScan e.compressed 0 = some 0)
    (hinfl : e.compressionMethod ≠ 0 →
      ∃ r, env.inflate (e.compressed ++ ZIP_DATA_DESCRIPTOR_SIGNATURE) = some r ∧
        r.length ≤ dd.uncompressedSize)
    (hlen : f.contentLength = e.bytes.length + trailer.length)
    (htr : trailer = [] ∨
      (4 ≤ trailer.length ∧ le32toh (trailer.take 4) ≠ ZIP_HEADER_SIGNATURE))
    (hsize : (f.prefixBytes ++ e.bytes).length < 18446744073709551616)
    (hfuel : e.bytes.length < fuel) :
    (ProcessSU3Stream env fuel (IStream.open (f.bytes [e] trailer signature) sp)).completion
      = Completion.returned 1 ∧
    (ProcessSU3Stream env fuel
      (IStream.open (f.bytes [e] trailer signature) sp)).added.length = 1 := by
  obtain ⟨d, hd⟩ : ∃ d, if e.compressionMethod ≠ 0 then
        ∃ r, env.inflate (e.compressed ++ ZIP_DATA_DESCRIPTOR_SIGNATURE) = some r ∧
          r.length ≤ dd.uncompressedSize ∧
          d = stored dd.uncompressedSize (env.indeterminate dd.uncompressedSize)
            (r.take dd.uncompressedSize)
      else d = e.compressed ++ ZIP_DATA_DESCRIPTOR_SIGNATURE := by
    by_cases hm : e.compressionMethod ≠ 0
    · obtain ⟨r, hr1, hr2⟩ := hinfl hm
      exact ⟨_, by rw [if_pos hm]; exact ⟨r, hr1, hr2, rfl⟩⟩
    · exact ⟨_, by rw [if_neg hm]⟩
  have hblen : e.compressed.length + 4 ≤ e.bytes.length := by
    simp only [ZipEntry.bytes, List.length_append, htole32_length]
    omega
  have hbody := su3Body_descriptor env fuel f.prefixBytes.length f.contentLength sp
    f.prefixBytes (trailer ++ signature) d e dd 0 [] env.locals he hdd hbit hcrc hcs hc32 hus
    hscan hd
    (Nat.le_refl _) hsize (by omega)
  obtain ⟨g, rfl⟩ : ∃ g, fuel = g + 1 := ⟨fuel - 1, by omega⟩
  have hz : zipBytes [e] ++ (trailer ++ signature) = e.bytes ++ (trailer ++ signature) := by
    simp only [zipBytes, List.map_cons, List.map_nil, List.flatten_cons, List.flatten_nil,
      List.append_nil]
  unfold SU3File.bytes
  rw [ProcessSU3Stream_header env (g + 1) sp f _ hf, hz]
  unfold su3Loop
  simp only [eof_mkAt, Bool.false_eq_true, if_false, hbody]
  by_cases hend : f.contentLength ≤ (f.prefixBytes ++ e.bytes).length - f.prefixBytes.length
  · simp only [if_pos hend, List.nil_append, List.length_singleton, and_self]
  · simp only [if_neg hend]
    have hloop := su3Loop_entries env (g + 1) f.prefixBytes.length f.contentLength sp trailer
      signature htr [] [] g (f.prefixBytes ++ e.bytes) 1 [d] e.locals
      (fun e2 h2 => absurd h2 (List.not_mem_nil _)) rfl
      (fun ht => by
        exfalso
        apply hend
        rw [ht] at hlen
        simp only [List.length_append, List.length_nil] at hlen ⊢
        omega)
      (by simp only [List.length_append]; omega)
      (by simp only [zipBytes, List.map_nil, List.flatten_nil, List.length_append,
            List.length_nil]; omega)
      (by simpa only [zipBytes, List.map_nil, List.flatten_nil, List.append_nil] using hsize)
      (by simp only [List.length_nil]; omega)
    simp only [zipBytes, List.map_nil, List.flatten_nil, List.nil_append, List.length_nil,
      Nat.add_zero, List.append_nil] at hloop
    simp only [Nat.zero_add, List.nil_append]
    rw [hloop.1, hloop.2]
    exact ⟨rfl, rfl⟩

set_option maxRecDepth 100000 in
/-- Witness for C11: one stored local file with bit 0x0008, zero sizes in the
header, the data `01 02 03` and a data descriptor, followed by a central
directory and a signature. -/
theorem C11_data_descriptor_record_witness :
    (ProcessSU3Stream demoReseedEnv 100 (IStream.open
      ((demoSU3 57).bytes [descriptorEntry 0 [1, 2, 3] 3] demoTrailer [0xEE, 0xEE])
      false)).completion = Completion.returned 1 ∧
    (ProcessSU3Stream demoReseedEnv 100 (IStream.open
      ((demoSU3 57).bytes [descriptorEntry 0 [1, 2, 3] 3] demoTrailer [0xEE, 0xEE])
      false)).added.length = 1 :=
  C11_data_descriptor_record demoReseedEnv 100 false (demoSU3 57)
    (descriptorEntry 0 [1, 2, 3] 3)
    { crc := [1, 2, 3, 4], compressedSize := 3, uncompressedSize := 3 } demoTrailer [0xEE, 0xEE]
    (by unfold SU3File.wellFormed; decide) (by unfold ZipEntry.fieldsOK; decide) rfl
    (by decide) (by decide) (by decide) (by decide) (by decide) (by decide)
    (fun h => absurd rfl h) (by decide) (Or.inr ⟨by decide, by decide⟩) (by decide)
    (by decide)

theorem resubmitted_Terminate (s : NTCPSession) :
    resubmitted (Terminate s) = resubmitted s ++
      (match s.m_RemoteRouter with
       | some ident => s.m_DelayedMessages.map (fun m => (ident, m))
       | none => []) := by
  rw [Terminate_eq]
  cases h : s.m_RemoteRouter with
  | none => simp [resubmitted, List.filterMap_append]
  | some ident =>
    have hmap : List.filterMap (fun x => some (ident, x)) s.m_DelayedMessages
        = List.map (fun m => (ident, m)) s.m_DelayedMessages :=
      List.filterMap_eq_map (fun m => (ident, m)) ▸ rfl
    simp [resubmitted, List.filterMap_append, List.filterMap_map, Function.comp_def, hmap]

/-- Counterexample to C12 as stated: a session accepted inbound (no remote
router object) with two delayed messages resubmits none of them in `Terminate`. -/
theorem C12_inbound_not_resubmitted :
    inboundSession.m_RemoteRouter = none ∧
    inboundSession.m_DelayedMessages = [demoMsg, demoMsg2] ∧
    resubmitted (Terminate inboundSession) = [] ∧
    (Terminate inboundSession).m_DelayedMessages = [] := by
  refine ⟨rfl, rfl, ?_, ?_⟩
  · decide
  · decide

/-- C12 (amended): `Terminate` leaves the delay queue empty; when the session
has a remote router object it resubmits each delayed message to the transport
through `transports.SendMessage` under the identity hash of that router, in
queue order, and when it has none (accepted inbound) it resubmits nothing. -/
theorem C12_terminate_resubmits (s : NTCPSession) :
    (Terminate s).m_DelayedMessages = [] ∧
    resubmitted (Terminate s) = resubmitted s ++
      (match s.m_RemoteRouter with
       | some ident => s.m_DelayedMessages.map (fun m => (ident, m))
       | none => []) := by
  refine ⟨?_, resubmitted_Terminate s⟩
  rw [Terminate_eq]

/-- C13: `Terminate` after `Terminate` changes no field of the session (it
is not established and its delay queue is empty, as after the first call); the
second call closes the socket and calls `RemoveNTCPSession` again and resubmits
no message. -/
theorem C13_terminate_idempotent (s : NTCPSession) :
    Terminate (Terminate s) =
      { Terminate s with
        trace := (Terminate s).trace ++ [Event.socket_close, Event.RemoveNTCPSession] } ∧
    (Terminate (Terminate s)).m_IsEstablished = false ∧
    (Terminate (Terminate s)).m_DelayedMessages = [] ∧
    (Terminate s).m_IsEstablished = false ∧
    (Terminate s).m_DelayedMessages = [] ∧
    resubmitted (Terminate (Terminate s)) = resubmitted (Terminate s) := by
  have h1 : (Terminate s).m_DelayedMessages = [] := by rw [Terminate_eq]
  have h2 : (Terminate s).m_IsEstablished = false := by rw [Terminate_eq]
  have h3 : resubmitted (Terminate (Terminate s)) = resubmitted (Terminate s) := by
    rw [resubmitted_Terminate (Terminate s), h1]
    cases (Terminate s).m_RemoteRouter <;> simp
  refine ⟨?_, ?_, ?_, h2, h1, h3⟩
  · rw [Terminate_eq (Terminate s), h1]
    cases hr : (Terminate s).m_RemoteRouter <;>
      simp [List.append_assoc, h2, h1, hr]
  · rw [Terminate_eq (Terminate s)]
  · rw [Terminate_eq (Terminate s)]

set_option maxRecDepth 100000 in
/-- C14 (code bug): when `dh.Agree` rejects the public key of the peer,
`CreateAESKey` calls `Terminate` and returns, and its caller goes on.  On the
initiator `HandlePhase2Received` then finds the hash wrong and calls
`Terminate` again, so one callback invokes `RemoveNTCPSession` twice; on the
responder `SendPhase2` still writes phase 2, and when that write fails
`HandlePhase2Sent` calls `Terminate` the second time. -/
theorem C14_remove_session_twice :
    terminateCount demoSession = 0 ∧
    (HandlePhase2Received strictEnv demoSession ErrorCode.success zeroPhase2).map terminateCount
      = some 2 ∧
    (HandlePhase1Received strictEnv demoSession ErrorCode.success zeroPhase1).map terminateCount
      = some 1 ∧
    (HandlePhase1Received strictEnv demoSession ErrorCode.success zeroPhase1).map
      (fun s => terminateCount (HandlePhase2Sent s ErrorCode.failure (htobe32 strictEnv.now)))
      = some 2 := by
  refine ⟨?_, ?_, ?_, ?_⟩
  · decide
  · decide
  · decide
  · decide

/-- `Send` hands one frame to the write path and leaves the established
flag, the delay queue, the establisher and the DH key pair as they are. -/
theorem Send_fields (env : Env) (s : NTCPSession) (msg : Option I2NPMessage) :
    (Send env s msg).m_IsEstablished = s.m_IsEstablished ∧
    (Send env s msg).m_DelayedMessages = s.m_DelayedMessages ∧
    (Send env s msg).m_Establisher = s.m_Establisher ∧
    (Send env s msg).m_DHKeysPair = s.m_DHKeysPair ∧
    sendCalls (Send env s msg) = sendCalls s ++ [msg] := by
  cases msg with
  | none => simp [Send, NTCPSession.emit, sendCalls, List.filterMap_append]
  | some m =>
    by_cases h : m.offset < 2
    · simp [Send, NTCPSession.emit, sendCalls, List.filterMap_append, h]
    · simp [Send, NTCPSession.emit, sendCalls, List.filterMap_append, h]

/-- On an established session `SendI2NPMessage` of a message is `Send`. -/
theorem SendI2NPMessage_established (env : Env) (s : NTCPSession) (m : I2NPMessage)
    (h : s.m_IsEstablished = true) : SendI2NPMessage env s (some m) = Send env s (some m) := by
  simp only [SendI2NPMessage, h, if_true]

/-- The loop of `Connected` over the delay queue of an established session. -/
theorem drain_foldl (env : Env) (l : List I2NPMessage) (s : NTCPSession)
    (h : s.m_IsEstablished = true) :
    (l.foldl (fun (s : NTCPSession) it => SendI2NPMessage env s (some it)) s).m_IsEstablished
      = true ∧
    (l.foldl (fun (s : NTCPSession) it => SendI2NPMessage env s (some it)) s).m_Establisher
      = s.m_Establisher ∧
    (l.foldl (fun (s : NTCPSession) it => SendI2NPMessage env s (some it)) s).m_DHKeysPair
      = s.m_DHKeysPair ∧
    sendCalls (l.foldl (fun (s : NTCPSession) it => SendI2NPMessage env s (some it)) s)
      = sendCalls s ++ l.map some := by
  induction l generalizing s with
  | nil => simp [h]
  | cons a l ih =>
    have hs := Send_fields env s (some a)
    have hstep := SendI2NPMessage_established env s a h
    rw [List.foldl_cons, hstep]
    obtain ⟨i1, i2, i3, i4⟩ := ih (Send env s (some a)) (by rw [hs.1, h])
    refine ⟨i1, ?_, ?_, ?_⟩
    · rw [i2, hs.2.2.1]
    · rw [i3, hs.2.2.2.1]
    · rw [i4, hs.2.2.2.2, List.map_cons, List.append_assoc, List.singleton_append]

/-- The state `Connected` leaves: the frames handed to the write path and
the fields it sets. -/
theorem Connected_spec (env : Env) (s : NTCPSession) :
    sendCalls (Connected env s) = sendCalls s ++
      ([none, some env.CreateDatabaseStoreMsg] ++ s.m_DelayedMessages.map some) ∧
    (Connected env s).m_IsEstablished = true ∧
    (Connected env s).m_DelayedMessages = [] ∧
    (Connected env s).m_Establisher = none ∧
    (Connected env s).m_DHKeysPair = none := by
  have h1 := Send_fields env
    { s with m_IsEstablished := true, m_Establisher := none, m_DHKeysPair := none } none
  have h2 := Send_fields env (Send env
    { s with m_IsEstablished := true, m_Establisher := none, m_DHKeysPair := none } none)
    (some env.CreateDatabaseStoreMsg)
  have he := SendI2NPMessage_established env (Send env
    { s with m_IsEstablished := true, m_Establisher := none, m_DHKeysPair := none } none)
    env.CreateDatabaseStoreMsg (by rw [h1.1])
  have hq : (Send env (Send env
      { s with m_IsEstablished := true, m_Establisher := none, m_DHKeysPair := none } none)
      (some env.CreateDatabaseStoreMsg)).m_DelayedMessages = s.m_DelayedMessages := by
    rw [h2.2.1, h1.2.1]
  have hcalls : sendCalls (Send env (Send env
      { s with m_IsEstablished := true, m_Establisher := none, m_DHKeysPair := none } none)
      (some env.CreateDatabaseStoreMsg)) = sendCalls s ++ [none, some env.CreateDatabaseStoreMsg] := by
    rw [h2.2.2.2.2, h1.2.2.2.2]
    simp [sendCalls]
  have hd := drain_foldl env s.m_DelayedMessages (Send env (Send env
      { s with m_IsEstablished := true, m_Establisher := none, m_DHKeysPair := none } none)
      (some env.CreateDatabaseStoreMsg)) (by rw [h2.1, h1.1])
  unfold Connected SendTimeSyncMessage
  simp only [he, hq]
  by_cases hne : s.m_DelayedMessages ≠ []
  · rw [if_pos hne]
    refine ⟨?_, hd.1, rfl, ?_, ?_⟩
    · show sendCalls (List.foldl _ _ _) = _
      rw [hd.2.2.2, hcalls, List.append_assoc]
    · show NTCPSession.m_Establisher (List.foldl _ _ _) = _
      rw [hd.2.1, h2.2.2.1, h1.2.2.1]
    · show NTCPSession.m_DHKeysPair (List.foldl _ _ _) = _
      rw [hd.2.2.1, h2.2.2.2.1, h1.2.2.2.1]
  · rw [if_neg hne]
    have h0 : s.m_DelayedMessages = [] := by
      by_contra hc
      exact hne hc
    refine ⟨?_, ?_, ?_, ?_, ?_⟩
    · rw [hcalls, h0, List.map_nil, List.append_nil]
    · rw [h2.1, h1.1]
    · rw [hq, h0]
    · rw [h2.2.2.1, h1.2.2.1]
    · rw [h2.2.2.2.1, h1.2.2.2.1]

/-- C15: the `Send` calls `Connected` makes are, in this order, the time-sync
message (`Send (nullptr)`), the DatabaseStore message, and the delayed messages
in queue order; afterwards the session is established, the delay queue is
empty, and the establisher and the DH key pair are released. -/
theorem C15_connected_drains_queue (env : Env) (s : NTCPSession) :
    sendCalls (Connected env s) = sendCalls s ++
      ([none, some env.CreateDatabaseStoreMsg] ++ s.m_DelayedMessages.map some) ∧
    (Connected env s).m_IsEstablished = true ∧
    (Connected env s).m_DelayedMessages = [] ∧
    (Connected env s).m_Establisher = none ∧
    (Connected env s).m_DHKeysPair = none :=
  Connected_spec env s

/-- Each session operation keeps: an established session has an empty delay queue. -/
theorem run_keeps_queue_empty (env : Env) (s : NTCPSession) (op : SessionOp)
    (h : s.m_IsEstablished = true → s.m_DelayedMessages = []) :
    (op.run env s).m_IsEstablished = true → (op.run env s).m_DelayedMessages = [] := by
  cases op with
  | send msg =>
    cases msg with
    | none => exact h
    | some m =>
      by_cases he : s.m_IsEstablished = true
      · have hs := Send_fields env s (some m)
        simp only [SessionOp.run, SendI2NPMessage_established env s m he]
        intro _
        rw [hs.2.1]
        exact h he
      · simp only [SessionOp.run, SendI2NPMessage, he, Bool.false_eq_true, if_false]
        intro hc
        exact hc.elim
  | connected =>
    intro _
    exact (Connected_spec env s).2.2.1
  | terminate =>
    intro hc
    simp only [SessionOp.run] at hc ⊢
    rw [Terminate_eq]

/-- C16: in every state reached from a state that is not established, or is
established with an empty delay queue, through `SendI2NPMessage`, `Connected`
and `Terminate` in any order, an established session has an empty delay queue. -/
theorem C16_established_queue_empty (env : Env) (ops : List SessionOp) (s : NTCPSession)
    (h : s.m_IsEstablished = true → s.m_DelayedMessages = []) :
    (runOps env s ops).m_IsEstablished = true → (runOps env s ops).m_DelayedMessages = [] := by
  induction ops generalizing s with
  | nil => exact h
  | cons op ops ih =>
    simp only [runOps, List.foldl_cons]
    exact ih (op.run env s) (run_keeps_queue_empty env s op h)

set_option maxRecDepth 100000 in
/-- Witness for C16: two messages are queued on a fresh session, `Connected`
drains them, and a third message goes straight to the write path. -/
theorem C16_established_queue_empty_witness :
    (runOps demoEnv demoSession
      [SessionOp.send (some demoMsg), SessionOp.send (some demoMsg2), SessionOp.connected,
       SessionOp.send (some demoMsg)]).m_IsEstablished = true ∧
    (runOps demoEnv demoSession
      [SessionOp.send (some demoMsg), SessionOp.send (some demoMsg2), SessionOp.connected,
       SessionOp.send (some demoMsg)]).m_DelayedMessages = [] :=
  ⟨by decide, C16_established_queue_empty demoEnv
    [SessionOp.send (some demoMsg), SessionOp.send (some demoMsg2), SessionOp.connected,
     SessionOp.send (some demoMsg)] demoSession (fun h => absurd h (by decide)) (by decide)⟩

theorem terminateCount_emit (s : NTCPSession) (e : Event) (h : e ≠ Event.RemoveNTCPSession) :
    terminateCount (s.emit e) = terminateCount s := by
  simp only [terminateCount, NTCPSession.emit, List.count_append, List.count_cons,
    List.count_nil, beq_iff_eq, h, if_false, Nat.add_zero]

theorem terminateCount_dropKeys (s : NTCPSession) :
    terminateCount { s with m_DHKeysPair := none } = terminateCount s := rfl

/-- Counterexample to C17 as stated: `HandleSent` called with an error that
is not a cancellation does not call `Terminate`, and `HandleReceived` called
with `operation_aborted` does. -/
theorem C17_sent_and_received_differ :
    terminateCount demoSession = 0 ∧
    terminateCount (HandleSent demoSession ErrorCode.failure 0 (some demoMsg)) = 0 ∧
    terminateCount (HandleSent demoSession ErrorCode.failure 0 none) = 0 ∧
    terminateCount (HandleReceived demoEnv demoSession ErrorCode.operation_aborted []) = 1 := by
  refine ⟨?_, ?_, ?_, ?_⟩
  · decide
  · decide
  · decide
  · decide

/-- C17 (amended): called with an error code, each of the nine handshake
callbacks calls `Terminate` once when the error is not `operation_aborted`
and not at all when it is; `HandleReceived` calls `Terminate` once for every
error, `operation_aborted` included; `HandleSent` never calls it. -/
theorem C17_callbacks_on_error (env : Env) (s : NTCPSession) (ecode : ErrorCode)
    (data tsA tsB : List Nat) (paddingLen bytes_transferred : Nat) (msg : Option I2NPMessage)
    (herr : ecode ≠ ErrorCode.success) :
    terminateCount (HandlePhase1Sent s ecode)
      = terminateCount s + (if ecode = ErrorCode.operation_aborted then 0 else 1) ∧
    (HandlePhase1Received env s ecode data).map terminateCount
      = some (terminateCount s + (if ecode = ErrorCode.operation_aborted then 0 else 1)) ∧
    terminateCount (HandlePhase2Sent s ecode tsB)
      = terminateCount s + (if ecode = ErrorCode.operation_aborted then 0 else 1) ∧
    (HandlePhase2Received env s ecode data).map terminateCount
      = some (terminateCount s + (if ecode = ErrorCode.operation_aborted then 0 else 1)) ∧
    terminateCount (HandlePhase3Sent s ecode tsA)
      = terminateCount s + (if ecode = ErrorCode.operation_aborted then 0 else 1) ∧
    (HandlePhase3Received env s ecode data tsB).map terminateCount
      = some (terminateCount s + (if ecode = ErrorCode.operation_aborted then 0 else 1)) ∧
    (HandlePhase3ExtraReceived env s ecode data tsB paddingLen).map terminateCount
      = some (terminateCount s + (if ecode = ErrorCode.operation_aborted then 0 else 1)) ∧
    terminateCount (HandlePhase4Sent env s ecode)
      = terminateCount s + (if ecode = ErrorCode.operation_aborted then 0 else 1) ∧
    (HandlePhase4Received env s ecode data tsA).map terminateCount
      = some (terminateCount s + (if ecode = ErrorCode.operation_aborted then 0 else 1)) ∧
    terminateCount (HandleReceived env s ecode data) = terminateCount s + 1 ∧
    terminateCount (HandleSent s ecode bytes_transferred msg) = terminateCount s := by
  have hsent : terminateCount (HandleSent s ecode bytes_transferred msg) = terminateCount s := by
    unfold HandleSent
    simp only [herr, ne_eq, not_false_eq_true, if_true]
    cases msg with
    | none => rfl
    | some m => exact terminateCount_emit s _ (by simp)
  have hrecv : terminateCount (HandleReceived env s ecode data) = terminateCount s + 1 := by
    unfold HandleReceived
    simp only [herr, ne_eq, not_false_eq_true, if_true, terminateCount_Terminate]
  have hT := terminateCount_Terminate s
  have h2 : (HandlePhase2Received env s ErrorCode.failure data).map terminateCount
      = some (terminateCount s + 1) := by
    unfold HandlePhase2Received
    simp only [ne_eq, reduceCtorEq, not_false_eq_true, if_true, Option.map_some']
    rw [terminateCount_Terminate, terminateCount_dropKeys,
      terminateCount_emit _ _ (by simp), terminateCount_emit _ _ (by simp)]
  have h4 : (HandlePhase4Received env s ErrorCode.failure data tsA).map terminateCount
      = some (terminateCount s + 1) := by
    unfold HandlePhase4Received
    simp only [ne_eq, reduceCtorEq, not_false_eq_true, if_true, Option.map_some']
    rw [terminateCount_Terminate, terminateCount_emit _ _ (by simp)]
  cases ecode with
  | success => exact absurd rfl herr
  | operation_aborted =>
    refine ⟨?_, ?_, ?_, ?_, ?_, ?_, ?_, ?_, ?_, hrecv, hsent⟩ <;>
      simp [HandlePhase1Sent, HandlePhase1Received, HandlePhase2Sent, HandlePhase2Received,
        HandlePhase3Sent, HandlePhase3Received, HandlePhase3ExtraReceived, HandlePhase4Sent,
        HandlePhase4Received, terminateUnlessAborted]
  | failure =>
    refine ⟨?_, ?_, ?_, h2, ?_, ?_, ?_, ?_, h4, hrecv, hsent⟩ <;>
      simp [HandlePhase1Sent, HandlePhase1Received, HandlePhase2Sent,
        HandlePhase3Sent, HandlePhase3Received, HandlePhase3ExtraReceived, HandlePhase4Sent,
        terminateUnlessAborted, hT]

/-- Witness for C17: the callbacks of the demo session called with a failure. -/
theorem C17_callbacks_on_error_witness :
    terminateCount (HandlePhase1Sent demoSession ErrorCode.failure) = 1 ∧
    terminateCount (HandleReceived demoEnv demoSession ErrorCode.failure []) = 1 ∧
    terminateCount (HandleSent demoSession ErrorCode.failure 0 none) = 0 :=
  have h := C17_callbacks_on_error demoEnv demoSession ErrorCode.failure [] [] [] 0 0 none
    (by decide)
  ⟨h.1, h.2.2.2.2.2.2.2.2.2.1, h.2.2.2.2.2.2.2.2.2.2⟩

/-- `HandlePhase2Received` without error is `phase2Processed` followed by
the verification of the hash. -/
theorem HandlePhase2Received_success (env : Env) (s : NTCPSession) (data : List Nat) :
    HandlePhase2Received env s ErrorCode.success data
      = (phase2Processed env s data).bind (verifyPhase2 env) := by
  unfold HandlePhase2Received phase2Processed
  simp only [ne_eq, not_true_eq_false, if_false]
  cases hest : s.m_Establisher with
  | none => rfl
  | some est =>
    simp only []
    cases hk : CreateAESKey env
        { s with m_Establisher := some { est with phase2 :=
            { pubKey := data.take 256, encrypted := slice data 256 48 } } }
        (List.take 256 data) env.indeterminateAESKey with
    | none => rfl
    | some r =>
      obtain ⟨s1, aesKey⟩ := r
      simp only [Option.some_bind, verifyPhase2]
      cases hp : s1.m_DHKeysPair with
      | none => rfl
      | some pair => rfl

/-- The search loop of `CreateAESKey` started at or below 32 ends at or below 32. -/
theorem findNonZero_le (sharedKey : List Nat) :
    ∀ (fuel nonZero z : Nat), nonZero ≤ 32 → findNonZero sharedKey fuel nonZero = some z →
      z ≤ 32 := by
  intro fuel
  induction fuel with
  | zero =>
    intro nonZero z h hz
    simp only [findNonZero, Option.some.injEq] at hz
    omega
  | succ fuel ih =>
    intro nonZero z h hz
    unfold findNonZero at hz
    by_cases h0 : sharedKey.getD nonZero 0 = 0
    · rw [if_pos h0] at hz
      by_cases h1 : nonZero + 1 > 32
      · rw [if_pos h1] at hz
        cases hz
      · rw [if_neg h1] at hz
        exact ih (nonZero + 1) z (by omega) hz
    · rw [if_neg h0] at hz
      simp only [Option.some.injEq] at hz
      omega

/-- The key `CreateAESKey` derives does not depend on what the key buffer held. -/
theorem deriveAESKey_buffer (sharedKey k1 k2 aesKey : List Nat) (hs : sharedKey.length = 256)
    (h1 : k1.length = 32) (h2 : k2.length = 32)
    (h : deriveAESKey sharedKey k1 = some aesKey) :
    deriveAESKey sharedKey k2 = some aesKey := by
  have e1 : ∀ k : List Nat, k.length = 32 →
      writeAt (writeAt k 0 [0]) 1 (sharedKey.take 31) = 0 :: sharedKey.take 31 := by
    intro k hk
    have a1 : writeAt k 0 [0] = 0 :: k.drop 1 := by
      simp [writeAt]
    rw [a1]
    unfold writeAt
    have : (List.take 31 sharedKey).length = 31 := by rw [List.length_take]; omega
    rw [this]
    have hd : List.drop (1 + 31) (0 :: List.drop 1 k) = [] := by
      apply List.drop_of_length_le
      simp only [List.length_cons, List.length_drop]; omega
    rw [hd]
    simp
  unfold deriveAESKey at h ⊢
  by_cases c1 : sharedKey.getD 0 0 &&& 0x80 ≠ 0
  · rw [if_pos c1] at h ⊢
    rw [e1 k1 h1] at h
    rw [e1 k2 h2]
    exact h
  · rw [if_neg c1] at h ⊢
    by_cases c2 : sharedKey.getD 0 0 ≠ 0
    · rw [if_pos c2] at h ⊢
      rw [writeAt_full _ _ (by rw [List.length_take]; omega)] at h
      rw [writeAt_full _ _ (by rw [List.length_take]; omega)]
      exact h
    · rw [if_neg c2] at h ⊢
      cases hf : findNonZero sharedKey 32 1 with
      | none => rw [hf] at h; cases h
      | some z =>
        rw [hf] at h
        have hz := findNonZero_le sharedKey 32 1 z (by omega) hf
        have hsl : (slice sharedKey z 32).length = 32 := slice_length _ _ _ (by omega)
        simp only [] at h ⊢
        rw [writeAt_full _ _ (by rw [hsl, h1])] at h
        rw [writeAt_full _ _ (by rw [hsl, h2])]
        exact h

/-- After chained encryption of at least one block and chained decryption
of the ciphertext, both contexts hold the last ciphertext block. -/
theorem cbc_chain (envE envD : Env) (hc : envE.cipherOK) (key keyD : List Nat) :
    ∀ (n : Nat) (iv ivD data : List Nat), iv.length = 16 → 16 * (n + 1) ≤ data.length →
      (cbcDecryptBlocks envD keyD (n + 1) ivD (cbcEncryptBlocks envE key (n + 1) iv data).1).2
        = (cbcEncryptBlocks envE key (n + 1) iv data).2 ∧
      (cbcEncryptBlocks envE key (n + 1) iv data).2
        = ((cbcEncryptBlocks envE key (n + 1) iv data).1.drop (16 * n)).take 16 := by
  intro n
  induction n with
  | zero =>
    intro iv ivD data hiv hd
    have hp : (data.take 16).length = 16 := by rw [List.length_take]; omega
    have hl := cbc_block_length envE hc key _ iv hp hiv
    simp only [cbcEncryptBlocks, cbcDecryptBlocks, List.append_nil, Nat.mul_zero, List.drop_zero]
    rw [List.take_of_length_le (by omega)]
    exact ⟨rfl, rfl⟩
  | succ n ih =>
    intro iv ivD data hiv hd
    have hp : (data.take 16).length = 16 := by rw [List.length_take]; omega
    have hl := cbc_block_length envE hc key _ iv hp hiv
    have hi := ih (envE.aesEncrypt key (xorBytes (data.take 16) iv))
      (envE.aesEncrypt key (xorBytes (data.take 16) iv)) (data.drop 16) hl
      (by rw [List.length_drop]; omega)
    rw [cbcEncryptBlocks, cbcDecryptBlocks]
    simp only []
    rw [List.take_left' hl, List.drop_left' hl]
    refine ⟨hi.1, ?_⟩
    rw [hi.2, show 16 * (n + 1) = 16 + 16 * n by omega, ← List.drop_drop, List.drop_left' hl]

/-- `SendPhase2` when the key agreement and the key derivation succeed: the
contexts it sets and the message it writes. -/
theorem SendPhase2_contexts (env : Env) (s : NTCPSession) (pair : DHKeysPair)
    (est : Establisher) (secret aesKey : List Nat)
    (hpair : s.m_DHKeysPair = some pair) (hest : s.m_Establisher = some est)
    (hagree : env.dhAgree pair.privateKey est.phase1.pubKey = some secret)
    (hkey : deriveAESKey secret env.indeterminateAESKey = some aesKey) :
    ∃ s', SendPhase2 env s = some s' ∧
      s'.m_Decryption = { key := aesKey, iv := slice est.phase1.HXxorHI 16 16 } ∧
      s'.m_Encryption = { key := aesKey, iv := (cbcEncryptBlocks env aesKey 3
        (slice pair.publicKey 240 16)
        (writeAt (writeAt est.phase2.encrypted 0 (env.sha256 (est.phase1.pubKey ++ pair.publicKey)))
          32 (htobe32 env.now))).2 } ∧
      lastWritten s' = pair.publicKey ++
        writeAt (writeAt (writeAt est.phase2.encrypted 0
          (env.sha256 (est.phase1.pubKey ++ pair.publicKey))) 32 (htobe32 env.now)) 0
          (cbcEncryptBlocks env aesKey 3 (slice pair.publicKey 240 16)
            (writeAt (writeAt est.phase2.encrypted 0
              (env.sha256 (est.phase1.pubKey ++ pair.publicKey))) 32 (htobe32 env.now))).1 := by
  have h48 : 48 / 16 = 3 := by decide
  unfold SendPhase2 ensureDHKeysPair
  simp only [hpair, hest, CreateAESKey, hagree, hkey, CBCEncryption.Encrypt, h48]
  refine ⟨_, rfl, rfl, rfl, ?_⟩
  exact lastWritten_of_trace _ _ _ _ rfl

/-- `phase2Processed` when the key agreement and the key derivation succeed:
the contexts it sets. -/
theorem phase2Processed_contexts (env : Env) (s : NTCPSession) (pair : DHKeysPair)
    (est : Establisher) (data secret aesKey : List Nat)
    (hpair : s.m_DHKeysPair = some pair) (hest : s.m_Establisher = some est)
    (hagree : env.dhAgree pair.privateKey (data.take 256) = some secret)
    (hkey : deriveAESKey secret env.indeterminateAESKey = some aesKey) :
    ∃ s', phase2Processed env s data = some s' ∧
      s'.m_Encryption = { key := aesKey, iv := slice est.phase1.HXxorHI 16 16 } ∧
      s'.m_Decryption = { key := aesKey, iv := (cbcDecryptBlocks env aesKey 3
        (slice (data.take 256) 240 16) (slice data 256 48)).2 } := by
  have h48 : 48 / 16 = 3 := by decide
  unfold phase2Processed
  simp only [hpair, hest, CreateAESKey, hagree, hkey, CBCDecryption.DecryptLen, h48]
  exact ⟨_, rfl, rfl, rfl⟩

theorem readVar_take (old : List Nat) (sp : Bool) (pre rest : List Nat) (n : Nat)
    (h : n ≤ rest.length) :
    (IStream.mkAt sp pre rest).readVar old n
      = (rest.take n, IStream.mkAt sp (pre ++ rest.take n) (rest.drop n)) := by
  have := readVar_mkAt old sp pre (rest.take n) (rest.drop n) n
    (by rw [List.length_take]; omega)
  rw [List.take_append_drop] at this
  exact this

theorem seekg_cur_take (sp : Bool) (pre rest : List Nat) (n : Nat) (h : n ≤ rest.length) :
    (IStream.mkAt sp pre rest).seekg_cur n
      = IStream.mkAt sp (pre ++ rest.take n) (rest.drop n) := by
  have := seekg_cur_mkAt sp pre (rest.take n) (rest.drop n) n
    (by rw [List.length_take]; omega)
  rw [List.take_append_drop] at this
  exact this

/-- What a read of `n` bytes from a fresh stream stores in an object of `n`
bytes: the bytes the stream has come first. -/
theorem readVar_open_getElem (old data : List Nat) (sp : Bool) (n i : Nat)
    (b : Nat) (hi : i < n) (hb : data[i]? = some b) :
    ((IStream.open data sp).readVar old n).1[i]? = some b := by
  have hlt : i < data.length := by
    by_contra hc
    rw [List.getElem?_eq_none (by omega)] at hb
    cases hb
  have hread : ((IStream.open data sp).read n).1 = data.take n := by
    unfold IStream.read IStream.open IStream.good slice
    simp only [Bool.not_false, Bool.and_self, Bool.not_true, Bool.false_eq_true, if_false,
      Nat.sub_zero, List.drop_zero]
    split
    · rfl
    · rename_i hn
      rw [List.take_of_length_le (Nat.le_refl _), List.take_of_length_le (by omega)]
  unfold IStream.readVar stored
  simp only [hread]
  rw [List.getElem?_take_of_lt hi, List.getElem?_append_left (by rw [List.length_take]; omega),
    List.getElem?_take_of_lt hi, hb]

/-- A stream with a byte among its first six that is not the byte of
`"I2Psu3"` at its place is rejected at the magic number. -/
theorem magic_mismatch (env : ReseedEnv) (data : List Nat) (sp : Bool) (i b : Nat)
    (hi : i < 6) (hb : data[i]? = some b) (hne : b ≠ SU3_MAGIC_NUMBER.getD i 0) :
    ((IStream.open data sp).readVar (env.indeterminate 7) 7).1 ≠ SU3_MAGIC_NUMBER ++ [0] := by
  intro heq
  have h := readVar_open_getElem (env.indeterminate 7) data sp 7 i b (by omega) hb
  rw [heq] at h
  apply hne
  have h6 : i = 0 ∨ i = 1 ∨ i = 2 ∨ i = 3 ∨ i = 4 ∨ i = 5 := by omega
  rcases h6 with rfl | rfl | rfl | rfl | rfl | rfl <;>
    simp [SU3_MAGIC_NUMBER] at h ⊢ <;> exact h.symm

/-- C18: `ProcessSU3Stream` returns 0 and calls `AddRouterInfo` not once when
one of the first six bytes of the stream is not the byte of `"I2Psu3"` at its
place, or the byte at offset 25 (file type) is not 0, or the byte at offset 27
(content type) is not 3. -/
theorem C18_header_rejected (env : ReseedEnv) (fuel : Nat) (data : List Nat) (sp : Bool)
    (h : (∃ i b, i < 6 ∧ data[i]? = some b ∧ b ≠ SU3_MAGIC_NUMBER.getD i 0) ∨
      (∃ b, data[25]? = some b ∧ b ≠ 0) ∨ (∃ b, data[27]? = some b ∧ b ≠ 3)) :
    (ProcessSU3Stream env fuel (IStream.open data sp)).completion = Completion.returned 0 ∧
    (ProcessSU3Stream env fuel (IStream.open data sp)).added = [] := by
  by_cases hm : ((IStream.open data sp).readVar (env.indeterminate 7) 7).1
      ≠ SU3_MAGIC_NUMBER ++ [0]
  · unfold ProcessSU3Stream
    simp only [hm, ne_eq, not_false_eq_true, if_true, and_self]
  · have hlen : ∀ k b, data[k]? = some b → k < data.length := by
      intro k b hk
      by_contra hc
      rw [List.getElem?_eq_none (by omega)] at hk
      cases hk
    rcases h with ⟨i, b, hi, hb, hne⟩ | ⟨b, hb, hne⟩ | ⟨b, hb, hne⟩
    · exact absurd (magic_mismatch env data sp i b hi hb hne) hm
    · have h26 := hlen 25 b hb
      have hft : (List.take 1 (List.drop 25 data)).getD 0 0 = b := by
        rw [List.getD_eq_getElem?_getD, List.getElem?_take_of_lt (by omega), List.getElem?_drop, hb]
        rfl
      rw [open_eq_mkAt] at hm
      rw [readVar_take _ sp [] data 7 (by omega)] at hm
      unfold ProcessSU3Stream
      rw [open_eq_mkAt]
      simp (disch := first | omega | (simp only [List.length_drop]; omega)) only [readVar_take, seekg_cur_take,
        List.drop_drop, Nat.reduceAdd, hft, hne, hm, ne_eq, not_false_eq_true, not_true_eq_false,
        if_true, if_false, and_self]
    · have h28 := hlen 27 b hb
      have hct : (List.take 1 (List.drop 27 data)).getD 0 0 = b := by
        rw [List.getD_eq_getElem?_getD, List.getElem?_take_of_lt (by omega), List.getElem?_drop, hb]
        rfl
      rw [open_eq_mkAt] at hm
      rw [readVar_take _ sp [] data 7 (by omega)] at hm
      unfold ProcessSU3Stream
      rw [open_eq_mkAt]
      simp (disch := first | omega | (simp only [List.length_drop]; omega)) only [readVar_take, seekg_cur_take,
        List.drop_drop, Nat.reduceAdd, hct, hne, hm, ne_eq, not_false_eq_true, not_true_eq_false,
        if_true, if_false, and_self]
      split <;> simp only [and_self]

/-- Witness for C18: a plain ZIP stream, which starts with `50 4B 03 04`. -/
theorem C18_header_rejected_witness :
    (ProcessSU3Stream demoReseedEnv 100
      (IStream.open (zipBytes [storedEntry [1, 2, 3]]) false)).completion
      = Completion.returned 0 ∧
    (ProcessSU3Stream demoReseedEnv 100
      (IStream.open (zipBytes [storedEntry [1, 2, 3]]) false)).added = [] :=
  C18_header_rejected demoReseedEnv 100 (zipBytes [storedEntry [1, 2, 3]]) false
    (Or.inl ⟨0, 0x50, by decide, by decide, by decide⟩)

theorem getLast_map_cons_getD (f : ZipEntry → SU3Locals) (a : ZipEntry) (b : SU3Locals)
    (c : List ZipEntry) :
    ((a :: c).getLast?.map f).getD b = (c.getLast?.map f).getD (f a) := by
  cases c with
  | nil => rfl
  | cons x xs =>
    rw [List.getLast?_cons_cons, List.getLast?_eq_getLast _ (List.cons_ne_nil x xs)]
    rfl

/-- The loop over well-formed records that end before the content does: it
hands each descriptor over and goes on behind the last record, with the loop
variables as the last record left them. -/
theorem su3Loop_records (env : ReseedEnv) (innerFuel contentPos contentLength : Nat) (sp : Bool)
    (tail : List Nat) :
    ∀ (entries : List ZipEntry) (ds : List (List Nat)) (fuel : Nat) (pre : List Nat) (n : Nat)
      (added : List (List Nat)) (locals : SU3Locals),
      (∀ e ∈ entries, e.wellFormed env ∧ e.compressed.length + 4 < innerFuel) →
      entries.map (ZipEntry.descriptor env) = ds.map some →
      contentPos ≤ pre.length →
      pre.length + (zipBytes entries).length < contentPos + contentLength →
      (pre ++ zipBytes entries).length < 18446744073709551616 →
      su3Loop env innerFuel contentPos contentLength (fuel + entries.length)
          (IStream.mkAt sp pre (zipBytes entries ++ tail)) n added locals
        = su3Loop env innerFuel contentPos contentLength fuel
          (IStream.mkAt sp (pre ++ zipBytes entries) tail) (n + entries.length)
          (added ++ ds) ((entries.getLast?.map ZipEntry.locals).getD locals) := by
  intro entries
  induction entries with
  | nil =>
    intro ds fuel pre n added locals _ hds _ _ _
    have hds0 : ds = [] := by
      cases ds with
      | nil => rfl
      | cons d ds => simp only [List.map_nil, List.map_cons] at hds; exact absurd hds (by simp)
    subst hds0
    simp only [zipBytes, List.map_nil, List.flatten_nil, List.nil_append, List.append_nil,
      List.length_nil, Nat.add_zero, List.getLast?_nil]
    rfl
  | cons e es ih =>
    intro ds fuel pre n added locals hwf hds hpos hlen hsize
    obtain ⟨hwe, hfe⟩ := hwf e (List.mem_cons_self _ _)
    cases ds with
    | nil => simp only [List.map_nil, List.map_cons] at hds; exact absurd hds (by simp)
    | cons d ds' =>
    simp only [List.map_cons, List.cons.injEq] at hds
    obtain ⟨hd, hds'⟩ := hds
    rw [zipBytes_cons] at hlen hsize
    have hsize1 : (pre ++ e.bytes).length < 18446744073709551616 := by
      simp only [List.length_append] at hsize ⊢
      omega
    have hbody := su3Body_entry env innerFuel contentPos contentLength sp pre
      (zipBytes es ++ tail) d e n added locals hwe hd hpos hsize1 hfe
    have hend : ¬ (contentLength ≤ (pre ++ e.bytes).length - contentPos) := by
      simp only [List.length_append] at hlen ⊢
      omega
    rw [if_neg hend] at hbody
    have hstream : zipBytes (e :: es) ++ tail = e.bytes ++ (zipBytes es ++ tail) := by
      rw [zipBytes_cons, List.append_assoc]
    rw [hstream, List.length_cons, ← Nat.add_assoc]
    rw [su3Loop]
    simp only [eof_mkAt, Bool.false_eq_true, if_false, hbody]
    rw [ih ds' fuel (pre ++ e.bytes) (n + 1) (added ++ [d]) e.locals
      (fun e2 h2 => hwf e2 (List.mem_cons_of_mem _ h2)) hds'
      (by simp only [List.length_append]; omega)
      (by simp only [List.length_append] at hlen ⊢; omega)
      (by simp only [List.length_append] at hsize ⊢; omega)]
    rw [zipBytes_cons, List.append_assoc, List.append_assoc, List.singleton_append,
      Nat.add_assoc, Nat.add_comm 1, getLast_map_cons_getD]

/-- The loop variable `signature` behind records that were taken in holds
the signature of a local file. -/
theorem signature_after_records (entries : List ZipEntry) (locals : SU3Locals)
    (h : entries ≠ []) :
    ((entries.getLast?.map ZipEntry.locals).getD locals).signature = ZIP_HEADER_SIGNATURE := by
  rw [List.getLast?_eq_getLast _ h]
  rfl

/-- The bytes a read from a good stream stores in an object that holds `old`. -/
theorem readVar_fst (old : List Nat) (sp : Bool) (pre rest : List Nat) (n : Nat) :
    ((IStream.mkAt sp pre rest).readVar old n).1 = stored n old (rest.take n) := by
  have hread : ((IStream.mkAt sp pre rest).read n).1 = rest.take n := by
    unfold IStream.read IStream.mkAt IStream.good slice
    simp only [Bool.not_false, Bool.and_self, Bool.not_true, Bool.false_eq_true, if_false,
      List.length_append, Nat.add_sub_cancel_left, List.drop_left]
    split
    · rfl
    · rename_i hn
      rw [List.take_of_length_le (Nat.le_refl _), List.take_of_length_le (by omega)]
  unfold IStream.readVar
  simp only [hread]

/-- One turn of the loop at bytes that, read into the variable `signature`,
do not give the signature of a local file: the function returns. -/
theorem su3Loop_no_signature (env : ReseedEnv) (innerFuel contentPos contentLength : Nat)
    (sp : Bool) (pre tail : List Nat) (fuel n : Nat) (added : List (List Nat))
    (locals : SU3Locals)
    (h : le32toh (stored 4 (htole32 locals.signature) (tail.take 4)) ≠ ZIP_HEADER_SIGNATURE) :
    (su3Loop env innerFuel contentPos contentLength (fuel + 1)
        (IStream.mkAt sp pre tail) n added locals).completion = Completion.returned n ∧
    (su3Loop env innerFuel contentPos contentLength (fuel + 1)
        (IStream.mkAt sp pre tail) n added locals).added = added := by
  have h1 := readVar_fst (htole32 locals.signature) sp pre tail 4
  rw [su3Loop]
  simp only [eof_mkAt, Bool.false_eq_true, if_false, su3Body, h1, h, and_self]

/-- A read of one byte at the end of a good stream stores nothing and sets
`eofbit` and `failbit`. -/
theorem read_at_end (sp : Bool) (pre : List Nat) :
    ((IStream.mkAt sp pre []).read 1).1 = [] ∧
    ((IStream.mkAt sp pre []).read 1).2.eof = true ∧
    ((IStream.mkAt sp pre []).read 1).2.failbit = true := by
  unfold IStream.read IStream.mkAt IStream.good IStream.eof slice
  simp

/-- Data over which the matcher ends with three signature bytes matched end
in the byte `07`. -/
theorem descriptorScan_three : ∀ (c : List Nat) (k : Nat), descriptorScan c k = some 3 →
    (c = [] ∧ k = 3) ∨ c.getLast? = some 7 := by
  intro c
  induction c with
  | nil =>
    intro k h
    simp only [descriptorScan, Option.some.injEq] at h
    exact Or.inl ⟨rfl, h⟩
  | cons b c ih =>
    intro k h
    right
    unfold descriptorScan at h
    by_cases hb : b = ZIP_DATA_DESCRIPTOR_SIGNATURE.getD k 0
    · rw [if_pos hb] at h
      by_cases hk : k + 1 ≥ 4
      · rw [if_pos hk] at h
        cases h
      · rw [if_neg hk] at h
        rcases ih (k + 1) h with ⟨rfl, hk3⟩ | hl
        · have hk2 : k = 2 := by omega
          subst hk2
          rw [hb]
          rfl
        · cases c with
          | nil => cases hl
          | cons x xs => rw [List.getLast?_cons_cons]; exact hl
    · rw [if_neg hb] at h
      rcases ih 0 h with ⟨_, h0⟩ | hl
      · cases h0
      · cases c with
        | nil => cases hl
        | cons x xs => rw [List.getLast?_cons_cons]; exact hl

/-- `FindZipDataDescriptor` at the end of the stream: the read fails and
leaves in `nextByte` the byte of the turn before, which does not complete the
signature, and the signature is not found. -/
theorem findLoop_end (sp : Bool) (fuel j nb : Nat) (pre : List Nat)
    (hj : j < 3 ∨ (j = 3 ∧ nb ≠ 8)) :
    findZipDataDescriptorLoop (fuel + 2) (IStream.mkAt sp pre []) j nb
      = some (false, ((IStream.mkAt sp pre []).read 1).2) := by
  have hend := read_at_end sp pre
  have hstop : ∀ k b, findZipDataDescriptorLoop (fuel + 1)
      ((IStream.mkAt sp pre []).read 1).2 k b
        = some (false, ((IStream.mkAt sp pre []).read 1).2) := by
    intro k b
    rw [findZipDataDescriptorLoop]
    simp only [hend.2.1, hend.2.2, if_true, Bool.not_true]
  have hnb : (stored 1 [nb] ((IStream.mkAt sp pre []).read 1).1).getD 0 0 = nb := by
    rw [hend.1]
    rfl
  rw [findZipDataDescriptorLoop]
  simp only [eof_mkAt, Bool.false_eq_true, if_false, IStream.readVar, hnb]
  by_cases hb : nb = ZIP_DATA_DESCRIPTOR_SIGNATURE.getD j 0
  · have hj4 : ¬ (j + 1 ≥ 4) := by
      rcases hj with hj | ⟨h3, hj⟩
      · omega
      · exact absurd (by rw [hb, h3]; rfl) hj
    simp only [hb, if_true, hj4, if_false]
    exact hstop _ _
  · simp only [hb, if_false]
    exact hstop _ _

/-- The matcher never has more than three signature bytes matched. -/
theorem descriptorScan_le : ∀ (c : List Nat) (k j : Nat), descriptorScan c k = some j →
    k ≤ 3 → j ≤ 3 := by
  intro c
  induction c with
  | nil =>
    intro k j h hk
    simp only [descriptorScan, Option.some.injEq] at h
    omega
  | cons b c ih =>
    intro k j h hk
    unfold descriptorScan at h
    by_cases hb : b = ZIP_DATA_DESCRIPTOR_SIGNATURE.getD k 0
    · rw [if_pos hb] at h
      by_cases hk4 : k + 1 ≥ 4
      · rw [if_pos hk4] at h
        cases h
      · rw [if_neg hk4] at h
        exact ih (k + 1) j h (by omega)
    · rw [if_neg hb] at h
      exact ih 0 j h (by omega)

/-- One turn of the loop at a local file header with the data-descriptor
bit set, behind which the stream ends with no data-descriptor signature: the
function returns the number of files so far. -/
theorem su3Loop_missing_descriptor (env : ReseedEnv) (innerFuel contentPos contentLength : Nat)
    (sp : Bool) (pre : List Nat) (e : ZipEntry) (j fuel n : Nat) (added : List (List Nat))
    (locals : SU3Locals)
    (hf : e.fieldsOK) (hdd : e.dataDescriptor = none)
    (hbit : e.bitFlag &&& ZIP_BIT_FLAG_DATA_DESCRIPTOR ≠ 0)
    (hscan : descriptorScan e.compressed 0 = some j)
    (hfuel : e.compressed.length + 2 ≤ innerFuel) :
    (su3Loop env innerFuel contentPos contentLength (fuel + 1)
        (IStream.mkAt sp pre e.bytes) n added locals).completion = Completion.returned n ∧
    (su3Loop env innerFuel contentPos contentLength (fuel + 1)
        (IStream.mkAt sp pre e.bytes) n added locals).added = added := by
  have hname : ¬ (e.fileName.length ≥ 255) := by
    have := hf.2.2.2.2.2.2.1
    omega
  have hb : e.bytes = htole32 ZIP_HEADER_SIGNATURE ++ (e.headerBytes ++ (e.compressed ++ [])) := by
    simp only [ZipEntry.bytes, ZipEntry.descriptorBytes, hdd]
  have hsig : le32toh (htole32 ZIP_HEADER_SIGNATURE) = ZIP_HEADER_SIGNATURE :=
    le32toh_htole32 _ (by decide)
  obtain ⟨f0, hf0⟩ : ∃ f0, innerFuel = (f0 + 2) + e.compressed.length :=
    ⟨innerFuel - 2 - e.compressed.length, by omega⟩
  have hj3 := descriptorScan_le e.compressed 0 j hscan (by omega)
  have hj : j < 3 ∨ (j = 3 ∧ e.compressed.getLast?.getD ((env.indeterminate 1).getD 0 0) ≠ 8) := by
    by_cases h3 : j = 3
    · right
      refine ⟨h3, ?_⟩
      rw [h3] at hscan
      rcases descriptorScan_three e.compressed 0 hscan with ⟨_, h0⟩ | hl
      · cases h0
      · rw [hl]
        show (7 : Nat) ≠ 8
        decide
    · left
      omega
  have hfind : FindZipDataDescriptor env innerFuel
      (IStream.mkAt sp (pre ++ htole32 ZIP_HEADER_SIGNATURE ++ e.headerBytes)
        (e.compressed ++ []))
      = some (false, ((IStream.mkAt sp
          (pre ++ htole32 ZIP_HEADER_SIGNATURE ++ e.headerBytes ++ e.compressed) []).read 1).2) := by
    unfold FindZipDataDescriptor
    rw [hf0, findLoop_data sp e.compressed (f0 + 2) 0 j _ _ _ hscan,
      findLoop_end sp f0 j _ _ hj]
  rw [su3Loop]
  simp only [eof_mkAt, Bool.false_eq_true, if_false]
  unfold su3Body
  simp only [hb, readVar_mkAt _ sp pre _ _ 4 (htole32_length _), hsig, if_true,
    readLocalFileHeader_bytes locals sp _ _ e hf, hname, if_false, hbit, ne_eq, not_false_eq_true,
    hfind, and_self]

set_option maxRecDepth 100000 in
/-- Counterexample to C19 as stated.  First archive: one well-formed record
and then a stored record whose data are cut off by the end of the stream (five
bytes announced, two there); `ProcessSU3Stream` returns 2, not 1, and hands
the cut record to `AddRouterInfo` with three bytes that were never read.
Second archive: the stream ends right behind its one well-formed record, before
the content length is reached; the read of the next signature fails and leaves
the signature of the record in the variable, the reads of the header fail
likewise, and `ProcessSU3Stream` returns 2 and hands a buffer of three bytes
that were never read to `AddRouterInfo`. -/
theorem C19_truncated_record_counted :
    (demoSU3 72).wellFormed ∧ (storedEntry [1, 2, 3]).wellFormed demoReseedEnv ∧
    (storedEntry [4, 5, 6, 7, 8]).bytes.length = 37 ∧
    (ProcessSU3Stream demoReseedEnv 200 (IStream.open truncatedArchive false)).completion
      = Completion.returned 2 ∧
    (ProcessSU3Stream demoReseedEnv 200 (IStream.open truncatedArchive false)).added
      = [[1, 2, 3], [4, 5, 0xAA, 0xAA, 0xAA]] ∧
    (demoSU3 500).wellFormed ∧ cutAfterRecord.length = 81 ∧
    (ProcessSU3Stream demoReseedEnv 200 (IStream.open cutAfterRecord false)).completion
      = Completion.returned 2 ∧
    (ProcessSU3Stream demoReseedEnv 200 (IStream.open cutAfterRecord false)).added
      = [[1, 2, 3], [0xAA, 0xAA, 0xAA]] := by
  refine ⟨?_, ?_, ?_, ?_, ?_, ?_, ?_, ?_, ?_⟩
  · unfold SU3File.wellFormed
    decide
  · exact ⟨by unfold ZipEntry.fieldsOK; decide, by decide, by decide, by decide,
      fun h => absurd rfl h⟩
  · decide
  · decide
  · decide
  · unfold SU3File.wellFormed
    decide
  · decide
  · decide
  · decide

/-- C19 (amended): for every stream with a well-formed SU3 header followed by
`k` well-formed local file records that end before the content does, and then
either four or more bytes of which the first four are not the signature of a
local file, or, behind at least one record, fewer than four bytes that do not
give this signature when they are stored over the first bytes of the signature
the variable still holds, or a local file header with the data-descriptor bit
set behind which the stream ends with no data-descriptor signature,
`ProcessSU3Stream` returns `k` and has called `AddRouterInfo` exactly `k`
times, with the descriptors of the records in order. -/
theorem C19_partial_count (env : ReseedEnv) (fuel : Nat) (sp : Bool) (f : SU3File)
    (entries : List ZipEntry) (ds : List (List Nat)) (tail : List Nat)
    (hf : f.wellFormed)
    (hwf : ∀ e ∈ entries, e.wellFormed env)
    (hds : entries.map (ZipEntry.descriptor env) = ds.map some)
    (hlen : (zipBytes entries).length < f.contentLength)
    (htail : (4 ≤ tail.length ∧ le32toh (tail.take 4) ≠ ZIP_HEADER_SIGNATURE) ∨
      (entries ≠ [] ∧ tail ≠ [] ∧ tail.length < 4 ∧
        le32toh (tail ++ (htole32 ZIP_HEADER_SIGNATURE).drop tail.length)
          ≠ ZIP_HEADER_SIGNATURE) ∨
      ∃ (e : ZipEntry) (j : Nat), tail = e.bytes ∧ e.fieldsOK ∧ e.dataDescriptor = none ∧
        e.bitFlag &&& ZIP_BIT_FLAG_DATA_DESCRIPTOR ≠ 0 ∧
        descriptorScan e.compressed 0 = some j)
    (hsize : (f.prefixBytes ++ zipBytes entries).length < 18446744073709551616)
    (hfuel : (zipBytes entries).length + tail.length + 2 < fuel) :
    (ProcessSU3Stream env fuel
      (IStream.open (f.prefixBytes ++ (zipBytes entries ++ tail)) sp)).completion
      = Completion.returned entries.length ∧
    (ProcessSU3Stream env fuel
      (IStream.open (f.prefixBytes ++ (zipBytes entries ++ tail)) sp)).added = ds ∧
    ds.length = entries.length := by
  have hk := length_le_zipBytes entries
  obtain ⟨g, hg⟩ : ∃ g, fuel = (g + 1) + entries.length := ⟨fuel - 1 - entries.length, by omega⟩
  have hrec := su3Loop_records env fuel f.prefixBytes.length f.contentLength sp tail entries ds
    (g + 1) f.prefixBytes 0 [] env.locals
    (fun e he => ⟨hwf e he, by have := compressed_lt_zipBytes entries e he; omega⟩) hds
    (Nat.le_refl _) (by omega) hsize
  have hdl : ds.length = entries.length := by
    have := congrArg List.length hds
    simp only [List.length_map] at this
    exact this.symm
  rw [ProcessSU3Stream_header env fuel sp f _ hf]
  have hrec2 : su3Loop env fuel f.prefixBytes.length f.contentLength fuel
      (IStream.mkAt sp f.prefixBytes (zipBytes entries ++ tail)) 0 [] env.locals
      = su3Loop env fuel f.prefixBytes.length f.contentLength (g + 1)
        (IStream.mkAt sp (f.prefixBytes ++ zipBytes entries) tail) (0 + entries.length)
        ([] ++ ds) ((entries.getLast?.map ZipEntry.locals).getD env.locals) := by
    rw [← hrec, ← hg]
  rw [hrec2, Nat.zero_add, List.nil_append]
  rcases htail with ⟨h4, h⟩ | ⟨hne, _, hlt, h⟩ | ⟨e, j, rfl, he, hdd, hbit, hscan⟩
  · have := su3Loop_no_signature env fuel f.prefixBytes.length f.contentLength sp
      (f.prefixBytes ++ zipBytes entries) tail g entries.length ds
      ((entries.getLast?.map ZipEntry.locals).getD env.locals)
      (by rw [stored_full _ _ 4 (by rw [List.length_take]; omega)]; exact h)
    exact ⟨this.1, this.2, hdl⟩
  · have := su3Loop_no_signature env fuel f.prefixBytes.length f.contentLength sp
      (f.prefixBytes ++ zipBytes entries) tail g entries.length ds
      ((entries.getLast?.map ZipEntry.locals).getD env.locals)
      (by
        rw [signature_after_records entries env.locals hne,
          List.take_of_length_le (by omega)]
        unfold stored
        rw [List.take_of_length_le (by
          simp only [List.length_append, List.length_drop, htole32_length]
          omega)]
        exact h)
    exact ⟨this.1, this.2, hdl⟩
  · have hb : e.compressed.length + 4 ≤ e.bytes.length := by
      simp only [ZipEntry.bytes, List.length_append, htole32_length]
      omega
    have := su3Loop_missing_descriptor env fuel f.prefixBytes.length f.contentLength sp
      (f.prefixBytes ++ zipBytes entries) e j g entries.length ds
      ((entries.getLast?.map ZipEntry.locals).getD env.locals) he hdd hbit hscan
      (by omega)
    exact ⟨this.1, this.2, hdl⟩

set_option maxRecDepth 100000 in
/-- Witness for C19: four well-formed local files, then a local file header
with the data-descriptor bit set and four bytes of data at the end of the
stream, in an archive that announces 500 bytes of content. -/
theorem C19_partial_count_witness :
    (ProcessSU3Stream demoReseedEnv 1000 (IStream.open
      ((demoSU3 500).prefixBytes ++ (zipBytes demoEntries ++ unterminatedEntry.bytes))
      false)).completion = Completion.returned demoEntries.length ∧
    (ProcessSU3Stream demoReseedEnv 1000 (IStream.open
      ((demoSU3 500).prefixBytes ++ (zipBytes demoEntries ++ unterminatedEntry.bytes))
      false)).added = [[1, 2, 3], [7, 8, 9], [6, 5], [5]] ∧
    [[1, 2, 3], [7, 8, 9], [6, 5], [5]].length = demoEntries.length :=
  C19_partial_count demoReseedEnv 1000 false (demoSU3 500) demoEntries
    [[1, 2, 3], [7, 8, 9], [6, 5], [5]] unterminatedEntry.bytes
    (by unfold SU3File.wellFormed; decide)
    (by
      intro e he
      simp only [demoEntries, List.mem_cons, List.mem_singleton, List.not_mem_nil,
        or_false] at he
      rcases he with rfl | rfl | rfl | rfl
      · exact ⟨by unfold ZipEntry.fieldsOK; decide, by decide, by decide, by decide,
          fun h => absurd rfl h⟩
      · exact ⟨by unfold ZipEntry.fieldsOK; decide, by decide, by decide, by decide,
          fun _ => ⟨[7, 8, 9], by decide, by decide⟩⟩
      · exact ⟨by unfold ZipEntry.fieldsOK; decide, by decide, by decide, by decide, by decide,
          by decide, by decide, by decide, [6, 5], by decide, by decide, by decide⟩
      · exact ⟨by unfold ZipEntry.fieldsOK; decide, by decide, by decide, by decide,
          fun h => absurd rfl h⟩)
    (by decide) (by decide)
    (Or.inr (Or.inr ⟨unterminatedEntry, 1, rfl, by unfold ZipEntry.fieldsOK; decide, rfl,
      by decide, by decide⟩))
    (by decide) (by decide)

set_option maxRecDepth 100000 in
/-- Counterexample to C20 as stated: after phase 2 the IV of the responder's
encryption context and of the initiator's decryption context is not
`Y[240..256)` but the last 16 bytes of the encrypted part of phase 2. -/
theorem C20_iv_chained_after_phase2 :
    slice pairB.publicKey 240 16 = List.replicate 16 7 ∧
    (SendPhase2 demoEnv responderSession).map (fun s => s.m_Encryption.iv)
      = (SendPhase2 demoEnv responderSession).map (fun s => slice (lastWritten s) 288 16) ∧
    (SendPhase2 demoEnv responderSession).map
      (fun s => decide (s.m_Encryption.iv = slice pairB.publicKey 240 16)) = some false ∧
    ((SendPhase2 demoEnv responderSession).bind
      (fun s => phase2Processed demoEnv initiatorSession (lastWritten s))).map
      (fun s => decide (s.m_Decryption.iv = slice pairB.publicKey 240 16)) = some false := by
  refine ⟨?_, ?_, ?_, ?_⟩
  · decide
  · decide
  · decide
  · decide

/-- C20 (amended): when the responder runs `SendPhase2` and the initiator
processes the phase-2 message the responder wrote, with the same `HXxorHI`
and the same DH shared secret from which `CreateAESKey` derives a key, the
initiator's encryption context and the responder's decryption context have
that key and the IV `HXxorHI[16..32)`, and the responder's encryption context
and the initiator's decryption context have that key and, as IV, the last 16
bytes of the phase-2 message (the IV `Y[240..256)` chained over the 48
encrypted bytes). -/
theorem C20_phase2_contexts (envI envR : Env) (sI sR : NTCPSession) (keysA keysB : DHKeysPair)
    (estI estR : Establisher) (secret aesKey : List Nat)
    (hc : envR.cipherOK)
    (hsha : (envR.sha256 (estR.phase1.pubKey ++ keysB.publicKey)).length = 32)
    (hpairR : sR.m_DHKeysPair = some keysB) (hestR : sR.m_Establisher = some estR)
    (hpairI : sI.m_DHKeysPair = some keysA) (hestI : sI.m_Establisher = some estI)
    (hH : estI.phase1.HXxorHI = estR.phase1.HXxorHI)
    (hY : keysB.publicKey.length = 256) (henc : estR.phase2.encrypted.length = 48)
    (hagreeR : envR.dhAgree keysB.privateKey estR.phase1.pubKey = some secret)
    (hagreeI : envI.dhAgree keysA.privateKey keysB.publicKey = some secret)
    (hsecret : secret.length = 256)
    (hkR : envR.indeterminateAESKey.length = 32) (hkI : envI.indeterminateAESKey.length = 32)
    (hkey : deriveAESKey secret envR.indeterminateAESKey = some aesKey) :
    ∃ sR' sI', SendPhase2 envR sR = some sR' ∧
      phase2Processed envI sI (lastWritten sR') = some sI' ∧
      sI'.m_Encryption.key = aesKey ∧ sR'.m_Decryption.key = aesKey ∧
      sI'.m_Encryption.iv = slice estR.phase1.HXxorHI 16 16 ∧
      sR'.m_Decryption.iv = slice estR.phase1.HXxorHI 16 16 ∧
      sR'.m_Encryption.key = aesKey ∧ sI'.m_Decryption.key = aesKey ∧
      sR'.m_Encryption.iv = slice (lastWritten sR') 288 16 ∧
      sI'.m_Decryption.iv = slice (lastWritten sR') 288 16 := by
  obtain ⟨sR', hR, hRdec, hRenc, hRw⟩ :=
    SendPhase2_contexts envR sR keysB estR secret aesKey hpairR hestR hagreeR hkey
  have hE : (writeAt (writeAt estR.phase2.encrypted 0
      (envR.sha256 (estR.phase1.pubKey ++ keysB.publicKey))) 32 (htobe32 envR.now)).length
      = 48 := by
    have h1 := writeAt_length estR.phase2.encrypted 0
      (envR.sha256 (estR.phase1.pubKey ++ keysB.publicKey)) (by omega)
    have h2 : (htobe32 envR.now).length = 4 := rfl
    have h3 := writeAt_length (writeAt estR.phase2.encrypted 0
      (envR.sha256 (estR.phase1.pubKey ++ keysB.publicKey))) 32 (htobe32 envR.now) (by omega)
    omega
  have hivY : (slice keysB.publicKey 240 16).length = 16 := slice_length _ _ _ (by omega)
  have hC := cbcEncryptBlocks_length envR hc aesKey 3 (slice keysB.publicKey 240 16) _ hivY
    (by rw [hE])
  have hfull := writeAt_full (writeAt (writeAt estR.phase2.encrypted 0
      (envR.sha256 (estR.phase1.pubKey ++ keysB.publicKey))) 32 (htobe32 envR.now))
    (cbcEncryptBlocks envR aesKey 3 (slice keysB.publicKey 240 16)
      (writeAt (writeAt estR.phase2.encrypted 0
        (envR.sha256 (estR.phase1.pubKey ++ keysB.publicKey))) 32 (htobe32 envR.now))).1
    (by rw [hC.1, hE])
  rw [hfull] at hRw
  have htake : (lastWritten sR').take 256 = keysB.publicKey := by
    rw [hRw, List.take_left' hY]
  have hdrop : slice (lastWritten sR') 256 48 = (cbcEncryptBlocks envR aesKey 3
      (slice keysB.publicKey 240 16)
      (writeAt (writeAt estR.phase2.encrypted 0
        (envR.sha256 (estR.phase1.pubKey ++ keysB.publicKey))) 32 (htobe32 envR.now))).1 := by
    show ((lastWritten sR').drop 256).take 48 = _
    rw [hRw, List.drop_left' hY, List.take_of_length_le (by rw [hC.1])]
  have hlast : slice (lastWritten sR') 288 16 = ((cbcEncryptBlocks envR aesKey 3
      (slice keysB.publicKey 240 16)
      (writeAt (writeAt estR.phase2.encrypted 0
        (envR.sha256 (estR.phase1.pubKey ++ keysB.publicKey))) 32 (htobe32 envR.now))).1.drop
        (16 * 2)).take 16 := by
    show ((lastWritten sR').drop 288).take 16 = _
    rw [hRw, show 288 = 256 + 16 * 2 by decide, ← List.drop_drop, List.drop_left' hY]
  have hkeyI := deriveAESKey_buffer secret envR.indeterminateAESKey envI.indeterminateAESKey aesKey
    hsecret hkR hkI hkey
  obtain ⟨sI', hI, hIenc, hIdec⟩ :=
    phase2Processed_contexts envI sI keysA estI (lastWritten sR') secret aesKey hpairI hestI
      (by rw [htake]; exact hagreeI) hkeyI
  have hchain := cbc_chain envR envI hc aesKey aesKey 2 (slice keysB.publicKey 240 16)
    (slice ((lastWritten sR').take 256) 240 16)
    (writeAt (writeAt estR.phase2.encrypted 0
      (envR.sha256 (estR.phase1.pubKey ++ keysB.publicKey))) 32 (htobe32 envR.now)) hivY
    (by rw [hE])
  refine ⟨sR', sI', hR, hI, ?_, ?_, ?_, ?_, ?_, ?_, ?_, ?_⟩
  · rw [hIenc]
  · rw [hRdec]
  · rw [hIenc, hH]
  · rw [hRdec]
  · rw [hRenc]
  · rw [hIdec]
  · rw [hRenc, hlast]
    exact hchain.2
  · rw [hIdec, hdrop, hlast]
    exact hchain.1.trans hchain.2

set_option maxRecDepth 100000 in
/-- Witness for C20: the demo responder and the demo initiator, whose key
agreement yields the shared secret `02 02 .. 02`. -/
theorem C20_phase2_contexts_witness :
    ∃ sR' sI', SendPhase2 demoEnv responderSession = some sR' ∧
      phase2Processed demoEnv initiatorSession (lastWritten sR') = some sI' ∧
      sI'.m_Encryption.key = List.replicate 32 2 ∧ sR'.m_Decryption.key = List.replicate 32 2 ∧
      sI'.m_Encryption.iv = slice phase1Establisher.phase1.HXxorHI 16 16 ∧
      sR'.m_Decryption.iv = slice phase1Establisher.phase1.HXxorHI 16 16 ∧
      sR'.m_Encryption.key = List.replicate 32 2 ∧ sI'.m_Decryption.key = List.replicate 32 2 ∧
      sR'.m_Encryption.iv = slice (lastWritten sR') 288 16 ∧
      sI'.m_Decryption.iv = slice (lastWritten sR') 288 16 :=
  C20_phase2_contexts demoEnv demoEnv initiatorSession responderSession pairA pairB
    phase1Establisher phase1Establisher (List.replicate 256 2) (List.replicate 32 2)
    demoEnv_cipherOK (by decide) rfl rfl rfl rfl rfl (by decide) (by decide) (by decide)
    (by decide) (by decide) (by decide) (by decide) (by decide)

/-- Chained encryption uses the block cipher of the environment only. -/
theorem cbcEncryptBlocks_env (e1 e2 : Env) (h : e1.aesEncrypt = e2.aesEncrypt) (key : List Nat) :
    ∀ (n : Nat) (iv data : List Nat),
      cbcEncryptBlocks e1 key n iv data = cbcEncryptBlocks e2 key n iv data := by
  intro n
  induction n with
  | zero => intro iv data; rfl
  | succ n ih =>
    intro iv data
    simp only [cbcEncryptBlocks, h, ih]

/-- Chained decryption uses the block cipher of the environment only. -/
theorem cbcDecryptBlocks_env (e1 e2 : Env) (h : e1.aesDecrypt = e2.aesDecrypt) (key : List Nat) :
    ∀ (n : Nat) (iv data : List Nat),
      cbcDecryptBlocks e1 key n iv data = cbcDecryptBlocks e2 key n iv data := by
  intro n
  induction n with
  | zero => intro iv data; rfl
  | succ n ih =>
    intro iv data
    simp only [cbcDecryptBlocks, h, ih]

/-- `Send` does not call `Verify`. -/
theorem Send_verify (env : Env) (v : IdentityEx → List Nat → List Nat → Bool) :
    Send { env with verify := v } = Send env := by
  funext s msg
  cases msg with
  | none =>
    simp only [Send, timeSyncBufferOf, sendChecksummed, CBCEncryption.Encrypt,
      cbcEncryptBlocks_env { env with verify := v } env rfl]
  | some m =>
    simp only [Send, sendBufferOf, sendChecksummed, CBCEncryption.Encrypt,
      cbcEncryptBlocks_env { env with verify := v } env rfl]

/-- `startReceiving` does not call `Verify`. -/
theorem startReceiving_verify (env : Env) (v : IdentityEx → List Nat → List Nat → Bool) :
    startReceiving { env with verify := v } = startReceiving env := by
  funext s
  have hI : SendI2NPMessage { env with verify := v } = SendI2NPMessage env := by
    funext s msg
    cases msg with
    | none => rfl
    | some m => simp only [SendI2NPMessage, Send_verify]
  simp only [startReceiving, Connected, SendTimeSyncMessage, Send_verify, hI, Receive]

/-- `SendPhase4` does not call `Verify`. -/
theorem SendPhase4_verify (env : Env) (v : IdentityEx → List Nat → List Nat → Bool) :
    SendPhase4 { env with verify := v } = SendPhase4 env := by
  funext s tsA tsB
  simp only [SendPhase4, CBCEncryption.Encrypt,
    cbcEncryptBlocks_env { env with verify := v } env rfl]

/-- C21: with the same `X`, `Y`, `tsA` and `tsB` on both sides.  `SendPhase3`
on the initiator stores `Sign (X || Y || HI_r || tsA || tsB)` behind identity,
`tsA` and padding in the message it encrypts and writes, where `HI_r` is the
hash of the remote identity, here the responder's own hash; `HandlePhase3` on
the responder goes on to `SendPhase4` exactly if `Verify` accepts the signature
bytes of the message for `X || Y || HI_r || tsA || tsB` with `HI_r` its own
hash, and terminates otherwise.  `SendPhase4` on the responder stores
`Sign (X || Y || HI_i || tsA || tsB)` at the start of the message it encrypts
and writes, where `HI_i` is the hash of the remote identity, here the
initiator's own hash; `HandlePhase4Received` on the initiator starts receiving
exactly if `Verify` accepts the decrypted bytes for `X || Y || HI_i || tsA ||
tsB` with `HI_i` its own hash, and terminates otherwise.  So a signature made
by `Sign` on the one side is accepted on the other as soon as `Verify` accepts
it for this one string.  None of the four depends on `Sign` or `Verify` at any
other string. -/
theorem C21_signed_data_agree (envI envR : Env) (sI sR : NTCPSession) (estI estR : Establisher)
    (X Y tsA tsB data : List Nat) (paddingLen : Nat)
    (hestI : sI.m_Establisher = some estI) (hestR : sR.m_Establisher = some estR)
    (hXI : estI.phase1.pubKey = X) (hYI : estI.phase2.pubKey = Y)
    (hXR : estR.phase1.pubKey = X) (hYR : estR.phase2.pubKey = Y)
    (htsB : estI.phase2.timestamp = tsB)
    (htsAI : htobe32 envI.now = tsA)
    (htsAR : slice sR.m_ReceiveBuffer (sR.m_RemoteIdentity.fullLen + 2) 4 = tsA)
    (hHIr : sI.m_RemoteIdentity.identHash = envR.localIdentHash)
    (hHIi : sR.m_RemoteIdentity.identHash = envI.localIdentHash) :
    (∀ (plain : List Nat) (len : Nat),
      plain = writeAt (writeAt (writeAt (writeAt sI.m_ReceiveBuffer 0
          (htobe16 envI.localFullLen)) 2 envI.localIdentityBuffer)
          (2 + envI.localIdentityBuffer.length) tsA)
          (2 + envI.localIdentityBuffer.length + 4 +
            paddingTo16 (2 + envI.localIdentityBuffer.length + 4 + envI.localSignatureLen))
          (envI.sign (X ++ Y ++ envR.localIdentHash ++ tsA ++ tsB)) →
      len = 2 + envI.localIdentityBuffer.length + 4 + envI.localSignatureLen +
          paddingTo16 (2 + envI.localIdentityBuffer.length + 4 + envI.localSignatureLen) →
      SendPhase3 envI sI = some
        ({ sI with m_ReceiveBuffer := writeAt plain 0 (sI.m_Encryption.Encrypt envI plain len).1,
                   m_Encryption := (sI.m_Encryption.Encrypt envI plain len).2 }.emit
          (Event.async_write ((writeAt plain 0 (sI.m_Encryption.Encrypt envI plain len).1).take len)
            (Handler.HandlePhase3Sent tsA)))) ∧
    HandlePhase3 envR sR tsB paddingLen =
      (if envR.verify sR.m_RemoteIdentity (X ++ Y ++ envR.localIdentHash ++ tsA ++ tsB)
          (slice sR.m_ReceiveBuffer (sR.m_RemoteIdentity.fullLen + 2 + 4 + paddingLen)
            sR.m_RemoteIdentity.signatureLen) = true
        then SendPhase4 envR sR tsA tsB else some (Terminate sR)) ∧
    (∀ (plain : List Nat) (len : Nat),
      plain = writeAt sR.m_ReceiveBuffer 0
          (envR.sign (X ++ Y ++ envI.localIdentHash ++ tsA ++ tsB)) →
      len = envR.localSignatureLen + paddingTo16 envR.localSignatureLen →
      SendPhase4 envR sR tsA tsB = some
        ({ sR with m_ReceiveBuffer := writeAt plain 0 (sR.m_Encryption.Encrypt envR plain len).1,
                   m_Encryption := (sR.m_Encryption.Encrypt envR plain len).2 }.emit
          (Event.async_write ((writeAt plain 0 (sR.m_Encryption.Encrypt envR plain len).1).take len)
            Handler.HandlePhase4Sent))) ∧
    (∀ dec : NTCPSession,
      dec = decryptReceiveBuffer envI
          { sI with m_ReceiveBuffer := writeAt sI.m_ReceiveBuffer 0 data } 0 data.length →
      HandlePhase4Received envI sI ErrorCode.success data tsA =
        (if envI.verify sI.m_RemoteIdentity (X ++ Y ++ envI.localIdentHash ++ tsA ++ tsB)
            (slice dec.m_ReceiveBuffer 0 sI.m_RemoteIdentity.signatureLen) = true
          then some (startReceiving envI dec) else some (Terminate dec))) ∧
    (slice sR.m_ReceiveBuffer (sR.m_RemoteIdentity.fullLen + 2 + 4 + paddingLen)
        sR.m_RemoteIdentity.signatureLen
        = envI.sign (X ++ Y ++ envR.localIdentHash ++ tsA ++ tsB) →
      envR.verify sR.m_RemoteIdentity (X ++ Y ++ envR.localIdentHash ++ tsA ++ tsB)
        (envI.sign (X ++ Y ++ envR.localIdentHash ++ tsA ++ tsB)) = true →
      HandlePhase3 envR sR tsB paddingLen = SendPhase4 envR sR tsA tsB) ∧
    (∀ dec : NTCPSession,
      dec = decryptReceiveBuffer envI
          { sI with m_ReceiveBuffer := writeAt sI.m_ReceiveBuffer 0 data } 0 data.length →
      slice dec.m_ReceiveBuffer 0 sI.m_RemoteIdentity.signatureLen
        = envR.sign (X ++ Y ++ envI.localIdentHash ++ tsA ++ tsB) →
      envI.verify sI.m_RemoteIdentity (X ++ Y ++ envI.localIdentHash ++ tsA ++ tsB)
        (envR.sign (X ++ Y ++ envI.localIdentHash ++ tsA ++ tsB)) = true →
      HandlePhase4Received envI sI ErrorCode.success data tsA
        = some (startReceiving envI dec)) ∧
    (∀ sign1 sign2 : List Nat → List Nat,
      sign1 (X ++ Y ++ envR.localIdentHash ++ tsA ++ tsB)
        = sign2 (X ++ Y ++ envR.localIdentHash ++ tsA ++ tsB) →
      SendPhase3 { envI with sign := sign1 } sI = SendPhase3 { envI with sign := sign2 } sI) ∧
    (∀ verify1 verify2 : IdentityEx → List Nat → List Nat → Bool,
      (∀ sig, verify1 sR.m_RemoteIdentity (X ++ Y ++ envR.localIdentHash ++ tsA ++ tsB) sig
        = verify2 sR.m_RemoteIdentity (X ++ Y ++ envR.localIdentHash ++ tsA ++ tsB) sig) →
      HandlePhase3 { envR with verify := verify1 } sR tsB paddingLen
        = HandlePhase3 { envR with verify := verify2 } sR tsB paddingLen) ∧
    (∀ sign1 sign2 : List Nat → List Nat,
      sign1 (X ++ Y ++ envI.localIdentHash ++ tsA ++ tsB)
        = sign2 (X ++ Y ++ envI.localIdentHash ++ tsA ++ tsB) →
      SendPhase4 { envR with sign := sign1 } sR tsA tsB
        = SendPhase4 { envR with sign := sign2 } sR tsA tsB) ∧
    (∀ verify1 verify2 : IdentityEx → List Nat → List Nat → Bool,
      (∀ sig, verify1 sI.m_RemoteIdentity (X ++ Y ++ envI.localIdentHash ++ tsA ++ tsB) sig
        = verify2 sI.m_RemoteIdentity (X ++ Y ++ envI.localIdentHash ++ tsA ++ tsB) sig) →
      HandlePhase4Received { envI with verify := verify1 } sI ErrorCode.success data tsA
        = HandlePhase4Received { envI with verify := verify2 } sI ErrorCode.success data tsA) := by
  have hd3I : signedData estI sI.m_RemoteIdentity.identHash (htobe32 envI.now)
      estI.phase2.timestamp = X ++ Y ++ envR.localIdentHash ++ tsA ++ tsB := by
    simp only [signedData, hXI, hYI, hHIr, htsAI, htsB]
  have hd3R : signedData estR envR.localIdentHash
      (slice sR.m_ReceiveBuffer (sR.m_RemoteIdentity.fullLen + 2) 4) tsB
      = X ++ Y ++ envR.localIdentHash ++ tsA ++ tsB := by
    simp only [signedData, hXR, hYR, htsAR]
  have hd4R : signedData estR sR.m_RemoteIdentity.identHash tsA tsB
      = X ++ Y ++ envI.localIdentHash ++ tsA ++ tsB := by
    simp only [signedData, hXR, hYR, hHIi]
  have hd4I : signedData estI envI.localIdentHash tsA estI.phase2.timestamp
      = X ++ Y ++ envI.localIdentHash ++ tsA ++ tsB := by
    simp only [signedData, hXI, hYI, htsB]
  have h3 : HandlePhase3 envR sR tsB paddingLen =
      (if envR.verify sR.m_RemoteIdentity (X ++ Y ++ envR.localIdentHash ++ tsA ++ tsB)
          (slice sR.m_ReceiveBuffer (sR.m_RemoteIdentity.fullLen + 2 + 4 + paddingLen)
            sR.m_RemoteIdentity.signatureLen) = true
        then SendPhase4 envR sR tsA tsB else some (Terminate sR)) := by
    simp only [HandlePhase3, hestR, hd3R, htsAR]
    split <;> simp_all
  have h4 : ∀ dec : NTCPSession,
      dec = decryptReceiveBuffer envI
          { sI with m_ReceiveBuffer := writeAt sI.m_ReceiveBuffer 0 data } 0 data.length →
      HandlePhase4Received envI sI ErrorCode.success data tsA =
        (if envI.verify sI.m_RemoteIdentity (X ++ Y ++ envI.localIdentHash ++ tsA ++ tsB)
            (slice dec.m_ReceiveBuffer 0 sI.m_RemoteIdentity.signatureLen) = true
          then some (startReceiving envI dec) else some (Terminate dec)) := by
    intro dec hdec
    subst hdec
    simp only [HandlePhase4Received, ne_eq, not_true_eq_false, if_false, decryptReceiveBuffer,
      hestI, hd4I]
    split <;> simp_all
  refine ⟨?_, h3, ?_, h4, ?_, ?_, ?_, ?_, ?_, ?_⟩
  · intro plain len hp hl
    subst hp hl
    simp only [SendPhase3, hestI, hd3I]
    rw [htsAI]
  · intro plain len hp hl
    subst hp hl
    simp only [SendPhase4, hestR, hd4R]
  · intro hsig hver
    rw [h3, hsig, if_pos hver]
  · intro dec hdec hsig hver
    rw [h4 dec hdec, hsig, if_pos hver]
  · intro sign1 sign2 h
    simp only [SendPhase3, hestI, hd3I, h, CBCEncryption.Encrypt,
      cbcEncryptBlocks_env { envI with sign := sign1 } envI rfl,
      cbcEncryptBlocks_env { envI with sign := sign2 } envI rfl]
  · intro verify1 verify2 h
    simp only [HandlePhase3, hestR, hd3R, h, SendPhase4_verify]
  · intro sign1 sign2 h
    simp only [SendPhase4, hestR, hd4R, h, CBCEncryption.Encrypt,
      cbcEncryptBlocks_env { envR with sign := sign1 } envR rfl,
      cbcEncryptBlocks_env { envR with sign := sign2 } envR rfl]
  · intro verify1 verify2 h
    simp only [HandlePhase4Received, ne_eq, not_true_eq_false, if_false, decryptReceiveBuffer,
      CBCDecryption.DecryptLen, hestI, hd4I, h, startReceiving_verify,
      cbcDecryptBlocks_env { envI with verify := verify1 } envI rfl,
      cbcDecryptBlocks_env { envI with verify := verify2 } envI rfl]

set_option maxRecDepth 100000 in
/-- Witness for C21: the demo responder holds the signature the demo
initiator makes over `X || Y || HI_r || tsA || tsB` in its buffer, `Verify`
accepts it for this string, and `HandlePhase3` goes on to `SendPhase4`. -/
theorem C21_signed_data_agree_witness :
    HandlePhase3 demoEnv phase3ResponderSigned (htobe32 1400000007) 15
      = SendPhase4 demoEnv phase3ResponderSigned (htobe32 demoEnv.now) (htobe32 1400000007) :=
  (C21_signed_data_agree demoEnv demoEnv phase3Initiator phase3ResponderSigned phase2Establisher
    phase2Establisher pairA.publicKey pairB.publicKey (htobe32 demoEnv.now)
    (htobe32 1400000007) [] 15 rfl rfl rfl rfl rfl rfl (by decide) rfl (by decide) (by decide)
    (by decide)).2.2.2.2.1 (by decide) (by decide)

/-- A list of 16 bytes is its 16 bytes. -/
theorem list16 (l : List Nat) (h : l.length = 16) :
    ∃ b0 b1 b2 b3 b4 b5 b6 b7 b8 b9 b10 b11 b12 b13 b14 b15,
      l = [b0, b1, b2, b3, b4, b5, b6, b7, b8, b9, b10, b11, b12, b13, b14, b15] := by
  match l, h with
  | [b0, b1, b2, b3, b4, b5, b6, b7, b8, b9, b10, b11, b12, b13, b14, b15], _ =>
    exact ⟨b0, b1, b2, b3, b4, b5, b6, b7, b8, b9, b10, b11, b12, b13, b14, b15, rfl⟩

/-- The plaintext time-sync frame in closed form. -/
theorem timeSync_frame (env : Env) (s : NTCPSession) (hadler : env.adlerOK)
    (hbuf : s.m_TimeSyncBuffer.length = 16) :
    (timeSyncBufferOf env s).take 16 =
      [0, 0] ++ htobe32 env.now ++ slice s.m_TimeSyncBuffer 6 6 ++
        env.adler32 ([0, 0] ++ htobe32 env.now ++ slice s.m_TimeSyncBuffer 6 6) := by
  have hadler : ∀ d, (env.adler32 d).length = 4 := hadler
  obtain ⟨b0, b1, b2, b3, b4, b5, b6, b7, b8, b9, b10, b11, b12, b13, b14, b15, hl⟩ :=
    list16 _ hbuf
  have hp : sendPadding 4 = 6 := by decide
  unfold timeSyncBufferOf sendChecksummed
  simp only [hp, hl, writeAt, slice, htobe32, List.take, List.drop, List.length_cons,
    List.length_nil, List.cons_append, List.nil_append, List.append_nil, Nat.reduceAdd,
    List.take_zero, List.drop_zero]
  generalize hA : env.adler32 _ = a
  have ha : a.length = 4 := hA ▸ hadler _
  obtain ⟨a0, a1, a2, a3, rfl⟩ : ∃ a0 a1 a2 a3, a = [a0, a1, a2, a3] := by
    match a, ha with
    | [a0, a1, a2, a3], _ => exact ⟨a0, a1, a2, a3, rfl⟩
  rfl

/-- C22: for every clock value the plaintext frame `Send (nullptr)` builds in
the 16-byte `m_TimeSyncBuffer` is 16 bytes: the length 0 in two bytes, the four
bytes of the time in big-endian order at offsets 2 to 6, the six bytes the
buffer held at offsets 6 to 12, and at offsets 12 to 16 the Adler-32 of the
first twelve bytes; what `Send` writes is the encryption of these 16 bytes. -/
theorem C22_keepalive_frame (env : Env) (s : NTCPSession) (hc : env.cipherOK)
    (hadler : env.adlerOK) (hbuf : s.m_TimeSyncBuffer.length = 16)
    (hiv : s.m_Encryption.iv.length = 16) :
    (timeSyncBufferOf env s).take 16 =
      [0, 0] ++ [env.now / 16777216 % 256, env.now / 65536 % 256, env.now / 256 % 256,
        env.now % 256] ++ slice s.m_TimeSyncBuffer 6 6 ++
        env.adler32 ([0, 0] ++ htobe32 env.now ++ slice s.m_TimeSyncBuffer 6 6) ∧
    ((timeSyncBufferOf env s).take 16).length = 16 ∧
    lastWritten (Send env s none)
      = (cbcEncryptBlocks env s.m_Encryption.key 1 s.m_Encryption.iv
          ((timeSyncBufferOf env s).take 16)).1 ∧
    (lastWritten (Send env s none)).length = 16 := by
  have hf := timeSync_frame env s hadler hbuf
  have hadler4 : ∀ d, (env.adler32 d).length = 4 := hadler
  have hlen : ((timeSyncBufferOf env s).take 16).length = 16 := by
    rw [hf]
    simp only [List.length_append, hadler4, htobe32, List.length_cons, List.length_nil]
    rw [slice_length _ _ _ (by omega)]
  have hE : cbcEncryptBlocks env s.m_Encryption.key 1 s.m_Encryption.iv (timeSyncBufferOf env s)
      = cbcEncryptBlocks env s.m_Encryption.key 1 s.m_Encryption.iv
        ((timeSyncBufferOf env s).take 16) := by
    rw [← cbcEncryptBlocks_take env _ 1 _ (timeSyncBufferOf env s)]
  have hcl := (cbcEncryptBlocks_length env hc s.m_Encryption.key 1 s.m_Encryption.iv
    ((timeSyncBufferOf env s).take 16) hiv (by omega)).1
  have hp : sendPadding 4 = 6 := by decide
  have hw : lastWritten (Send env s none)
      = (cbcEncryptBlocks env s.m_Encryption.key 1 s.m_Encryption.iv
          ((timeSyncBufferOf env s).take 16)).1 := by
    have h16 : (4 + 6 + 6) / 16 = 1 := by decide
    have h16b : 4 + 6 + 6 = 16 := by decide
    rw [lastWritten_of_trace (Send env s none) s.trace
      ((writeAt (timeSyncBufferOf env s) 0 (cbcEncryptBlocks env s.m_Encryption.key 1
        s.m_Encryption.iv (timeSyncBufferOf env s)).1).take 16) (Handler.HandleSent none)
      (by simp only [Send, hp, CBCEncryption.Encrypt, NTCPSession.emit, h16, h16b])]
    rw [hE]
    unfold writeAt
    rw [List.take_zero, List.nil_append, List.take_left' hcl]
  refine ⟨?_, hlen, hw, ?_⟩
  · rw [hf]
    rfl
  · rw [hw, hcl]

set_option maxRecDepth 100000 in
/-- Witness for C22: the time-sync frame of the demo session at the clock
value 1400000000, which is `53 72 4E 00` in big-endian order. -/
theorem C22_keepalive_frame_witness :
    (timeSyncBufferOf demoEnv demoSession).take 16 =
      [0, 0, 0x53, 0x72, 0x4E, 0x00, 0, 0, 0, 0, 0, 0] ++
        demoEnv.adler32 [0, 0, 0x53, 0x72, 0x4E, 0x00, 0, 0, 0, 0, 0, 0] ∧
    (lastWritten (Send demoEnv demoSession none)).length = 16 :=
  have h := C22_keepalive_frame demoEnv demoSession demoEnv_cipherOK demoEnv_adlerOK
    (by decide) (by decide)
  ⟨h.1.trans (by decide), h.2.2.2⟩

/-- Counterexample to C23 as stated: for a payload of 11 bytes `Send`
inserts 15 padding bytes, not 3. -/
theorem C23_padding_for_11_is_not_3 : sendPadding 11 = 15 ∧ sendPadding 11 ≠ 3 := by
  decide

/-- C23 (amended): for every message with a payload of 11 bytes the number
of padding bytes `Send` inserts between the payload and the checksum is 15, so
that the frame of `11 + 2 + 15 + 4 = 32` bytes is two whole blocks. -/
theorem C23_padding_for_11 (msg : I2NPMessage) (h : msg.GetLength = 11) :
    sendPadding msg.GetLength = 15 ∧
    msg.GetLength + sendPadding msg.GetLength + 6 = 32 := by
  rw [h]
  decide

/-- Witness for C23: a message with the eleven payload bytes `1 .. 11`. -/
theorem C23_padding_for_11_witness :
    sendPadding (I2NPMessage.GetLength
      { buf := [0, 0, 1, 2, 3, 4, 5, 6, 7, 8, 9, 10, 11] ++ List.replicate 19 0, len := 13,
        offset := 2 }) = 15 ∧
    I2NPMessage.GetLength
      { buf := [0, 0, 1, 2, 3, 4, 5, 6, 7, 8, 9, 10, 11] ++ List.replicate 19 0, len := 13,
        offset := 2 } +
      sendPadding (I2NPMessage.GetLength
        { buf := [0, 0, 1, 2, 3, 4, 5, 6, 7, 8, 9, 10, 11] ++ List.replicate 19 0, len := 13,
          offset := 2 }) + 6 = 32 :=
  C23_padding_for_11
    { buf := [0, 0, 1, 2, 3, 4, 5, 6, 7, 8, 9, 10, 11] ++ List.replicate 19 0, len := 13,
      offset := 2 } (by decide)

/-- C24 (code bug): the stream `50 50 4B 07 08` holds the signature
`50 4B 07 08` from its second byte on, and `FindZipDataDescriptor` returns
`false` at the end of the stream: at the second `50` the matcher gives up the
byte it had matched and does not try that `50` as a first byte.  On
`01 50 4B 07 08 09` it returns `true` with the stream behind the signature. -/
theorem C24_signature_behind_50_missed :
    slice shadowedSignature 1 4 = ZIP_DATA_DESCRIPTOR_SIGNATURE ∧
    (FindZipDataDescriptor demoReseedEnv 100 (IStream.open shadowedSignature false)).map
      (fun r => r.1) = some false ∧
    (FindZipDataDescriptor demoReseedEnv 100
      (IStream.open [1, 0x50, 0x4B, 0x07, 0x08, 9] false)).map (fun r => (r.1, r.2.tellg))
      = some (true, 5) := by
  refine ⟨?_, ?_, ?_⟩
  · decide
  · decide
  · decide

set_option maxRecDepth 100000 in
/-- C26 (code bug): an archive that declares a content length of 0 and has a
local file where its content would start.  The loop tests the content length
only behind a record, so `ProcessSU3Stream` hands the record, which begins at
`p + C`, to `AddRouterInfo` and returns 1.  Second archive: a content of 32
bytes that is one local file of size 0, and a local file behind the content.
The `continue` for size 0 skips the test of the content length, and the
record beginning at `p + C` is handed over; where the first record has data
(third archive, content of 35 bytes), the record behind the content is not
handed over. -/
theorem C26_record_beyond_content_ingested :
    (demoSU3 0).contentLength = 0 ∧ (demoSU3 0).wellFormed ∧
    (ProcessSU3Stream demoReseedEnv 100
      (IStream.open ((demoSU3 0).bytes [storedEntry [1, 2, 3]] [] []) false)).completion
      = Completion.returned 1 ∧
    (ProcessSU3Stream demoReseedEnv 100
      (IStream.open ((demoSU3 0).bytes [storedEntry [1, 2, 3]] [] []) false)).added
      = [[1, 2, 3]] ∧
    (zipBytes [storedEntry []]).length = 32 ∧
    (ProcessSU3Stream demoReseedEnv 200
      (IStream.open ((demoSU3 32).bytes [storedEntry [], storedEntry [1, 2, 3]] [] [])
        false)).completion = Completion.returned 1 ∧
    (ProcessSU3Stream demoReseedEnv 200
      (IStream.open ((demoSU3 32).bytes [storedEntry [], storedEntry [1, 2, 3]] [] [])
        false)).added = [[1, 2, 3]] ∧
    (zipBytes [storedEntry [7, 7, 7]]).length = 35 ∧
    (ProcessSU3Stream demoReseedEnv 200
      (IStream.open ((demoSU3 35).bytes [storedEntry [7, 7, 7], storedEntry [1, 2, 3]] [] [])
        false)).added = [[7, 7, 7]] := by
  refine ⟨rfl, ?_, ?_, ?_, ?_, ?_, ?_, ?_, ?_⟩
  · unfold SU3File.wellFormed
    decide
  · decide
  · decide
  · decide
  · decide
  · decide
  · decide
  · decide

set_option maxRecDepth 100000 in
/-- C27 (code bug): `dh.Agree` rejects the public key zero.  On the
responder `CreateAESKey` calls `Terminate`, and `SendPhase2` goes on: it sets
both contexts with the key buffer nobody wrote and writes the 304 bytes of
phase 2 to the closed socket.  On the initiator `HandlePhase2Received` goes on
likewise and sets both contexts with the unwritten key. -/
theorem C27_agree_failure_caller_goes_on :
    strictEnv.dhAgree pairA.privateKey zeroPubKey = none ∧
    (HandlePhase1Received strictEnv demoSession ErrorCode.success zeroPhase1).map
      (fun s => (terminateCount s, s.m_Encryption.key, s.m_Decryption.key,
        (written s).map List.length))
      = some (1, strictEnv.indeterminateAESKey, strictEnv.indeterminateAESKey, [304]) ∧
    (HandlePhase1Received strictEnv demoSession ErrorCode.success zeroPhase1).map
      (fun s => s.trace.map (fun e => decide (e = Event.RemoveNTCPSession)))
      = some [false, true, false] ∧
    (HandlePhase2Received strictEnv demoSession ErrorCode.success zeroPhase2).map
      (fun s => (s.m_Encryption.key, s.m_Decryption.key))
      = some (strictEnv.indeterminateAESKey, strictEnv.indeterminateAESKey) := by
  refine ⟨?_, ?_, ?_, ?_⟩
  · decide
  · decide
  · decide
  · decide

/-- C28 (code bug): for a message with offset 1 `Send` calls
`DeleteI2NPMessage` and goes on: it encrypts a frame from the released message
and writes it to the socket, and `HandleSent` releases the message a second
time. -/
theorem C28_malformed_message_still_sent :
    malformedMsg.offset < 2 ∧
    (Send demoEnv demoSession (some malformedMsg)).trace.map
      (fun e => match e with
        | Event.DeleteI2NPMessage m => (decide (m = malformedMsg), 0)
        | Event.async_write d h => (decide (h = Handler.HandleSent (some malformedMsg)), d.length)
        | _ => (false, 0))
      = [(true, 0), (true, 16)] ∧
    (HandleSent (Send demoEnv demoSession (some malformedMsg)) ErrorCode.success 16
      (some malformedMsg)).trace.count (Event.DeleteI2NPMessage malformedMsg) = 2 := by
  refine ⟨?_, ?_, ?_⟩
  · decide
  · decide
  · decide

set_option maxRecDepth 100000 in
/-- C30 (code bug): a local file header with a file name of 255 bytes.  The
255 name bytes fill `localFileName[255]` and the terminating zero is written to
index 255, behind the buffer; a name of 254 bytes fits. -/
theorem C30_file_name_overruns_buffer :
    longNameEntry.fileName.length = 255 ∧
    (ProcessSU3Stream demoReseedEnv 400
      (IStream.open ((demoSU3 288).bytes [longNameEntry] [] []) false)).completion
      = Completion.bufferOverrun ∧
    (ProcessSU3Stream demoReseedEnv 400
      (IStream.open ((demoSU3 287).bytes
        [{ longNameEntry with fileName := List.replicate 254 114 }] [] []) false)).completion
      = Completion.returned 1 := by
  refine ⟨?_, ?_, ?_⟩
  · decide
  · decide
  · decide

theorem dispatched_emit_message (s : NTCPSession) (m : I2NPMessage) :
    dispatched (s.emit (Event.HandleI2NPMessage m)) = dispatched s ++ [m] := by
  simp only [dispatched, NTCPSession.emit, List.filterMap_append, List.filterMap_cons,
    List.filterMap_nil]

/-- `DecryptNextBlock` on a block of a message in progress that does not
complete it. -/
theorem DecryptNextBlock_more_eq (env : Env) (s : NTCPSession) (m : I2NPMessage) (b : List Nat)
    (hm : s.m_NextMessage = some m) (hlt : s.m_NextMessageOffset + 16 < m.len + 4) :
    DecryptNextBlock env s b = (true,
      { s with
        m_NextMessage := some { m with
          buf := writeAt m.buf s.m_NextMessageOffset (s.m_Decryption.Decrypt env b).1 }
        m_Decryption := (s.m_Decryption.Decrypt env b).2
        m_NextMessageOffset := s.m_NextMessageOffset + 16 }) := by
  have hn : ¬ (s.m_NextMessageOffset + 16 ≥ m.len + 4) := by omega
  simp only [DecryptNextBlock, hm, completeNextMessage, hn, if_false]

/-- `DecryptNextBlock` on the block that completes the message in progress. -/
theorem DecryptNextBlock_last_eq (env : Env) (s : NTCPSession) (m : I2NPMessage) (b : List Nat)
    (hm : s.m_NextMessage = some m) (hge : m.len + 4 ≤ s.m_NextMessageOffset + 16) :
    DecryptNextBlock env s b = (true,
      { s with
        m_NextMessage := none
        m_Decryption := (s.m_Decryption.Decrypt env b).2
        m_NextMessageOffset := s.m_NextMessageOffset + 16 }.emit
        (Event.HandleI2NPMessage { m with
          buf := writeAt m.buf s.m_NextMessageOffset (s.m_Decryption.Decrypt env b).1 })) := by
  have hn : s.m_NextMessageOffset + 16 ≥ m.len + 4 := by omega
  simp only [DecryptNextBlock, hm, completeNextMessage, hn, if_true]

/-- A block of a message in progress that does not complete it: the block is
accepted, nothing is handed over and the message stays in progress. -/
theorem DecryptNextBlock_more (env : Env) (s : NTCPSession) (m : I2NPMessage) (b : List Nat)
    (hm : s.m_NextMessage = some m) (hlt : s.m_NextMessageOffset + 16 < m.len + 4) :
    (DecryptNextBlock env s b).1 = true ∧
    (∃ m1, (DecryptNextBlock env s b).2.m_NextMessage = some m1 ∧ m1.len = m.len ∧
      m1.offset = m.offset) ∧
    (DecryptNextBlock env s b).2.m_NextMessageOffset = s.m_NextMessageOffset + 16 ∧
    dispatched (DecryptNextBlock env s b).2 = dispatched s := by
  rw [DecryptNextBlock_more_eq env s m b hm hlt]
  exact ⟨rfl, ⟨_, rfl, rfl, rfl⟩, rfl, rfl⟩

/-- The block of a message in progress that completes it: the block is
accepted, the message is handed over and no message stays in progress. -/
theorem DecryptNextBlock_last (env : Env) (s : NTCPSession) (m : I2NPMessage) (b : List Nat)
    (hm : s.m_NextMessage = some m) (hge : m.len + 4 ≤ s.m_NextMessageOffset + 16) :
    (DecryptNextBlock env s b).1 = true ∧
    (DecryptNextBlock env s b).2.m_NextMessage = none ∧
    ∃ m1, dispatched (DecryptNextBlock env s b).2 = dispatched s ++ [m1] ∧ m1.len = m.len ∧
      m1.offset = m.offset := by
  rw [DecryptNextBlock_last_eq env s m b hm hge]
  exact ⟨rfl, rfl, _, dispatched_emit_message _ _, rfl, rfl⟩

/-- `DecryptNextBlock` on the first block of a message with length prefix
`L` in `1 .. 16384`. -/
theorem DecryptNextBlock_first_eq (env : Env) (s : NTCPSession) (L : Nat) (b : List Nat)
    (hnone : s.m_NextMessage = none)
    (hL : be16toh (writeAt env.NewI2NPMessage.buf 0 (s.m_Decryption.Decrypt env b).1) = L)
    (hL1 : 1 ≤ L) (hL2 : L ≤ 16384) :
    DecryptNextBlock env s b = (true, completeNextMessage
      { s with
        m_NextMessage := some { buf := writeAt env.NewI2NPMessage.buf 0
                                  (s.m_Decryption.Decrypt env b).1, len := L + 2, offset := 2 }
        m_Decryption := (s.m_Decryption.Decrypt env b).2
        m_NextMessageOffset := 0 + 16 }
      { buf := writeAt env.NewI2NPMessage.buf 0 (s.m_Decryption.Decrypt env b).1,
        len := L + 2, offset := 2 }) := by
  have hne : L ≠ 0 := by omega
  have hmax : ¬ (L > NTCP_MAX_MESSAGE_SIZE) := by
    show ¬ (L > 16384)
    omega
  simp only [DecryptNextBlock, hnone, hL, hne, hmax, ne_eq, not_false_eq_true, if_true, if_false]

/-- The first block of a message with length prefix `L` in `1 .. 16384`: the
block is accepted; the message is handed over at once when `L + 6 <= 16`, and
is in progress with 16 bytes otherwise. -/
theorem DecryptNextBlock_first (env : Env) (s : NTCPSession) (L : Nat) (b : List Nat)
    (hnone : s.m_NextMessage = none)
    (hL : be16toh (writeAt env.NewI2NPMessage.buf 0 (s.m_Decryption.Decrypt env b).1) = L)
    (hL1 : 1 ≤ L) (hL2 : L ≤ 16384) :
    (DecryptNextBlock env s b).1 = true ∧
    (L + 6 ≤ 16 → (DecryptNextBlock env s b).2.m_NextMessage = none ∧
      ∃ m1, dispatched (DecryptNextBlock env s b).2 = dispatched s ++ [m1] ∧ m1.len = L + 2 ∧
        m1.offset = 2) ∧
    (16 < L + 6 → (∃ m1, (DecryptNextBlock env s b).2.m_NextMessage = some m1 ∧
        m1.len = L + 2 ∧ m1.offset = 2) ∧
      (DecryptNextBlock env s b).2.m_NextMessageOffset = 16 ∧
      dispatched (DecryptNextBlock env s b).2 = dispatched s) := by
  rw [DecryptNextBlock_first_eq env s L b hnone hL hL1 hL2]
  unfold completeNextMessage
  by_cases h16 : L + 6 ≤ 16
  · have hge : 0 + 16 ≥ L + 2 + 4 := by omega
    rw [if_pos hge]
    exact ⟨rfl, fun _ => ⟨rfl, _, dispatched_emit_message _ _, rfl, rfl⟩,
      fun h => absurd h16 (by omega)⟩
  · have hge : ¬ (0 + 16 ≥ L + 2 + 4) := by omega
    rw [if_neg hge]
    exact ⟨rfl, fun h => absurd h h16, fun _ => ⟨⟨_, rfl, rfl, rfl⟩, rfl, rfl⟩⟩

/-- Blocks of a message in progress that do not complete it. -/
theorem decryptBlocks_more (env : Env) (bs : List (List Nat)) :
    ∀ (s : NTCPSession) (m : I2NPMessage), s.m_NextMessage = some m →
      s.m_NextMessageOffset + 16 * bs.length < m.len + 4 →
      (decryptBlocks env s bs).1 = true ∧
      (∃ m1, (decryptBlocks env s bs).2.m_NextMessage = some m1 ∧ m1.len = m.len ∧
        m1.offset = m.offset) ∧
      (decryptBlocks env s bs).2.m_NextMessageOffset = s.m_NextMessageOffset + 16 * bs.length ∧
      dispatched (decryptBlocks env s bs).2 = dispatched s := by
  induction bs with
  | nil =>
    intro s m hm _
    exact ⟨rfl, ⟨m, hm, rfl, rfl⟩, rfl, rfl⟩
  | cons b bs ih =>
    intro s m hm hlt
    rw [List.length_cons] at hlt
    obtain ⟨h1, ⟨m1, hm1, hl1, ho1⟩, hoff, hd⟩ := DecryptNextBlock_more env s m b hm (by omega)
    obtain ⟨i1, ⟨m2, hm2, hl2, ho2⟩, ioff, id⟩ := ih (DecryptNextBlock env s b).2 m1 hm1
      (by rw [hoff, hl1]; omega)
    simp only [decryptBlocks, h1, Bool.not_true, Bool.false_eq_true, if_false]
    refine ⟨i1, ⟨m2, hm2, hl2.trans hl1, ho2.trans ho1⟩, ?_, id.trans hd⟩
    rw [ioff, hoff, List.length_cons]
    omega

/-- Blocks of a message in progress of which the last one completes it. -/
theorem decryptBlocks_last (env : Env) (bs : List (List Nat)) :
    ∀ (s : NTCPSession) (m : I2NPMessage), s.m_NextMessage = some m →
      1 ≤ bs.length →
      s.m_NextMessageOffset + 16 * (bs.length - 1) < m.len + 4 →
      m.len + 4 ≤ s.m_NextMessageOffset + 16 * bs.length →
      (decryptBlocks env s bs).1 = true ∧
      (decryptBlocks env s bs).2.m_NextMessage = none ∧
      ∃ m1, dispatched (decryptBlocks env s bs).2 = dispatched s ++ [m1] ∧ m1.len = m.len ∧
        m1.offset = m.offset := by
  induction bs with
  | nil =>
    intro s m _ h1
    exact absurd h1 (by decide)
  | cons b bs ih =>
    intro s m hm _ hlt hge
    rw [List.length_cons] at hlt hge
    by_cases hb : bs.length = 0
    · have hnil : bs = [] := List.length_eq_zero.mp hb
      obtain ⟨h1, hn, m1, hd, hl1, ho1⟩ := DecryptNextBlock_last env s m b hm (by omega)
      subst hnil
      simp only [decryptBlocks, h1, Bool.not_true, Bool.false_eq_true, if_false]
      exact ⟨trivial, hn, m1, hd, hl1, ho1⟩
    · obtain ⟨h1, ⟨m1, hm1, hl1, ho1⟩, hoff, hd⟩ := DecryptNextBlock_more env s m b hm (by omega)
      obtain ⟨i1, inone, m2, id, il, io⟩ := ih (DecryptNextBlock env s b).2 m1 hm1 (by omega)
        (by rw [hoff, hl1]; omega) (by rw [hoff, hl1]; omega)
      simp only [decryptBlocks, h1, Bool.not_true, Bool.false_eq_true, if_false]
      refine ⟨i1, inone, m2, ?_, il.trans hl1, io.trans ho1⟩
      rw [id, hd]

/-- C25: for every length prefix `L` with `1 <= L <= 16384` that
`DecryptNextBlock` reads from the first block `b0` when no message is in
progress, and whatever blocks follow: after `j` blocks with
`1 <= j < ceil((L + 6) / 16)` every block was accepted, nothing was handed
over and the message (of `len = L + 2`) is in progress; after exactly
`ceil((L + 6) / 16)` blocks the message is handed over, once, and no message
is in progress, so that the next block is taken for a header.  These blocks
are `L + 6 + P` bytes with `P = (16 - ((L + 6) mod 16)) mod 16` the padding
of `Send`, and that is the length of the frame `Send` writes for a message of
`L` payload bytes. -/
theorem C25_dispatch_block_count (env : Env) (s : NTCPSession) (L : Nat) (b0 : List Nat)
    (rest : List (List Nat)) (hnone : s.m_NextMessage = none)
    (hL : be16toh (writeAt env.NewI2NPMessage.buf 0 (s.m_Decryption.Decrypt env b0).1) = L)
    (hL1 : 1 ≤ L) (hL2 : L ≤ 16384) :
    (∀ j, 1 ≤ j → j < (L + 6 + 15) / 16 → j ≤ (b0 :: rest).length →
      (decryptBlocks env s ((b0 :: rest).take j)).1 = true ∧
      dispatched (decryptBlocks env s ((b0 :: rest).take j)).2 = dispatched s ∧
      ∃ m, (decryptBlocks env s ((b0 :: rest).take j)).2.m_NextMessage = some m ∧
        m.len = L + 2 ∧ m.offset = 2) ∧
    ((L + 6 + 15) / 16 ≤ (b0 :: rest).length →
      (decryptBlocks env s ((b0 :: rest).take ((L + 6 + 15) / 16))).1 = true ∧
      (∃ m, dispatched (decryptBlocks env s ((b0 :: rest).take ((L + 6 + 15) / 16))).2
          = dispatched s ++ [m] ∧ m.len = L + 2 ∧ m.offset = 2) ∧
      (decryptBlocks env s ((b0 :: rest).take ((L + 6 + 15) / 16))).2.m_NextMessage = none) ∧
    16 * ((L + 6 + 15) / 16) = L + 6 + sendPadding L ∧
    sendPadding L = (16 - (L + 6) % 16) % 16 ∧
    (∀ (sender : NTCPSession) (msg : I2NPMessage), env.cipherOK → env.adlerOK →
      sender.m_Encryption.iv.length = 16 → 2 ≤ msg.offset → msg.offset ≤ msg.len →
      msg.len + sendPadding msg.GetLength + 4 ≤ msg.buf.length → msg.GetLength = L →
      (lastWritten (Send env sender (some msg))).length = 16 * ((L + 6 + 15) / 16)) := by
  have hal := sendPadding_aligned L
  have hlt := sendPadding_lt L
  have hsz : 16 * ((L + 6 + 15) / 16) = L + 6 + sendPadding L := by omega
  obtain ⟨f1, fdone, fmore⟩ := DecryptNextBlock_first env s L b0 hnone hL hL1 hL2
  refine ⟨?_, ?_, hsz, sendPadding_eq L, ?_⟩
  · intro j hj1 hjn hjl
    obtain ⟨k, rfl⟩ : ∃ k, j = k + 1 := ⟨j - 1, by omega⟩
    have h16 : 16 < L + 6 := by omega
    obtain ⟨⟨m1, hm1, hl1, ho1⟩, hoff, hd⟩ := fmore h16
    have hk : (rest.take k).length = k := by
      rw [List.length_take]
      rw [List.length_cons] at hjl
      omega
    obtain ⟨i1, ⟨m2, hm2, hl2, ho2⟩, _, id⟩ := decryptBlocks_more env (rest.take k)
      (DecryptNextBlock env s b0).2 m1 hm1 (by rw [hoff, hl1, hk]; omega)
    simp only [List.take_succ_cons, decryptBlocks, f1, Bool.not_true, Bool.false_eq_true,
      if_false]
    exact ⟨i1, id.trans hd, m2, hm2, hl2.trans hl1, ho2.trans ho1⟩
  · intro hnl
    obtain ⟨k, hk⟩ : ∃ k, (L + 6 + 15) / 16 = k + 1 := ⟨(L + 6 + 15) / 16 - 1, by omega⟩
    rw [hk]
    simp only [List.take_succ_cons, decryptBlocks, f1, Bool.not_true, Bool.false_eq_true,
      if_false]
    by_cases h16 : L + 6 ≤ 16
    · have hk0 : k = 0 := by omega
      subst hk0
      obtain ⟨hn, m1, hd, hl1, ho1⟩ := fdone h16
      simp only [List.take_zero, decryptBlocks]
      exact ⟨trivial, ⟨m1, hd, hl1, ho1⟩, hn⟩
    · obtain ⟨⟨m1, hm1, hl1, ho1⟩, hoff, hd⟩ := fmore (by omega)
      have hkl : (rest.take k).length = k := by
        rw [List.length_take]
        rw [List.length_cons] at hnl
        omega
      obtain ⟨i1, inone, m2, id, il, io⟩ := decryptBlocks_last env (rest.take k)
        (DecryptNextBlock env s b0).2 m1 hm1 (by rw [hkl]; omega)
        (by rw [hoff, hl1, hkl]; omega) (by rw [hoff, hl1, hkl]; omega)
      refine ⟨i1, ⟨m2, ?_, il.trans hl1, io.trans ho1⟩, inone⟩
      rw [id, hd]
  · intro sender msg hc hadler hiv hoff hlen hroom hG
    have hl := sendFrame_length env msg hadler hoff hlen hroom
    have hcl := (cbcEncryptBlocks_length env hc sender.m_Encryption.key
      ((msg.GetLength + sendPadding msg.GetLength + 6) / 16) sender.m_Encryption.iv
      (sendFrame env msg) hiv (by rw [hl]; exact Nat.mul_div_le _ _)).1
    rw [lastWritten_of_trace _ sender.trace _ (Handler.HandleSent (some msg))
      (by rw [Send_trace env hc hadler sender msg hiv hoff hlen hroom]), hcl, hG]
    have : (L + sendPadding L + 6) / 16 = (L + 6 + 15) / 16 := by omega
    rw [this]

/-- Witness for C25: a header block that announces 20 payload bytes, followed
by two more blocks; the message is handed over after the second block. -/
theorem C25_dispatch_block_count_witness :
    (decryptBlocks demoEnv demoSession ((header20Block ::
        [List.replicate 16 0, List.replicate 16 0]).take ((20 + 6 + 15) / 16))).1 = true ∧
    (∃ m, dispatched (decryptBlocks demoEnv demoSession ((header20Block ::
        [List.replicate 16 0, List.replicate 16 0]).take ((20 + 6 + 15) / 16))).2
          = dispatched demoSession ++ [m] ∧ m.len = 20 + 2 ∧ m.offset = 2) ∧
    (decryptBlocks demoEnv demoSession ((header20Block ::
        [List.replicate 16 0, List.replicate 16 0]).take ((20 + 6 + 15) / 16))).2.m_NextMessage
      = none :=
  (C25_dispatch_block_count demoEnv demoSession 20 header20Block
    [List.replicate 16 0, List.replicate 16 0] rfl (by decide) (by decide) (by decide)).2.1
    (by decide)

/-- `su3File` on a record of which the data `x` is read and on which the
inflator does not throw: the stream is behind the record, whether the record
was handed over or not. -/
theorem su3File_position (env : ReseedEnv) (contentPos contentLength : Nat) (sp : Bool)
    (pre x tail post : List Nat) (h : LocalFileHeader) (numFiles : Nat)
    (added : List (List Nat))
    (hs : h.stream = IStream.mkAt sp pre (x ++ (tail ++ post)))
    (hx : x.length = h.compressedSize) (hx0 : 0 < x.length)
    (htail : if h.bitFlag &&& ZIP_BIT_FLAG_DATA_DESCRIPTOR ≠ 0 then tail.length = 12
      else tail = [])
    (hd : h.compressionMethod ≠ 0 → env.inflate x ≠ none) :
    ∃ numFiles1 added1,
      su3File env contentPos contentLength h numFiles added
        = LoopStep.next (IStream.mkAt sp (pre ++ x ++ tail) post) numFiles1 added1 h.locals ∨
      su3File env contentPos contentLength h numFiles added
        = LoopStep.done { completion := Completion.returned numFiles1, added := added1,
                          stream := IStream.mkAt sp (pre ++ x ++ tail) post } := by
  have hne : h.compressedSize ≠ 0 := by omega
  have hskip : (if h.bitFlag &&& ZIP_BIT_FLAG_DATA_DESCRIPTOR ≠ 0 then
        (IStream.mkAt sp (pre ++ x) (tail ++ post)).seekg_cur 12
      else IStream.mkAt sp (pre ++ x) (tail ++ post))
      = IStream.mkAt sp (pre ++ x ++ tail) post := by
    split
    · rename_i hb
      rw [if_pos hb] at htail
      rw [seekg_cur_mkAt sp _ tail post 12 htail]
    · rename_i hb
      rw [if_neg hb] at htail
      rw [htail, List.nil_append, List.append_nil]
  have hproc : ∃ numFiles1 added1, processLocalFile env h numFiles added
      = some (numFiles1, added1, IStream.mkAt sp (pre ++ x ++ tail) post) := by
    unfold processLocalFile
    simp only [hs, read_mkAt sp pre x (tail ++ post) h.compressedSize hx,
      stored_full _ x h.compressedSize hx, hskip]
    by_cases hm : h.compressionMethod ≠ 0
    · rw [if_pos hm]
      cases hr : env.inflate x with
      | none => exact absurd hr (hd hm)
      | some r =>
        simp only []
        by_cases hle : r.length ≤ h.uncompressedSize
        · rw [if_pos hle]
          exact ⟨_, _, rfl⟩
        · rw [if_neg hle]
          exact ⟨_, _, rfl⟩
    · rw [if_neg hm]
      exact ⟨_, _, rfl⟩
  obtain ⟨numFiles1, added1, hp⟩ := hproc
  refine ⟨numFiles1, added1, ?_⟩
  unfold su3File
  rw [if_neg hne]
  simp only [hp]
  split
  · exact Or.inr rfl
  · exact Or.inl rfl

set_option maxRecDepth 100000 in
/-- Counterexample to C29 as stated.  First archive: a compressed local file
with the data-descriptor bit set, one byte of data and a data descriptor
behind it, on whose data the inflator throws; the exception leaves
`ProcessSU3Stream` with the stream at payload start + n + 4, and the 12 bytes
left of the data descriptor are not skipped.  Second archive: a stored local
file with the data-descriptor bit set whose one byte of data is `50`, with its
data descriptor and a central directory behind it; the first `50 4B 07 08`
behind the payload start is the signature of the descriptor, the matcher of
`FindZipDataDescriptor` misses it and runs to the end of the stream, and
`ProcessSU3Stream` returns 0 with the stream failed at its end. -/
theorem C29_inflator_throws_before_skip :
    ((demoSU3 49).prefixBytes.length + 4 + brokenDeflateEntry.headerBytes.length = 78 ∧
     brokenDeflateEntry.compressed.length = 1 ∧
     descriptorScan brokenDeflateEntry.compressed 0 = some 0 ∧
     (ProcessSU3Stream demoReseedEnv 100
       (IStream.open ((demoSU3 49).bytes [brokenDeflateEntry] [] []) false)).completion
       = Completion.thrown ∧
     (ProcessSU3Stream demoReseedEnv 100
       (IStream.open ((demoSU3 49).bytes [brokenDeflateEntry] [] []) false)).stream.tellg
       = 78 + 1 + 4) ∧
    ((demoSU3 55).prefixBytes.length + 4 + shadowedEntry.headerBytes.length = 78 ∧
     shadowedEntry.compressed = [0x50] ∧
     (ProcessSU3Stream demoReseedEnv 200
       (IStream.open ((demoSU3 55).bytes [shadowedEntry] demoTrailer []) false)).completion
       = Completion.returned 0 ∧
     (ProcessSU3Stream demoReseedEnv 200
       (IStream.open ((demoSU3 55).bytes [shadowedEntry] demoTrailer []) false)).added = [] ∧
     (ProcessSU3Stream demoReseedEnv 200
       (IStream.open ((demoSU3 55).bytes [shadowedEntry] demoTrailer []) false)).stream.failbit
       = true ∧
     (ProcessSU3Stream demoReseedEnv 200
       (IStream.open ((demoSU3 55).bytes [shadowedEntry] demoTrailer []) false)).stream.pos
       = 78 + 1 + 16 + 6) := by
  refine ⟨⟨?_, ?_, ?_, ?_, ?_⟩, ?_, ?_, ?_, ?_, ?_, ?_⟩
  · decide
  · decide
  · decide
  · decide
  · decide
  · decide
  · decide
  · decide
  · decide
  · decide
  · decide

/-- C29 (amended): one turn of the loop of `ProcessSU3Stream` on a local
file record with the data-descriptor bit set, whose `n` bytes of data are
followed by a 16-byte data descriptor that says `n`, leaves the stream at
payload start + `n` + 16 when the matcher of `FindZipDataDescriptor` finds no
signature in the data and has no byte matched at their end, and the inflator
does not throw on a compressed record. -/
theorem C29_position_after_descriptor (env : ReseedEnv)
    (innerFuel contentPos contentLength : Nat) (sp : Bool) (pre post : List Nat) (e : ZipEntry)
    (dd : DataDescriptor) (numFiles : Nat) (added : List (List Nat)) (locals : SU3Locals)
    (hf : e.fieldsOK) (hdd : e.dataDescriptor = some dd)
    (hbit : e.bitFlag &&& ZIP_BIT_FLAG_DATA_DESCRIPTOR ≠ 0)
    (hcrc : dd.crc.length = 4) (hcs : dd.compressedSize = e.compressed.length)
    (hc32 : e.compressed.length + 4 < 4294967296) (hus : dd.uncompressedSize < 4294967296)
    (hscan : descriptorScan e.compressed 0 = some 0)
    (hd : e.compressionMethod ≠ 0 →
      env.inflate (e.compressed ++ ZIP_DATA_DESCRIPTOR_SIGNATURE) ≠ none)
    (hfuel : e.compressed.length + 4 < innerFuel) :
    ∃ s1 numFiles1 added1 locals1,
      (su3Body env innerFuel contentPos contentLength (IStream.mkAt sp pre (e.bytes ++ post))
          numFiles added locals = LoopStep.next s1 numFiles1 added1 locals1 ∨
       su3Body env innerFuel contentPos contentLength (IStream.mkAt sp pre (e.bytes ++ post))
          numFiles added locals = LoopStep.done { completion := Completion.returned numFiles1,
                                                  added := added1, stream := s1 }) ∧
      s1.tellg = (pre ++ htole32 ZIP_HEADER_SIGNATURE ++ e.headerBytes).length +
        e.compressed.length + 16 := by
  have hname : ¬ (e.fileName.length ≥ 255) := by
    have := hf.2.2.2.2.2.2.1
    omega
  have hb : e.bytes ++ post = htole32 ZIP_HEADER_SIGNATURE ++
      (e.headerBytes ++ (e.compressed ++ (e.descriptorBytes ++ post))) := by
    simp only [ZipEntry.bytes, List.append_assoc]
  have hsig : le32toh (htole32 ZIP_HEADER_SIGNATURE) = ZIP_HEADER_SIGNATURE :=
    le32toh_htole32 _ (by decide)
  have hdb : e.descriptorBytes = ZIP_DATA_DESCRIPTOR_SIGNATURE ++
      (dd.crc ++ (htole32 dd.compressedSize ++ htole32 dd.uncompressedSize)) := by
    simp only [ZipEntry.descriptorBytes, hdd, DataDescriptor.bytes]
  obtain ⟨f0, hf0⟩ : ∃ f0, innerFuel = (f0 + 4) + e.compressed.length :=
    ⟨innerFuel - 4 - e.compressed.length, by omega⟩
  have hfind : FindZipDataDescriptor env innerFuel
      (IStream.mkAt sp (pre ++ htole32 ZIP_HEADER_SIGNATURE ++ e.headerBytes)
        (e.compressed ++ (e.descriptorBytes ++ post)))
      = some (true, IStream.mkAt sp
          (pre ++ htole32 ZIP_HEADER_SIGNATURE ++ e.headerBytes ++
            (e.compressed ++ ZIP_DATA_DESCRIPTOR_SIGNATURE))
          (dd.crc ++ (htole32 dd.compressedSize ++ (htole32 dd.uncompressedSize ++ post)))) := by
    unfold FindZipDataDescriptor
    have hrest : ZIP_DATA_DESCRIPTOR_SIGNATURE ++
        (dd.crc ++ (htole32 dd.compressedSize ++ htole32 dd.uncompressedSize)) ++ post
        = ZIP_DATA_DESCRIPTOR_SIGNATURE ++
          (dd.crc ++ (htole32 dd.compressedSize ++ (htole32 dd.uncompressedSize ++ post))) := by
      simp only [List.append_assoc]
    rw [hf0, findLoop_data sp e.compressed (f0 + 4) 0 0 _ _ _ hscan, hdb, hrest,
      findLoop_signature]
    simp only [List.append_assoc]
  have hsl : ZIP_DATA_DESCRIPTOR_SIGNATURE.length = 4 := rfl
  obtain ⟨numFiles1, added1, hfile⟩ := su3File_position env contentPos contentLength sp
    (pre ++ htole32 ZIP_HEADER_SIGNATURE ++ e.headerBytes)
    (e.compressed ++ ZIP_DATA_DESCRIPTOR_SIGNATURE)
    (dd.crc ++ (htole32 dd.compressedSize ++ htole32 dd.uncompressedSize)) post
    { bitFlag := e.bitFlag, compressionMethod := e.compressionMethod,
      compressedSize := dd.compressedSize + 4, uncompressedSize := dd.uncompressedSize,
      fileNameLength := e.fileName.length, extraFieldLength := e.extraField.length,
      stream := IStream.mkAt sp (pre ++ htole32 ZIP_HEADER_SIGNATURE ++ e.headerBytes)
        ((e.compressed ++ ZIP_DATA_DESCRIPTOR_SIGNATURE) ++
          ((dd.crc ++ (htole32 dd.compressedSize ++ htole32 dd.uncompressedSize)) ++ post)) }
    numFiles added rfl
    (by simp only [List.length_append, hcs, hsl])
    (by simp only [List.length_append, hsl]; omega)
    (by
      show (if e.bitFlag &&& ZIP_BIT_FLAG_DATA_DESCRIPTOR ≠ 0 then _ else _)
      rw [if_pos hbit]
      simp only [List.length_append, hcrc, htole32_length])
    hd
  have hbody : su3Body env innerFuel contentPos contentLength
      (IStream.mkAt sp pre (e.bytes ++ post)) numFiles added locals
      = su3File env contentPos contentLength
        { bitFlag := e.bitFlag, compressionMethod := e.compressionMethod,
          compressedSize := dd.compressedSize + 4, uncompressedSize := dd.uncompressedSize,
          fileNameLength := e.fileName.length, extraFieldLength := e.extraField.length,
          stream := IStream.mkAt sp (pre ++ htole32 ZIP_HEADER_SIGNATURE ++ e.headerBytes)
            ((e.compressed ++ ZIP_DATA_DESCRIPTOR_SIGNATURE) ++
              ((dd.crc ++ (htole32 dd.compressedSize ++ htole32 dd.uncompressedSize)) ++ post)) }
        numFiles added := by
    unfold su3Body
    simp only [hb, readVar_mkAt _ sp pre _ _ 4 (htole32_length _), hsig, if_true,
      readLocalFileHeader_bytes locals sp _ _ e hf, hname, if_false]
    rw [if_pos hbit]
    simp only [hfind, tellg_mkAt]
    rw [readDataDescriptor_bytes sp _ _ post _ dd hcrc (by omega) hus]
  refine ⟨IStream.mkAt sp (pre ++ htole32 ZIP_HEADER_SIGNATURE ++ e.headerBytes ++
      (e.compressed ++ ZIP_DATA_DESCRIPTOR_SIGNATURE) ++
      (dd.crc ++ (htole32 dd.compressedSize ++ htole32 dd.uncompressedSize))) post,
    numFiles1, added1, ?w, ?h1, ?h2⟩
  case h1 =>
    rw [hbody]
    exact hfile
  case h2 =>
    rw [tellg_mkAt]
    simp only [List.length_append, hcrc, htole32_length, hsl]
    omega

set_option maxRecDepth 100000 in
/-- Witness for C29: a compressed local file with the data-descriptor bit
set and three bytes of data, behind 40 bytes of stream, followed by a central
directory. -/
theorem C29_position_after_descriptor_witness :
    ∃ s1 numFiles1 added1 locals1,
      (su3Body demoReseedEnv 100 40 1000
          (IStream.mkAt false (List.replicate 40 0)
            ((descriptorEntry 8 [2, 5, 6] 2).bytes ++ demoTrailer)) 0 [] demoReseedEnv.locals
          = LoopStep.next s1 numFiles1 added1 locals1 ∨
       su3Body demoReseedEnv 100 40 1000
          (IStream.mkAt false (List.replicate 40 0)
            ((descriptorEntry 8 [2, 5, 6] 2).bytes ++ demoTrailer)) 0 [] demoReseedEnv.locals
          = LoopStep.done { completion := Completion.returned numFiles1,
                            added := added1, stream := s1 }) ∧
      s1.tellg = (List.replicate 40 0 ++ htole32 ZIP_HEADER_SIGNATURE ++
          (descriptorEntry 8 [2, 5, 6] 2).headerBytes).length +
        (descriptorEntry 8 [2, 5, 6] 2).compressed.length + 16 :=
  C29_position_after_descriptor demoReseedEnv 100 40 1000 false (List.replicate 40 0)
    demoTrailer (descriptorEntry 8 [2, 5, 6] 2)
    { crc := [1, 2, 3, 4], compressedSize := 3, uncompressedSize := 2 } 0 []
    demoReseedEnv.locals (by unfold ZipEntry.fieldsOK; decide) rfl (by decide) (by decide) (by decide) (by decide)
    (by decide) (by decide) (fun _ => by decide) (by decide)

end I2pd
